import Mathlib

/-!
# Augmented Lagrangian driver (`auglag/auglag.c`)

A shallow embedding of the two functions of `auglag.c`, the merit function
`auglag` and the outer loop `auglag_minimize`, followed by theorems about them.

## Numbers

A C `double` is modelled by `Dbl`: an exact rational, `+inf`, `-inf` or NaN.
Arithmetic on finite values is exact (no rounding, no overflow, no signed
zero); the infinities and NaN follow the IEEE 754 rules, so that `HUGE_VAL`,
a division by zero and a comparison with NaN behave as they do in C.
A theorem whose truth in doubles depends on magnitudes states as a hypothesis
the range in which no product or quotient turns into 0 or an infinity
(`initial_rho`, `merit_ge_objective`, `icm_zero_exit`); a value that a double
reaches only by overflow, such as `rho = +inf` after repeated escalation, is
given to the model directly (`inf_d`, `inf_s`).

## External collaborators

The sub-solver (`nlopt_optimize_limited`), the set-up calls on `sub_opt`,
`malloc` and the stopping predicates of `nlopt-util` are not part of
`auglag.c`; they are the fields of `Env`, arbitrary functions of what the C
code passes to them.
-/

namespace Auglag

/-! ## The model of `double` -/

/-- A C `double`: exact rational, plus or minus infinity, or NaN. -/
inductive Dbl where
  | fin (q : ℚ)
  | pinf
  | ninf
  | nan
deriving DecidableEq

namespace Dbl

/-- Unary minus. -/
def neg : Dbl → Dbl
  | fin q => fin (-q)
  | pinf => ninf
  | ninf => pinf
  | nan => nan

/-- Addition: `inf + (-inf)` is NaN. -/
def add : Dbl → Dbl → Dbl
  | fin a, fin b => fin (a + b)
  | nan, _ => nan
  | _, nan => nan
  | pinf, ninf => nan
  | ninf, pinf => nan
  | pinf, _ => pinf
  | ninf, _ => ninf
  | fin _, pinf => pinf
  | fin _, ninf => ninf

/-- The infinity with the sign of `s` (`s` is not zero where this is used). -/
def infOfSign (s : ℚ) : Dbl := if 0 < s then pinf else ninf

/-- Multiplication: `0 * inf` is NaN. -/
def mul : Dbl → Dbl → Dbl
  | fin a, fin b => fin (a * b)
  | nan, _ => nan
  | _, nan => nan
  | fin a, pinf => if a = 0 then nan else infOfSign a
  | fin a, ninf => if a = 0 then nan else infOfSign (-a)
  | pinf, fin b => if b = 0 then nan else infOfSign b
  | ninf, fin b => if b = 0 then nan else infOfSign (-b)
  | pinf, pinf => pinf
  | pinf, ninf => ninf
  | ninf, pinf => ninf
  | ninf, ninf => pinf

/-- Division: `x / 0` is an infinity for `x` not zero, `0 / 0` and `inf / inf`
are NaN (the zero divisor is the positive zero). -/
def div : Dbl → Dbl → Dbl
  | fin a, fin b => if b = 0 then (if a = 0 then nan else infOfSign a) else fin (a / b)
  | nan, _ => nan
  | _, nan => nan
  | fin _, pinf => fin 0
  | fin _, ninf => fin 0
  | pinf, fin b => if 0 ≤ b then pinf else ninf
  | ninf, fin b => if 0 ≤ b then ninf else pinf
  | pinf, pinf => nan
  | pinf, ninf => nan
  | ninf, pinf => nan
  | ninf, ninf => nan

/-- The C operator `<`: false as soon as an operand is NaN. -/
def lt : Dbl → Dbl → Bool
  | fin a, fin b => decide (a < b)
  | fin _, pinf => true
  | ninf, fin _ => true
  | ninf, pinf => true
  | _, _ => false

/-- The C operator `<=`: false as soon as an operand is NaN. -/
def le : Dbl → Dbl → Bool
  | fin a, fin b => decide (a ≤ b)
  | nan, _ => false
  | _, nan => false
  | _, pinf => true
  | ninf, _ => true
  | _, _ => false

/-- The C operator `==`: false as soon as an operand is NaN. -/
def eq : Dbl → Dbl → Bool
  | fin a, fin b => decide (a = b)
  | pinf, pinf => true
  | ninf, ninf => true
  | _, _ => false

/-- The C library function `fabs`. -/
def fabs : Dbl → Dbl
  | fin q => fin |q|
  | pinf => pinf
  | ninf => pinf
  | nan => nan

instance : Neg Dbl := ⟨neg⟩
instance : Add Dbl := ⟨add⟩
instance : Mul Dbl := ⟨mul⟩
instance : Div Dbl := ⟨div⟩
instance : LT Dbl := ⟨fun a b => lt a b = true⟩
instance : LE Dbl := ⟨fun a b => le a b = true⟩
instance (a b : Dbl) : Decidable (a < b) := inferInstanceAs (Decidable (lt a b = true))
instance (a b : Dbl) : Decidable (a ≤ b) := inferInstanceAs (Decidable (le a b = true))
instance (n : Nat) : OfNat Dbl n := ⟨fin n⟩
instance : OfScientific Dbl := ⟨fun m s e => fin (OfScientific.ofScientific m s e)⟩
instance : Inhabited Dbl := ⟨fin 0⟩

end Dbl

open Dbl

/-- The macro `MIN(a,b) ((a) < (b) ? (a) : (b))`. -/
def MIN (a b : Dbl) : Dbl := if a < b then a else b

/-- The macro `MAX(a,b) ((a) > (b) ? (a) : (b))`. -/
def MAX (a b : Dbl) : Dbl := if b < a then a else b

/-- The constant `HUGE_VAL` of `math.h`: positive infinity. -/
def HUGE_VAL : Dbl := pinf

/-! ## Data model -/

/-- A `double *` array. -/
abbrev Vec := List Dbl

/-- An `nlopt_func` together with its `f_data`: the call `f(n, x, grad, f_data)`
returns `val x`; when `grad` is not `NULL` the buffer it points to holds
`grad x buf` after the call, where `buf` is what it held before. -/
structure nlopt_func where
  val : Vec → Dbl
  grad : Vec → Vec → Vec

/-- The struct `nlopt_constraint`: callback (`f`, `f_data`) and tolerance `tol`. -/
structure nlopt_constraint where
  f : nlopt_func
  tol : Dbl

/-- Modelled from the spec: the struct `nlopt_stopping` of `nlopt-util.h`
(the StoppingBudget of the data model), with the fields `auglag.c` reads or
writes: the running evaluation counter, the maximum evaluation count, the
maximum wall time, the start time and the minimum-objective threshold. -/
structure nlopt_stopping where
  nevals : Int
  maxeval : Int
  maxtime : Dbl
  start : Dbl
  minf_max : Dbl

/-- The struct `auglag_data`. The pointers `fc` and `h` are the whole arrays,
of which the loops visit the first `m` and `p` entries. -/
structure auglag_data where
  f : nlopt_func
  m : Nat
  fc : List nlopt_constraint
  p : Nat
  h : List nlopt_constraint
  rho : Dbl
  lambda : List Dbl
  mu : List Dbl
  gradtmp : Vec
  stop : nlopt_stopping

/-! ## The merit function `auglag` -/

/-- The values of `L`, of the caller's buffer `grad` (`none` for `NULL`) and of
the scratch buffer `d->gradtmp` in the course of one call of `auglag`. -/
structure MeritState where
  L : Dbl
  grad : Option Vec
  gradtmp : Vec

/-- The statement `for (j = 0; j < n; ++j) grad[j] += a * gradtmp[j]`, for
buffers of `n` entries. -/
def axpy (a : Dbl) (grad gradtmp : Vec) : Vec :=
  List.zipWith (fun g t => g + a * t) grad gradtmp

/-- What a callback leaves in the scratch buffer: it is called with
`gradtmp = grad ? d->gradtmp : NULL`, and writes only when that is not `NULL`. -/
def call_grad (c : nlopt_func) (x : Vec) (s : MeritState) : Vec :=
  match s.grad with
  | some _ => c.grad x s.gradtmp
  | none => s.gradtmp

/-- One pass of the loop over the equality constraints (lines 36-41). -/
def auglag_h_step (x : Vec) (rho : Dbl) (c : nlopt_constraint) (lam : Dbl)
    (s : MeritState) : MeritState :=
  let h := c.f.val x + lam / rho
  let gradtmp := call_grad c.f x s
  { L := s.L + 0.5 * rho * h * h
    grad := s.grad.map (fun g => axpy (rho * h) g gradtmp)
    gradtmp := gradtmp }

/-- The loop `for (i = 0; i < d->p; ++i)` over `d->h[i]`, `lambda[i]`. -/
def auglag_h_loop (x : Vec) (rho : Dbl) :
    List nlopt_constraint → List Dbl → MeritState → MeritState
  | c :: cs, lam :: lams, s => auglag_h_loop x rho cs lams (auglag_h_step x rho c lam s)
  | _, _, s => s

/-- One pass of the loop over the inequality constraints (lines 43-51). -/
def auglag_fc_step (x : Vec) (rho : Dbl) (c : nlopt_constraint) (mu : Dbl)
    (s : MeritState) : MeritState :=
  let fc := c.f.val x + mu / rho
  let gradtmp := call_grad c.f x s
  if 0 < fc then
    { L := s.L + 0.5 * rho * fc * fc
      grad := s.grad.map (fun g => axpy (rho * fc) g gradtmp)
      gradtmp := gradtmp }
  else
    { s with gradtmp := gradtmp }

/-- The loop `for (i = 0; i < d->m; ++i)` over `d->fc[i]`, `mu[i]`. -/
def auglag_fc_loop (x : Vec) (rho : Dbl) :
    List nlopt_constraint → List Dbl → MeritState → MeritState
  | c :: cs, mu :: mus, s => auglag_fc_loop x rho cs mus (auglag_fc_step x rho c mu s)
  | _, _, s => s

/-- What a call of `auglag` returns and leaves behind: the value `L`, the
caller's gradient buffer, and `d` with its scratch buffer and the evaluation
counter `d->stop->nevals` updated. -/
structure MeritResult where
  L : Dbl
  grad : Option Vec
  d : auglag_data

/-- The function `auglag(n, x, grad, data)` (lines 25-56). `grad` is `none` for
`NULL`, else the contents of the caller's buffer on entry. -/
def auglag (x : Vec) (grad : Option Vec) (d : auglag_data) : MeritResult :=
  let s0 : MeritState :=
    { L := d.f.val x, grad := grad.map (fun g => d.f.grad x g), gradtmp := d.gradtmp }
  let s1 := auglag_h_loop x d.rho (d.h.take d.p) d.lambda s0
  let s2 := auglag_fc_loop x d.rho (d.fc.take d.m) d.mu s1
  { L := s2.L
    grad := s2.grad
    d := { d with gradtmp := s2.gradtmp, stop := { d.stop with nevals := d.stop.nevals + 1 } } }

/-! ## The outer loop `auglag_minimize` -/

/-- Modelled from the spec: the result codes of `nlopt.h` (absent from the
sources at hand) that `auglag.c` names: Success, MinObjectiveReached,
FunctionToleranceReached, PointToleranceReached, MaxEvaluationsReached,
MaxTimeReached are the success-class codes and are positive, OutOfMemory is
a failure and is negative. -/
def NLOPT_SUCCESS : Int := 1

/-- Modelled from the spec: MinObjectiveReached, see `NLOPT_SUCCESS`. -/
def NLOPT_MINF_MAX_REACHED : Int := 2

/-- Modelled from the spec: FunctionToleranceReached, see `NLOPT_SUCCESS`. -/
def NLOPT_FTOL_REACHED : Int := 3

/-- Modelled from the spec: PointToleranceReached, see `NLOPT_SUCCESS`. -/
def NLOPT_XTOL_REACHED : Int := 4

/-- Modelled from the spec: MaxEvaluationsReached, see `NLOPT_SUCCESS`. -/
def NLOPT_MAXEVAL_REACHED : Int := 5

/-- Modelled from the spec: MaxTimeReached, see `NLOPT_SUCCESS`. -/
def NLOPT_MAXTIME_REACHED : Int := 6

/-- Modelled from the spec: OutOfMemory, see `NLOPT_SUCCESS`. -/
def NLOPT_OUT_OF_MEMORY : Int := -3

/-- What `nlopt_optimize_limited(sub_opt, xcur, &fcur, maxeval, maxtime)` returns
and leaves behind: its status, the contents of `xcur`, and the evaluation
counter and scratch buffer that its calls of `auglag` have updated. The value
it writes to `fcur` is overwritten at line 150 before it is read. -/
structure SubResult where
  ret : Int
  xcur : Vec
  nevals : Int
  gradtmp : Vec

/-- The external collaborators of `auglag_minimize`. The set-up calls on
`sub_opt` and `malloc` are given by their outcome; the sub-solver and
`nlopt_stop_time` (which reads the clock) may answer differently in each outer
iteration `k`. -/
structure Env where
  nlopt_set_min_objective : Int
  nlopt_set_lower_bounds : Int
  nlopt_set_upper_bounds : Int
  nlopt_remove_inequality_constraints : Int
  nlopt_remove_equality_constraints : Int
  nlopt_add_inequality_constraint : Nat → Int
  malloc_ok : Bool
  nlopt_optimize_limited : Nat → auglag_data → Vec → Int → SubResult
  nlopt_stop_ftol : nlopt_stopping → Dbl → Dbl → Bool
  nlopt_stop_x : nlopt_stopping → Vec → Vec → Bool
  nlopt_stop_evals : nlopt_stopping → Bool
  nlopt_stop_time : Nat → nlopt_stopping → Bool

/-- What `auglag_minimize` does that is visible from outside, in order. -/
inductive Event where
  | add_inequality_constraint (i : Nat)
  | malloc
  | optimize (rho : Dbl) (lambda mu : List Dbl) (xcur : Vec)
  | eval_f (x : Vec)
  | eval_h (i : Nat) (x : Vec)
  | eval_fc (i : Nat) (x : Vec)
  | free
deriving DecidableEq

/-- An event is an invocation of the sub-solver. -/
def Event.isOptimize : Event → Bool
  | .optimize _ _ _ _ => true
  | _ => false

/-- The constant `tau` (line 76). -/
def tau : Dbl := 0.5

/-- The constant `gam` (line 76). -/
def gam : Dbl := 10

/-- The constant `lam_min` (line 77). -/
def lam_min : Dbl := -1e20

/-- The constant `lam_max` (line 77). -/
def lam_max : Dbl := 1e20

/-- The constant `mu_max` (line 77). -/
def mu_max : Dbl := 1e20

/-- The loop `for (i = 0; i < m; ++i)` of lines 96-100, from index `i` on,
entered with `ret` not negative: `ret` when the loop is left (negative when a
call has failed, which returns from the function) and the calls made. -/
def add_constraints_loop (env : Env) : Nat → List nlopt_constraint → Int × List Event →
    Int × List Event
  | _, [], r => r
  | i, _ :: cs, r =>
    let ret := env.nlopt_add_inequality_constraint i
    let tr := r.2 ++ [Event.add_inequality_constraint i]
    if ret < 0 then (ret, tr) else add_constraints_loop env (i + 1) cs (ret, tr)

/-- Lines 91-100, the set-up of `sub_opt`: `ret` after them (negative when a
call has failed, which returns from the function) and the trace. `m` is the
local `m` after lines 86-89. -/
def auglag_setup (env : Env) (m : Nat) (fc : List nlopt_constraint) : Int × List Event :=
  if env.nlopt_set_min_objective < 0 then (env.nlopt_set_min_objective, [])
  else if env.nlopt_set_lower_bounds < 0 then (env.nlopt_set_lower_bounds, [])
  else if env.nlopt_set_upper_bounds < 0 then (env.nlopt_set_upper_bounds, [])
  else if env.nlopt_remove_inequality_constraints < 0 then
    (env.nlopt_remove_inequality_constraints, [])
  else if env.nlopt_remove_equality_constraints < 0 then
    (env.nlopt_remove_equality_constraints, [])
  else add_constraints_loop env 0 (fc.take m) (env.nlopt_remove_equality_constraints, [])

/-- The evaluations of the constraints made by the loops of lines 120-131 and
of lines 155-170, in order. -/
def eval_events (d : auglag_data) (xcur : Vec) : List Event :=
  (List.range (d.h.take d.p).length).map (fun i => Event.eval_h i xcur)
    ++ (List.range (d.fc.take d.m).length).map (fun i => Event.eval_fc i xcur)

/-- The locals `penalty`, `feasible`, `con2` of lines 114-136. -/
structure InitState where
  penalty : Dbl
  feasible : Bool
  con2 : Dbl

/-- The loop over the equality constraints at the initial guess (lines 120-125). -/
def init_h_loop (xcur : Vec) : List nlopt_constraint → InitState → InitState
  | [], s => s
  | c :: cs, s =>
    let hi := c.f.val xcur
    init_h_loop xcur cs
      { penalty := s.penalty + fabs hi
        feasible := s.feasible && decide (fabs hi ≤ c.tol)
        con2 := s.con2 + hi * hi }

/-- The loop over the inequality constraints at the initial guess (lines 126-131). -/
def init_fc_loop (xcur : Vec) : List nlopt_constraint → InitState → InitState
  | [], s => s
  | c :: cs, s =>
    let fci := c.f.val xcur
    init_fc_loop xcur cs
      { penalty := s.penalty + (if 0 < fci then fci else 0)
        feasible := s.feasible && decide (fci ≤ c.tol)
        con2 := if 0 < fci then s.con2 + fci * fci else s.con2 }

/-- The locals `penalty`, `feasible`, `ICM` of lines 152-170. -/
structure ScoreState where
  penalty : Dbl
  feasible : Bool
  ICM : Dbl

/-- The loop over the equality constraints in an outer iteration (lines
155-162): the locals after it and the new contents of `d.lambda`. -/
def iter_h_loop (xcur : Vec) (rho : Dbl) :
    List nlopt_constraint → List Dbl → ScoreState → ScoreState × List Dbl
  | c :: cs, lam :: lams, s =>
    let hi := c.f.val xcur
    let newlam := lam + rho * hi
    let r := iter_h_loop xcur rho cs lams
      { penalty := s.penalty + fabs hi
        feasible := s.feasible && decide (fabs hi ≤ c.tol)
        ICM := MAX s.ICM (fabs hi) }
    (r.1, MIN (MAX lam_min newlam) lam_max :: r.2)
  | _, lams, s => (s, lams)

/-- The loop over the inequality constraints in an outer iteration (lines
163-170): the locals after it and the new contents of `d.mu`. -/
def iter_fc_loop (xcur : Vec) (rho : Dbl) :
    List nlopt_constraint → List Dbl → ScoreState → ScoreState × List Dbl
  | c :: cs, mu :: mus, s =>
    let fci := c.f.val xcur
    let newmu := mu + rho * fci
    let r := iter_fc_loop xcur rho cs mus
      { penalty := s.penalty + (if 0 < fci then fci else 0)
        feasible := s.feasible && decide (fci ≤ c.tol)
        ICM := MAX s.ICM (fabs (MAX fci (-mu / rho))) }
    (r.1, MIN (MAX 0.0 newmu) mu_max :: r.2)
  | _, mus, s => (s, mus)

/-- Lines 152-170: the locals `penalty`, `feasible`, `ICM` computed at `xcur`,
and the new contents of `d.lambda` and of `d.mu`. -/
def auglag_score (d : auglag_data) (xcur : Vec) : ScoreState × List Dbl × List Dbl :=
  let rh := iter_h_loop xcur d.rho (d.h.take d.p) d.lambda
    { penalty := 0, feasible := true, ICM := 0 }
  let rfc := iter_fc_loop xcur d.rho (d.fc.take d.m) d.mu rh.1
  (rfc.1, rh.2, rfc.2)

/-- The variables of `auglag_minimize` that live across outer iterations: `d`
(with `d.stop` for `*stop`), `xcur`, `ICM`, the best record `x`, `*minf`,
`minf_penalty`, `minf_feasible`, the status `ret`, the number `k` of iterations
completed so far, and the trace. -/
structure LoopState where
  d : auglag_data
  xcur : Vec
  ICM : Dbl
  x : Vec
  minf : Dbl
  minf_penalty : Dbl
  minf_feasible : Bool
  ret : Int
  k : Nat
  trace : List Event

/-- The call `nlopt_optimize_limited(sub_opt, xcur, &fcur, stop->maxeval -
stop->nevals, ...)` of lines 143-146. -/
def sub_call (env : Env) (s : LoopState) : SubResult :=
  env.nlopt_optimize_limited s.k s.d s.xcur (s.d.stop.maxeval - s.d.stop.nevals)

/-- The struct `d` when the sub-solver has returned `sub`. -/
def d_after_sub (s : LoopState) (sub : SubResult) : auglag_data :=
  { s.d with gradtmp := sub.gradtmp, stop := { s.d.stop with nevals := sub.nevals } }

/-- The struct `d` after the `d.stop->nevals++` of line 149. -/
def d_after_eval (s : LoopState) (sub : SubResult) : auglag_data :=
  { d_after_sub s sub with
    stop := { (d_after_sub s sub).stop with nevals := (d_after_sub s sub).stop.nevals + 1 } }

/-- The condition of the `if` of lines 183-185. -/
def accept (feasible : Bool) (penalty fcur : Dbl) (s : LoopState) : Bool :=
  (feasible && (!s.minf_feasible || decide (penalty < s.minf_penalty)
      || decide (fcur ≤ s.minf)))
    || (!s.minf_feasible && decide (penalty ≤ s.minf_penalty))

/-- The status chosen in lines 186-201 when a candidate is accepted. -/
def accept_ret (env : Env) (feasible : Bool) (penalty fcur : Dbl) (s : LoopState) : Int :=
  if feasible then
    if fcur < s.d.stop.minf_max then NLOPT_MINF_MAX_REACHED
    else if env.nlopt_stop_ftol s.d.stop fcur s.minf then NLOPT_FTOL_REACHED
    else if env.nlopt_stop_x s.d.stop s.xcur s.x then NLOPT_XTOL_REACHED
    else NLOPT_SUCCESS
  else
    if env.nlopt_stop_ftol s.d.stop fcur s.minf
        && env.nlopt_stop_ftol s.d.stop penalty s.minf_penalty then NLOPT_FTOL_REACHED
    else if env.nlopt_stop_x s.d.stop s.xcur s.x then NLOPT_XTOL_REACHED
    else NLOPT_SUCCESS

/-- How one pass of the body of the `do ... while (1)` loop ends: `next` when
the loop goes on, `done` when the function returns. -/
inductive Outcome where
  | next (s : LoopState)
  | done (s : LoopState)

/-- The state in which a pass of the loop body ends. -/
def Outcome.state : Outcome → LoopState
  | .next s => s
  | .done s => s

/-- Lines 209-219: the budget checks and the `ICM == 0` exit, after the
acceptance block. `break` leads to `free(xcur); return ret;`, the `return` of
line 219 leaves at once. -/
def auglag_iter_tail (env : Env) (s : LoopState) : Outcome :=
  if env.nlopt_stop_evals s.d.stop then
    .done { s with ret := NLOPT_MAXEVAL_REACHED, trace := s.trace ++ [Event.free] }
  else if env.nlopt_stop_time s.k s.d.stop then
    .done { s with ret := NLOPT_MAXTIME_REACHED, trace := s.trace ++ [Event.free] }
  else if Dbl.eq s.ICM 0 then
    .done { s with ret := NLOPT_FTOL_REACHED }
  else
    .next { s with k := s.k + 1 }

/-- Lines 149-173, when the sub-solver has returned `sub` with success: the
struct `d` after the evaluation of the objective, the update of the multipliers
and the escalation of `rho`; `s.ICM` is `prev_ICM`. -/
def iter_d (s : LoopState) (sub : SubResult) : auglag_data :=
  let d := d_after_eval s sub
  let r := auglag_score d sub.xcur
  let d : auglag_data := { d with lambda := r.2.1, mu := r.2.2 }
  if tau * s.ICM < r.1.ICM then { d with rho := d.rho * gam } else d

/-- The locals `penalty`, `feasible`, `ICM` of the pass in which the sub-solver
has returned `sub` (lines 152-170). -/
def iter_score (s : LoopState) (sub : SubResult) : ScoreState :=
  (auglag_score (d_after_eval s sub) sub.xcur).1

/-- The local `fcur` after line 150. -/
def iter_fcur (s : LoopState) (sub : SubResult) : Dbl :=
  (d_after_eval s sub).f.val sub.xcur

/-- The state before the acceptance test of line 183, when the sub-solver has
returned `sub` with success. -/
def iter_scored (s : LoopState) (sub : SubResult) : LoopState :=
  { s with d := iter_d s sub, xcur := sub.xcur, ICM := (iter_score s sub).ICM, ret := sub.ret,
           trace := s.trace ++ [Event.optimize s.d.rho s.d.lambda s.d.mu s.xcur]
             ++ [Event.eval_f sub.xcur] ++ eval_events s.d sub.xcur }

/-- Lines 183-219: the acceptance block and what follows it, for the
candidate `xcur` of `s1` with the locals `fcur` and `sc`. -/
def iter_accept (env : Env) (fcur : Dbl) (sc : ScoreState) (s1 : LoopState) : Outcome :=
  if accept sc.feasible sc.penalty fcur s1 then
    let ret := accept_ret env sc.feasible sc.penalty fcur s1
    let s2 : LoopState :=
      { s1 with ret := ret, minf := fcur, minf_penalty := sc.penalty,
                minf_feasible := sc.feasible, x := s1.xcur }
    if ret ≠ NLOPT_SUCCESS then
      .done { s2 with trace := s2.trace ++ [Event.free] }
    else auglag_iter_tail env s2
  else auglag_iter_tail env s1

/-- One pass of the body of the `do ... while (1)` loop (lines 141-219). -/
def auglag_iter (env : Env) (s : LoopState) : Outcome :=
  let sub := sub_call env s
  if sub.ret < 0 then
    .done { s with d := d_after_sub s sub, xcur := sub.xcur, ret := sub.ret,
                   trace := s.trace ++ [Event.optimize s.d.rho s.d.lambda s.d.mu s.xcur]
                     ++ [Event.free] }
  else
    iter_accept env (iter_fcur s sub) (iter_score s sub) (iter_scored s sub)

/-- The `do ... while (1)` loop, for at most `fuel` passes: the state in which
the function returns, or `none` when the loop is still running after them. -/
def auglag_loop (env : Env) : Nat → LoopState → Option LoopState
  | 0, _ => none
  | fuel + 1, s =>
    match auglag_iter env s with
    | .done s1 => some s1
    | .next s1 => auglag_loop env fuel s1

/-- What the caller of `auglag_minimize` sees on return: the status, the
contents of `x` and `*minf`, the evaluation counter, and the trace. -/
structure Result where
  ret : Int
  x : Vec
  minf : Dbl
  nevals : Int
  trace : List Event

/-- The caller's view of the state in which the loop was left. -/
def LoopState.result (s : LoopState) : Result :=
  { ret := s.ret, x := s.x, minf := s.minf, nevals := s.d.stop.nevals, trace := s.trace }

/-- Lines 102-138: the scratch block, `*minf = HUGE_VAL` and the starting
`rho`; the state in which the loop is entered. `d` is the `auglag_data` of
lines 79-89, `ret` the status of the last set-up call, `tr` the trace so far. -/
def auglag_init (d : auglag_data) (x : Vec) (ret : Int) (tr : List Event) : LoopState :=
  let xcur := x
  let d : auglag_data :=
    { d with gradtmp := List.replicate x.length 0
             lambda := List.replicate d.p 0
             mu := List.replicate d.m 0 }
  if 0 < d.p ∨ 0 < d.m then
    let d : auglag_data := { d with stop := { d.stop with nevals := d.stop.nevals + 1 } }
    let fcur := d.f.val xcur
    let i1 := init_h_loop xcur (d.h.take d.p) { penalty := 0, feasible := true, con2 := 0 }
    let i2 := init_fc_loop xcur (d.fc.take d.m) i1
    { d := { d with rho := MAX 1e-6 (MIN 10 (2 * fabs fcur / i2.con2)) }
      xcur := xcur, ICM := HUGE_VAL, x := x, minf := fcur, minf_penalty := i2.penalty
      minf_feasible := i2.feasible, ret := ret, k := 0
      trace := tr ++ [Event.eval_f xcur] ++ eval_events d xcur }
  else
    { d := { d with rho := 1 }
      xcur := xcur, ICM := HUGE_VAL, x := x, minf := HUGE_VAL, minf_penalty := HUGE_VAL
      minf_feasible := false, ret := ret, k := 0, trace := tr }

/-- Lines 79-89: the struct `d` before the scratch block is carved up; `d.m`
is 0 when the sub-solver handles the inequality constraints itself. The fields
set later (`rho`, `lambda`, `mu`, `gradtmp`) are not yet initialised. -/
def auglag_data_of (f : nlopt_func) (m : Nat) (fc : List nlopt_constraint) (p : Nat)
    (h : List nlopt_constraint) (stop : nlopt_stopping) (sub_has_fc : Bool) : auglag_data :=
  { f := f, m := if sub_has_fc then 0 else m, fc := fc, p := p, h := h,
    rho := 0, lambda := [], mu := [], gradtmp := [], stop := stop }

/-- The state in which `auglag_minimize` enters its loop, when the set-up of
lines 91-100 and the allocation of line 102 have succeeded. -/
def auglag_entry (env : Env) (f : nlopt_func)
    (m : Nat) (fc : List nlopt_constraint) (p : Nat) (h : List nlopt_constraint)
    (x : Vec) (stop : nlopt_stopping) (sub_has_fc : Bool) : LoopState :=
  let r := auglag_setup env (if sub_has_fc then m else 0) fc
  auglag_init (auglag_data_of f m fc p h stop sub_has_fc) x r.1 (r.2 ++ [Event.malloc])

/-- The function `auglag_minimize` (lines 60-224), its loop run for at most
`fuel` passes; `none` when the loop is still running after them. `x` and `minf`
are the contents of `x` and `*minf` on entry; the arrays hold `n = x.length`
doubles, so that the `memcpy` of `n` doubles copy them whole. The diagnostic
`printf` of lines 175-181 has no effect on the variables and is left out. -/
def auglag_minimize (env : Env) (fuel : Nat) (f : nlopt_func)
    (m : Nat) (fc : List nlopt_constraint) (p : Nat) (h : List nlopt_constraint)
    (x : Vec) (minf : Dbl) (stop : nlopt_stopping) (sub_has_fc : Bool) : Option Result :=
  let r := auglag_setup env (if sub_has_fc then m else 0) fc
  if r.1 < 0 then
    some { ret := r.1, x := x, minf := minf, nevals := stop.nevals, trace := r.2 }
  else if !env.malloc_ok then
    some { ret := NLOPT_OUT_OF_MEMORY, x := x, minf := minf, nevals := stop.nevals,
           trace := r.2 ++ [Event.malloc] }
  else
    (auglag_loop env fuel (auglag_entry env f m fc p h x stop sub_has_fc)).map LoopState.result

/-- The state in which the loop entered in state `s` begins its pass number
`n` (counted from 0), or `none` when the function has returned before. -/
def state_at (env : Env) : Nat → LoopState → Option LoopState
  | 0, s => some s
  | n + 1, s =>
    match auglag_iter env s with
    | .next s1 => state_at env n s1
    | .done _ => none

/-! ## The merit function as the specification writes it -/

/-- The sum of a list of doubles. -/
def dsum : List Dbl → Dbl
  | [] => 0
  | a :: as => a + dsum as

/-- The shifted residual `c(x) + mult / rho` of a constraint `c` paired with
its multiplier `mult`. -/
def shifted (x : Vec) (rho : Dbl) (cm : nlopt_constraint × Dbl) : Dbl :=
  cm.1.f.val x + cm.2 / rho

/-- The penalty term `0.5 * rho * (c(x) + mult / rho)^2`. -/
def penalty_term (x : Vec) (rho : Dbl) (cm : nlopt_constraint × Dbl) : Dbl :=
  0.5 * rho * (shifted x rho cm * shifted x rho cm)

/-- An inequality term is active when `g(x) + mu / rho > 0`. -/
def active (x : Vec) (rho : Dbl) (cm : nlopt_constraint × Dbl) : Bool :=
  decide (0 < shifted x rho cm)

/-- The equality constraints of `d`, each with its multiplier `lambda[i]`. -/
def eq_terms (d : auglag_data) : List (nlopt_constraint × Dbl) :=
  (d.h.take d.p).zip d.lambda

/-- The penalty-handled inequality constraints of `d`, each with its multiplier
`mu[j]`. -/
def ineq_terms (d : auglag_data) : List (nlopt_constraint × Dbl) :=
  (d.fc.take d.m).zip d.mu

/-- The merit value as the specification writes it:
`L(x) = f(x) + sum_i 0.5 rho (h_i(x) + lambda_i/rho)^2
      + sum_(j active) 0.5 rho (g_j(x) + mu_j/rho)^2`. -/
def merit_spec (d : auglag_data) (x : Vec) : Dbl :=
  d.f.val x
    + dsum ((eq_terms d).map (penalty_term x d.rho))
    + dsum (((ineq_terms d).filter (active x d.rho)).map (penalty_term x d.rho))

/-- The entry `v[j]` of an array. -/
def idx (v : Vec) (j : Nat) : Dbl := v.getD j 0

/-- A callback fully populates a gradient buffer of `n` entries: whatever the
buffer held, after the call it holds the same `n` partial derivatives. -/
def populates (n : Nat) (c : nlopt_func) : Prop :=
  ∀ (x b : Vec), b.length = n →
    c.grad x b = c.grad x (List.replicate n 0) ∧ (c.grad x b).length = n

/-- The gradient of a callback at `x`: what it writes into a buffer of `n`
entries. -/
def grad_of (n : Nat) (c : nlopt_func) (x : Vec) : Vec :=
  c.grad x (List.replicate n 0)

/-- Component `j` of the gradient term `rho * (c(x) + mult / rho) * grad c(x)`. -/
def grad_term (n : Nat) (x : Vec) (rho : Dbl) (j : Nat) (cm : nlopt_constraint × Dbl) : Dbl :=
  rho * shifted x rho cm * idx (grad_of n cm.1.f x) j

/-- The gradient of the merit function as the specification writes it,
component by component: `grad f(x) + sum_i rho (h_i(x) + lambda_i/rho) grad h_i(x)
  + sum_(j active) rho (g_j(x) + mu_j/rho) grad g_j(x)`. -/
def grad_spec (n : Nat) (d : auglag_data) (x : Vec) : Vec :=
  (List.range n).map fun j =>
    idx (grad_of n d.f x) j
      + dsum ((eq_terms d).map (grad_term n x d.rho j))
      + dsum (((ineq_terms d).filter (active x d.rho)).map (grad_term n x d.rho j))

/-- What the loops of `auglag` maintain when a gradient is requested: the
caller's buffer holds `G`, and both buffers have `n` entries. -/
def GradInv (n : Nat) (s : MeritState) (G : Vec) : Prop :=
  s.grad = some G ∧ G.length = n ∧ s.gradtmp.length = n

/-! ## Predicates used in the statements about the outer loop -/

/-- The value `r` is `v` clamped to `[lo, hi]`: it lies in the interval, is the
bound that `v` exceeds, and is `v` itself when `v` lies in the interval. -/
def IsClamp (r v lo hi : Dbl) : Prop :=
  lo ≤ r ∧ r ≤ hi ∧ (v < lo → r = lo) ∧ (hi < v → r = hi) ∧ (lo ≤ v → v ≤ hi → r = v)

/-- Every `lambda_i` lies in `[-1e20, 1e20]` and every `mu_j` in `[0, 1e20]`. -/
def MultBounds (d : auglag_data) : Prop :=
  (∀ l ∈ d.lambda, lam_min ≤ l ∧ l ≤ lam_max) ∧ (∀ u ∈ d.mu, 0 ≤ u ∧ u ≤ mu_max)

/-- The problem held by `d` is the one held by `d0`, and the multiplier arrays
have the sizes `p` and `m` with which they were allocated. -/
def SameProblem (d0 d : auglag_data) : Prop :=
  d.f = d0.f ∧ d.p = d0.p ∧ d.h = d0.h ∧ d.m = d0.m ∧ d.fc = d0.fc
    ∧ d.lambda.length = d0.p ∧ d.mu.length = d0.m

/-- The penalty is NaN or a positive finite number. -/
def RhoOK (rho : Dbl) : Prop :=
  rho = nan ∨ ∃ q : ℚ, rho = fin q ∧ 0 < q

/-- The best record: `x`, `*minf`, `minf_penalty`, `minf_feasible`. -/
def LoopState.best (s : LoopState) : Vec × Dbl × Dbl × Bool :=
  (s.x, s.minf, s.minf_penalty, s.minf_feasible)

/-- What holds of `d` at the start of every pass of the loop entered by
`auglag_minimize` on the problem `d0`. -/
def LoopInv (d0 : auglag_data) (s : LoopState) : Prop :=
  SameProblem d0 s.d ∧ MultBounds s.d ∧ RhoOK s.d.rho

/-- The status with which a pass returns when no constraint is handled by the
penalty and the sub-solver has succeeded: the reason of the first stopping
test that fires, `NLOPT_FTOL_REACHED` (the `ICM == 0` exit) when none does. -/
def nc_status (env : Env) (s : LoopState) : Int :=
  let sub := sub_call env s
  let stop := (d_after_eval s sub).stop
  let fcur := s.d.f.val sub.xcur
  if fcur < stop.minf_max then NLOPT_MINF_MAX_REACHED
  else if env.nlopt_stop_ftol stop fcur s.minf then NLOPT_FTOL_REACHED
  else if env.nlopt_stop_x stop sub.xcur s.x then NLOPT_XTOL_REACHED
  else if env.nlopt_stop_evals stop then NLOPT_MAXEVAL_REACHED
  else if env.nlopt_stop_time s.k stop then NLOPT_MAXTIME_REACHED
  else NLOPT_FTOL_REACHED

/-- The acceptance rule as the specification writes it, for a candidate with
the flags and values `feasible`, `penalty`, `fcur` against the best record of `s`:
`(feasible AND (best infeasible OR penalty < best penalty OR fcur <= best f))
 OR (best infeasible AND penalty <= best penalty)`. -/
def AcceptRule (feasible : Bool) (penalty fcur : Dbl) (s : LoopState) : Prop :=
  (feasible = true ∧ (s.minf_feasible = false ∨ penalty < s.minf_penalty ∨ fcur ≤ s.minf))
    ∨ (s.minf_feasible = false ∧ penalty ≤ s.minf_penalty)

/-! ## Example problems and runs -/

/-- An objective that reads the first coordinate of the point. -/
def run_f : nlopt_func :=
  { val := fun x => idx x 0, grad := fun _ _ => [fin 1, fin 0] }

/-- An equality constraint that reads the second coordinate of the point, with
tolerance 1. -/
def run_h : nlopt_constraint :=
  { f := { val := fun x => idx x 1, grad := fun _ _ => [fin 0, fin 1] }, tol := fin 1 }

/-- A stopping record with no threshold on the objective. -/
def run_stop : nlopt_stopping :=
  { nevals := 0, maxeval := 0, maxtime := fin 0, start := fin 0, minf_max := ninf }

/-- An environment in which set-up and allocation succeed, no stopping
predicate fires, and the sub-solver succeeds, moving to `(1, 1/2)` in the first
pass and to `(5, 1/4)` in the later ones. -/
def run_env : Env :=
  { nlopt_set_min_objective := 1
    nlopt_set_lower_bounds := 1
    nlopt_set_upper_bounds := 1
    nlopt_remove_inequality_constraints := 1
    nlopt_remove_equality_constraints := 1
    nlopt_add_inequality_constraint := fun _ => 1
    malloc_ok := true
    nlopt_optimize_limited := fun k d _ _ =>
      { ret := 1, xcur := if k = 0 then [fin 1, fin (1 / 2)] else [fin 5, fin (1 / 4)],
        nevals := d.stop.nevals, gradtmp := d.gradtmp }
    nlopt_stop_ftol := fun _ _ _ => false
    nlopt_stop_x := fun _ _ _ => false
    nlopt_stop_evals := fun _ => false
    nlopt_stop_time := fun _ _ => false }

/-- The state in which `auglag_minimize` enters its loop for `run_f` subject to
`run_h`, from the initial guess `(0, 2)`. -/
def run_s0 : LoopState :=
  auglag_entry run_env run_f 0 [] 1 [run_h] [fin 0, fin 2] run_stop false

/-- The state in which the run from `run_s0` begins its second pass. -/
def run_s1 : LoopState :=
  { d := { f := run_f, m := 0, fc := [], p := 1, h := [run_h], rho := fin (1 / 1000000),
           lambda := [fin (1 / 2000000)], mu := [], gradtmp := [fin 0, fin 0],
           stop := { run_stop with nevals := 2 } }
    xcur := [fin 1, fin (1 / 2)], ICM := fin (1 / 2), x := [fin 1, fin (1 / 2)], minf := fin 1,
    minf_penalty := fin (1 / 2), minf_feasible := true, ret := 1, k := 1,
    trace := [Event.malloc, Event.eval_f [fin 0, fin 2], Event.eval_h 0 [fin 0, fin 2],
      Event.optimize (fin (1 / 1000000)) [fin 0] [] [fin 0, fin 2],
      Event.eval_f [fin 1, fin (1 / 2)], Event.eval_h 0 [fin 1, fin (1 / 2)]] }

/-- The environment `run_env` with an allocation that fails. -/
def nomem_env : Env := { run_env with malloc_ok := false }

/-- The environment `run_env` with a sub-solver that fails with status `-1`
after moving the point to `(9, 9)`. -/
def fail_env : Env :=
  { run_env with
    nlopt_optimize_limited := fun _ d _ _ =>
      { ret := -1, xcur := [fin 9, fin 9], nevals := d.stop.nevals, gradtmp := d.gradtmp } }

/-- The state in which `auglag_minimize` enters its loop for `run_f` subject to
`run_h`, from the initial guess `(0, 2)`, in the environment `fail_env`. -/
def fail_s0 : LoopState :=
  auglag_entry fail_env run_f 0 [] 1 [run_h] [fin 0, fin 2] run_stop false

/-- The objective `x^2` of one variable. -/
def gr_f : nlopt_func :=
  { val := fun x => idx x 0 * idx x 0, grad := fun x _ => [fin 2 * idx x 0] }

/-- The constraint function `x - 1`. -/
def gr_h : nlopt_constraint :=
  { f := { val := fun x => idx x 0 + fin (-1), grad := fun _ _ => [fin 1] }, tol := fin 0 }

/-- The constraint function `x - 2`. -/
def gr_g1 : nlopt_constraint :=
  { f := { val := fun x => idx x 0 + fin (-2), grad := fun _ _ => [fin 1] }, tol := fin 0 }

/-- The constraint function `-x`. -/
def gr_g2 : nlopt_constraint :=
  { f := { val := fun x => -idx x 0, grad := fun _ _ => [fin (-1)] }, tol := fin 0 }

/-- A merit function of one variable: objective `gr_f`, equality constraint
`gr_h` with multiplier 1, inequality constraints `gr_g1` and `gr_g2` with
multipliers 0, penalty 2, and a scratch buffer that holds 7. -/
def gr_d : auglag_data :=
  { f := gr_f, m := 2, fc := [gr_g1, gr_g2], p := 1, h := [gr_h], rho := fin 2,
    lambda := [fin 1], mu := [fin 0, fin 0], gradtmp := [fin 7], stop := run_stop }

/-! ## The scores as the specification writes them -/

/-- A value is finite. -/
def Dbl.isFin : Dbl → Bool
  | fin _ => true
  | _ => false

/-- The rational value of a finite double (0 for the others). -/
def Dbl.toRat : Dbl → ℚ
  | fin q => q
  | _ => 0

/-- The violation sum `sum_i |h_i(x)| + sum_j max(g_j(x), 0)` of the equality
constraints `hs` and the inequality constraints `gs` at `x`. -/
def violation_sum (hs gs : List nlopt_constraint) (x : Vec) : Dbl :=
  dsum (hs.map fun c => fabs (c.f.val x)) + dsum (gs.map fun c => MAX (c.f.val x) 0)

/-- Every `|h_i(x)| <= tol_i` and every `g_j(x) <= tol_j`. -/
def within_tol (hs gs : List nlopt_constraint) (x : Vec) : Prop :=
  (∀ c ∈ hs, fabs (c.f.val x) ≤ c.tol) ∧ (∀ c ∈ gs, c.f.val x ≤ c.tol)

/-- The sum of squared infeasibilities
`con2 = sum_i h_i(x)^2 + sum_j max(g_j(x), 0)^2`. -/
def con2_spec (hs gs : List nlopt_constraint) (x : Vec) : Dbl :=
  dsum (hs.map fun c => c.f.val x * c.f.val x)
    + dsum (gs.map fun c => MAX (c.f.val x) 0 * MAX (c.f.val x) 0)

/-- The largest of a list of doubles (`-inf` for the empty list). -/
def dmax : List Dbl → Dbl
  | [] => ninf
  | a :: as => MAX a (dmax as)

/-- The infeasibility measure as the specification writes it:
`ICM = max( max_i |h_i(x)|, max_j max(g_j(x), -mu_j/rho) )`. -/
def icm_spec (d : auglag_data) (x : Vec) : Dbl :=
  MAX (dmax ((d.h.take d.p).map fun c => fabs (c.f.val x)))
    (dmax ((ineq_terms d).map fun cm => MAX (cm.1.f.val x) (-cm.2 / d.rho)))

/-- The infeasibility measure as the code computes it, for equality residuals
`hs`, inequality residuals paired with their multipliers `gs`, and penalty
`rho`: `max(0, max_i |h_i|, max_j |max(g_j, -mu_j/rho)|)`. -/
def icm_abs (hs : List ℚ) (gs : List (ℚ × ℚ)) (rho : ℚ) : ℚ :=
  (hs.map (fun h => |h|) ++ gs.map (fun gm => |max gm.1 (-gm.2 / rho)|)).foldl max 0

/-- The equality residuals `h_i(x)` of `d`, as rationals. -/
def eq_values (d : auglag_data) (x : Vec) : List ℚ :=
  (d.h.take d.p).map fun c => (c.f.val x).toRat

/-- The inequality residuals `g_j(x)` of `d` paired with the multipliers `mu_j`,
as rationals. -/
def ineq_values (d : auglag_data) (x : Vec) : List (ℚ × ℚ) :=
  (ineq_terms d).map fun cm => ((cm.1.f.val x).toRat, cm.2.toRat)

/-- An inequality constraint that reads the third coordinate of the point,
with tolerance 0. -/
def icm_g : nlopt_constraint :=
  { f := { val := fun x => idx x 2, grad := fun _ _ => [fin 0, fin 0, fin 1] }, tol := fin 0 }

/-- The environment `run_env` with a sub-solver that moves to `(1, 0, 2)` in the
first pass and to `(1, 0, -1)` in the later ones. -/
def icm_env : Env :=
  { run_env with
    nlopt_optimize_limited := fun k d _ _ =>
      { ret := 1, xcur := if k = 0 then [fin 1, fin 0, fin 2] else [fin 1, fin 0, fin (-1)],
        nevals := d.stop.nevals, gradtmp := d.gradtmp } }

/-- The state in which `auglag_minimize` enters its loop for `run_f` subject to
the equality constraint `run_h` and the penalty-handled inequality constraint
`icm_g`, from the initial guess `(2, 0, 2)`. -/
def icm_s0 : LoopState :=
  auglag_entry icm_env run_f 1 [icm_g] 1 [run_h] [fin 2, fin 0, fin 2] run_stop false

/-- The state in which the run from `icm_s0` begins its second pass. -/
def icm_s1 : LoopState :=
  { d := { f := run_f, m := 1, fc := [icm_g], p := 1, h := [run_h], rho := fin 1,
           lambda := [fin 0], mu := [fin 2], gradtmp := [fin 0, fin 0, fin 0],
           stop := { run_stop with nevals := 2 } }
    xcur := [fin 1, fin 0, fin 2], ICM := fin 2, x := [fin 1, fin 0, fin 2], minf := fin 1,
    minf_penalty := fin 2, minf_feasible := false, ret := 1, k := 1,
    trace := [Event.malloc, Event.eval_f [fin 2, fin 0, fin 2],
      Event.eval_h 0 [fin 2, fin 0, fin 2], Event.eval_fc 0 [fin 2, fin 0, fin 2],
      Event.optimize (fin 1) [fin 0] [fin 0] [fin 2, fin 0, fin 2],
      Event.eval_f [fin 1, fin 0, fin 2], Event.eval_h 0 [fin 1, fin 0, fin 2],
      Event.eval_fc 0 [fin 1, fin 0, fin 2]] }

/-- The outcome of a pass, with its state transformed by `g`. -/
def Outcome.map (g : LoopState → LoopState) : Outcome → Outcome
  | .next s => .next (g s)
  | .done s => .done (g s)

/-- The environment `run_env` with an evaluation budget that is exhausted. -/
def maxeval_env : Env := { run_env with nlopt_stop_evals := fun _ => true }

/-- The environment `run_env` with an evaluation budget that is exhausted and
a test `nlopt_stop_x` that fires. -/
def xtol_env : Env :=
  { run_env with nlopt_stop_x := fun _ _ _ => true, nlopt_stop_evals := fun _ => true }

/-- An objective that returns `HUGE_VAL` at every point. -/
def huge_f : nlopt_func :=
  { val := fun _ => HUGE_VAL, grad := fun _ _ => [fin 0, fin 0] }

/-- An equality constraint that returns `HUGE_VAL` at every point, with
tolerance 0. -/
def huge_h : nlopt_constraint :=
  { f := { val := fun _ => HUGE_VAL, grad := fun _ _ => [fin 0, fin 0] }, tol := fin 0 }

/-- The merit function `gr_d` with zero multipliers and the penalty `+inf`, the
value that `rho` takes in doubles when the escalation `rho *= gam` overflows. -/
def inf_d : auglag_data := { gr_d with rho := pinf, lambda := [fin 0] }

/-- A state of the loop for `run_f` subject to `run_h` and `icm_g` in which
`rho` is `+inf`, the value that `rho` takes in doubles when the escalation
`rho *= gam` overflows, and the multiplier `mu` is at its upper bound `1e20`. -/
def inf_s : LoopState :=
  { icm_s1 with
    d := { icm_s1.d with rho := pinf, mu := [fin 100000000000000000000] }, k := 309 }

/-- The environment `run_env` with a sub-solver that moves to `(1, 0, -1)`,
where `run_h` is 0 and `icm_g` is `-1`. -/
def comp_env : Env :=
  { run_env with
    nlopt_optimize_limited := fun _ d _ _ =>
      { ret := 1, xcur := [fin 1, fin 0, fin (-1)], nevals := d.stop.nevals,
        gradtmp := d.gradtmp } }

/-- The value of `icm_s0`: the state in which `auglag_minimize` enters its loop
for `run_f` subject to `run_h` and `icm_g`, from the initial guess `(2, 0, 2)`. -/
def comp_s : LoopState :=
  { d := { f := run_f, m := 1, fc := [icm_g], p := 1, h := [run_h], rho := fin 1,
           lambda := [fin 0], mu := [fin 0], gradtmp := [fin 0, fin 0, fin 0],
           stop := { run_stop with nevals := 1 } }
    xcur := [fin 2, fin 0, fin 2], ICM := pinf, x := [fin 2, fin 0, fin 2], minf := fin 2,
    minf_penalty := fin 2, minf_feasible := false, ret := 1, k := 0,
    trace := [Event.malloc, Event.eval_f [fin 2, fin 0, fin 2],
      Event.eval_h 0 [fin 2, fin 0, fin 2], Event.eval_fc 0 [fin 2, fin 0, fin 2]] }

/-! ## Arithmetic of `Dbl` -/

theorem dadd_def (a b : Dbl) : a + b = Dbl.add a b := rfl

theorem dmul_def (a b : Dbl) : a * b = Dbl.mul a b := rfl

theorem dlt_def (a b : Dbl) : (a < b) = (Dbl.lt a b = true) := rfl

theorem dle_def (a b : Dbl) : (a ≤ b) = (Dbl.le a b = true) := rfl

theorem dzero_def : (0 : Dbl) = fin 0 := by
  show fin ((0 : ℕ) : ℚ) = fin 0
  simp

theorem dofNat_def (n : ℕ) [n.AtLeastTwo] :
    (no_index (OfNat.ofNat n) : Dbl) = fin (OfNat.ofNat n) := by
  show fin ((OfNat.ofNat n : ℕ) : ℚ) = fin (OfNat.ofNat n)
  simp

theorem done_def : (1 : Dbl) = fin 1 := by
  show fin ((1 : ℕ) : ℚ) = fin 1
  simp

theorem dadd_assoc (a b c : Dbl) : a + b + c = a + (b + c) := by
  cases a <;> cases b <;> cases c <;> simp [dadd_def, Dbl.add, add_assoc]

theorem dadd_zero (a : Dbl) : a + 0 = a := by
  cases a <;> simp [dadd_def, Dbl.add, dzero_def]

theorem dmul_assoc (a b c : Dbl) : a * b * c = a * (b * c) := by
  cases a <;> cases b <;> cases c <;>
    simp [dmul_def, Dbl.mul, Dbl.infOfSign, mul_assoc]
  all_goals first
    | (rename_i x y
       rcases lt_trichotomy x 0 with hx | rfl | hx <;>
       rcases lt_trichotomy y 0 with hy | rfl | hy <;>
       simp_all [mul_pos_iff, mul_neg_iff, not_lt_of_gt, ne_of_gt, ne_of_lt, le_of_lt])
    | (rename_i x
       rcases lt_trichotomy x 0 with hx | rfl | hx <;>
       simp_all [not_lt_of_gt, ne_of_gt, ne_of_lt, le_of_lt])

/-! ## The value of the merit function (C1) -/

theorem auglag_h_loop_L (x : Vec) (rho : Dbl) (cs : List nlopt_constraint) :
    ∀ (lams : List Dbl) (s : MeritState),
      (auglag_h_loop x rho cs lams s).L
        = s.L + dsum ((cs.zip lams).map (penalty_term x rho)) := by
  induction cs with
  | nil => intro lams s; simp [auglag_h_loop, dsum, dadd_zero]
  | cons c cs ih =>
    intro lams s
    cases lams with
    | nil => simp [auglag_h_loop, dsum, dadd_zero]
    | cons lam lams =>
      simp only [auglag_h_loop, List.zip_cons_cons, List.map_cons, dsum, ih]
      simp only [auglag_h_step, penalty_term, shifted, dadd_assoc, dmul_assoc]
      rfl

theorem auglag_fc_loop_L (x : Vec) (rho : Dbl) (cs : List nlopt_constraint) :
    ∀ (mus : List Dbl) (s : MeritState),
      (auglag_fc_loop x rho cs mus s).L
        = s.L + dsum (((cs.zip mus).filter (active x rho)).map (penalty_term x rho)) := by
  induction cs with
  | nil => intro mus s; simp [auglag_fc_loop, dsum, dadd_zero]
  | cons c cs ih =>
    intro mus s
    cases mus with
    | nil => simp [auglag_fc_loop, dsum, dadd_zero]
    | cons mu mus =>
      simp only [auglag_fc_loop, List.zip_cons_cons, ih]
      by_cases hact : 0 < c.f.val x + mu / rho
      · have ha : active x rho (c, mu) = true := by simp [active, shifted, hact]
        simp only [List.filter_cons_of_pos ha, List.map_cons, dsum]
        simp only [auglag_fc_step, if_pos hact, penalty_term, shifted, dadd_assoc, dmul_assoc]
      · have ha : ¬ (active x rho (c, mu) = true) := by simp [active, shifted, hact]
        simp only [List.filter_cons_of_neg ha]
        simp only [auglag_fc_step, if_neg hact]

/-- C1: the value returned by `auglag` is
`f(x) + sum_i 0.5 rho (h_i(x) + lambda_i/rho)^2 + sum_(j active) 0.5 rho (g_j(x) + mu_j/rho)^2`,
the first sum over all `p` equality constraints, the second over exactly the
penalty-handled inequality constraints with `g_j(x) + mu_j/rho > 0`; this holds
for every point, penalty, multipliers and callbacks, with or without a
gradient request. -/
theorem auglag_value (d : auglag_data) (x : Vec) (grad : Option Vec) :
    (auglag x grad d).L = merit_spec d x := by
  unfold auglag merit_spec eq_terms ineq_terms
  show (auglag_fc_loop x d.rho (d.fc.take d.m) d.mu
    (auglag_h_loop x d.rho (d.h.take d.p) d.lambda _)).L = _
  rw [auglag_fc_loop_L, auglag_h_loop_L]

/-! ## The gradient of the merit function (C2) -/

theorem axpy_length (a : Dbl) (G T : Vec) (n : Nat) (hG : G.length = n) (hT : T.length = n) :
    (axpy a G T).length = n := by
  simp [axpy, hG, hT]

theorem axpy_idx (a : Dbl) :
    ∀ (G T : Vec) (j : Nat), j < G.length → j < T.length →
      idx (axpy a G T) j = idx G j + a * idx T j
  | [], _, _, h, _ => absurd h (by simp)
  | _ :: _, [], _, _, h => absurd h (by simp)
  | _ :: _, _ :: _, 0, _, _ => rfl
  | _ :: G, _ :: T, j + 1, h1, h2 =>
    axpy_idx a G T j (Nat.lt_of_succ_lt_succ h1) (Nat.lt_of_succ_lt_succ h2)

theorem vec_ext_idx (n : Nat) (G H : Vec) (hG : G.length = n) (hH : H.length = n)
    (h : ∀ j, j < n → idx G j = idx H j) : G = H := by
  apply List.ext_getElem (by rw [hG, hH])
  intro j h1 h2
  have := h j (by rw [← hG]; exact h1)
  rwa [idx, idx, List.getD_eq_getElem _ _ h1, List.getD_eq_getElem _ _ h2] at this

theorem auglag_h_loop_grad (n : Nat) (x : Vec) (rho : Dbl) (cs : List nlopt_constraint) :
    ∀ (lams : List Dbl) (s : MeritState) (G : Vec),
      (∀ c ∈ cs, populates n c.f) → GradInv n s G →
      ∃ G1, GradInv n (auglag_h_loop x rho cs lams s) G1 ∧
        ∀ j, j < n → idx G1 j = idx G j + dsum ((cs.zip lams).map (grad_term n x rho j)) := by
  induction cs with
  | nil =>
    intro lams s G _ hs
    exact ⟨G, by simpa [auglag_h_loop] using hs, by simp [dsum, dadd_zero]⟩
  | cons c cs ih =>
    intro lams s G hp hs
    cases lams with
    | nil => exact ⟨G, by simpa [auglag_h_loop] using hs, by simp [dsum, dadd_zero]⟩
    | cons lam lams =>
      obtain ⟨hgrad, hG, htmp⟩ := hs
      have hc := hp c (List.mem_cons_self _ _) x s.gradtmp htmp
      have hstep : GradInv n (auglag_h_step x rho c lam s)
          (axpy (rho * (c.f.val x + lam / rho)) G (grad_of n c.f x)) := by
        refine ⟨?_, ?_, ?_⟩
        · simp [auglag_h_step, call_grad, hgrad, hc.1, grad_of]
        · exact axpy_length _ _ _ _ hG (by rw [grad_of, ← hc.1]; exact hc.2)
        · simpa [auglag_h_step, call_grad, hgrad] using hc.2
      obtain ⟨G1, hG1, hidx⟩ := ih lams _ _ (fun c1 h1 => hp c1 (List.mem_cons_of_mem _ h1)) hstep
      refine ⟨G1, by simpa [auglag_h_loop] using hG1, ?_⟩
      intro j hj
      rw [hidx j hj, axpy_idx _ _ _ _ (by rw [hG]; exact hj)
        (by rw [grad_of, ← hc.1, hc.2]; exact hj)]
      simp only [List.zip_cons_cons, List.map_cons, dsum, dadd_assoc]
      rfl

theorem auglag_fc_loop_grad (n : Nat) (x : Vec) (rho : Dbl) (cs : List nlopt_constraint) :
    ∀ (mus : List Dbl) (s : MeritState) (G : Vec),
      (∀ c ∈ cs, populates n c.f) → GradInv n s G →
      ∃ G1, GradInv n (auglag_fc_loop x rho cs mus s) G1 ∧
        ∀ j, j < n → idx G1 j
          = idx G j + dsum (((cs.zip mus).filter (active x rho)).map (grad_term n x rho j)) := by
  induction cs with
  | nil =>
    intro mus s G _ hs
    exact ⟨G, by simpa [auglag_fc_loop] using hs, by simp [dsum, dadd_zero]⟩
  | cons c cs ih =>
    intro mus s G hp hs
    cases mus with
    | nil => exact ⟨G, by simpa [auglag_fc_loop] using hs, by simp [dsum, dadd_zero]⟩
    | cons mu mus =>
      obtain ⟨hgrad, hG, htmp⟩ := hs
      have hc := hp c (List.mem_cons_self _ _) x s.gradtmp htmp
      have hrest := fun c1 h1 => hp c1 (List.mem_cons_of_mem c h1)
      by_cases hact : 0 < c.f.val x + mu / rho
      · have ha : active x rho (c, mu) = true := by simp [active, shifted, hact]
        have hstep : GradInv n (auglag_fc_step x rho c mu s)
            (axpy (rho * (c.f.val x + mu / rho)) G (grad_of n c.f x)) := by
          refine ⟨?_, ?_, ?_⟩
          · simp [auglag_fc_step, if_pos hact, call_grad, hgrad, hc.1, grad_of]
          · exact axpy_length _ _ _ _ hG (by rw [grad_of, ← hc.1]; exact hc.2)
          · simpa [auglag_fc_step, if_pos hact, call_grad, hgrad] using hc.2
        obtain ⟨G1, hG1, hidx⟩ := ih mus _ _ hrest hstep
        refine ⟨G1, by simpa [auglag_fc_loop] using hG1, ?_⟩
        intro j hj
        rw [hidx j hj, axpy_idx _ _ _ _ (by rw [hG]; exact hj)
          (by rw [grad_of, ← hc.1, hc.2]; exact hj)]
        simp only [List.zip_cons_cons, List.filter_cons_of_pos ha, List.map_cons, dsum,
          dadd_assoc]
        rfl
      · have ha : ¬ (active x rho (c, mu) = true) := by simp [active, shifted, hact]
        have hstep : GradInv n (auglag_fc_step x rho c mu s) G := by
          refine ⟨?_, hG, ?_⟩
          · simp [auglag_fc_step, if_neg hact, hgrad]
          · simpa [auglag_fc_step, if_neg hact, call_grad, hgrad] using hc.2
        obtain ⟨G1, hG1, hidx⟩ := ih mus _ _ hrest hstep
        refine ⟨G1, by simpa [auglag_fc_loop] using hG1, ?_⟩
        intro j hj
        rw [hidx j hj]
        simp only [List.zip_cons_cons, List.filter_cons_of_neg ha]

/-- C2: when a gradient is requested (buffers of `n` entries) and the
objective and the constraints in use fully populate the buffer they are given,
the gradient written by `auglag` is, component by component,
`grad f(x) + sum_i rho (h_i(x) + lambda_i/rho) grad h_i(x)
  + sum_(j active) rho (g_j(x) + mu_j/rho) grad g_j(x)`:
inactive inequality constraints add nothing, and whatever the scratch buffer
held on entry or after an earlier constraint does not enter any term. -/
theorem auglag_gradient (n : Nat) (d : auglag_data) (x g0 : Vec)
    (hg0 : g0.length = n) (htmp : d.gradtmp.length = n)
    (hf : populates n d.f)
    (hh : ∀ c ∈ d.h.take d.p, populates n c.f)
    (hfc : ∀ c ∈ d.fc.take d.m, populates n c.f) :
    (auglag x (some g0) d).grad = some (grad_spec n d x) := by
  have h0 : GradInv n
      { L := d.f.val x, grad := (some g0).map (fun g => d.f.grad x g), gradtmp := d.gradtmp }
      (grad_of n d.f x) :=
    ⟨by simp [grad_of, (hf x g0 hg0).1], by rw [grad_of, ← (hf x g0 hg0).1]; exact (hf x g0 hg0).2,
      htmp⟩
  obtain ⟨G1, hG1, hidx1⟩ := auglag_h_loop_grad n x d.rho (d.h.take d.p) d.lambda _ _ hh h0
  obtain ⟨G2, hG2, hidx2⟩ := auglag_fc_loop_grad n x d.rho (d.fc.take d.m) d.mu _ _ hfc hG1
  show (auglag_fc_loop x d.rho (d.fc.take d.m) d.mu _).grad = _
  rw [hG2.1]
  congr 1
  apply vec_ext_idx n _ _ hG2.2.1 (by simp [grad_spec])
  intro j hj
  rw [hidx2 j hj, hidx1 j hj]
  simp [grad_spec, idx, eq_terms, ineq_terms, List.getD_eq_getElem, hj]

/-! ## Evaluating `Dbl` expressions -/

@[simp]
theorem fin_add_fin (a b : ℚ) : fin a + fin b = fin (a + b) := rfl

@[simp]
theorem fin_mul_fin (a b : ℚ) : fin a * fin b = fin (a * b) := rfl

@[simp]
theorem fin_div_fin (a b : ℚ) :
    fin a / fin b = if b = 0 then (if a = 0 then nan else infOfSign a) else fin (a / b) := rfl

@[simp]
theorem neg_fin (a : ℚ) : -fin a = fin (-a) := rfl

@[simp]
theorem fabs_fin (a : ℚ) : fabs (fin a) = fin |a| := rfl

@[simp]
theorem fin_lt_fin (a b : ℚ) : (fin a < fin b) ↔ a < b := by simp [dlt_def, Dbl.lt]

@[simp]
theorem fin_le_fin (a b : ℚ) : (fin a ≤ fin b) ↔ a ≤ b := by simp [dle_def, Dbl.le]

@[simp]
theorem dsci_def (m : ℕ) (s : Bool) (e : ℕ) :
    (OfScientific.ofScientific m s e : Dbl) = fin (OfScientific.ofScientific m s e) := rfl

theorem lam_min_eq : lam_min = fin (-100000000000000000000) := by
  simp [lam_min]; norm_num

theorem lam_max_eq : lam_max = fin 100000000000000000000 := by
  simp [lam_max]; norm_num

theorem mu_max_eq : mu_max = fin 100000000000000000000 := by
  simp [mu_max]; norm_num

theorem dzero_sci : (0.0 : Dbl) = 0 := by
  simp [dzero_def]; norm_num

/-! ## The multipliers (C3) -/

theorem clamp_code (a b : ℚ) (hab : a ≤ b) (v : Dbl) :
    IsClamp (MIN (MAX (fin a) v) (fin b)) v (fin a) (fin b) := by
  cases v with
  | fin q =>
    simp only [MIN, MAX, IsClamp, fin_lt_fin, fin_le_fin]
    split_ifs <;> simp_all
    · intro h; linarith
    · exact le_antisymm ‹b ≤ a› hab
    · exact ⟨le_of_lt ‹q < b›, fun h => by linarith⟩
    · intro h; exact le_antisymm ‹b ≤ q› h
  | pinf => simp [MIN, MAX, IsClamp, dlt_def, dle_def, Dbl.lt, Dbl.le, hab]
  | ninf =>
    rcases lt_or_eq_of_le hab with h | h
    · simp [MIN, MAX, IsClamp, dlt_def, dle_def, Dbl.lt, Dbl.le, hab, h, h.le, not_le_of_lt h]
    · simp [MIN, MAX, IsClamp, dlt_def, dle_def, Dbl.lt, Dbl.le, h]
  | nan => simp [MIN, MAX, IsClamp, dlt_def, dle_def, Dbl.lt, Dbl.le, hab]

theorem clamp_lambda (v : Dbl) : IsClamp (MIN (MAX lam_min v) lam_max) v lam_min lam_max := by
  rw [lam_min_eq, lam_max_eq]
  exact clamp_code _ _ (by norm_num) v

theorem clamp_mu (v : Dbl) : IsClamp (MIN (MAX 0.0 v) mu_max) v 0 mu_max := by
  rw [dzero_sci, mu_max_eq, dzero_def]
  exact clamp_code _ _ (by norm_num) v

theorem iter_h_loop_snd (x : Vec) (rho : Dbl) (cs : List nlopt_constraint) :
    ∀ (lams : List Dbl) (s : ScoreState),
      (iter_h_loop x rho cs lams s).2.length = lams.length ∧
      (∀ (i : Nat) (c : nlopt_constraint) (lam : Dbl), cs[i]? = some c → lams[i]? = some lam →
        ∃ r, (iter_h_loop x rho cs lams s).2[i]? = some r ∧
          IsClamp r (lam + rho * c.f.val x) lam_min lam_max) ∧
      ((∀ l ∈ lams, lam_min ≤ l ∧ l ≤ lam_max) →
        ∀ l ∈ (iter_h_loop x rho cs lams s).2, lam_min ≤ l ∧ l ≤ lam_max) := by
  induction cs with
  | nil =>
    intro lams s
    refine ⟨by simp [iter_h_loop], ?_, by simp [iter_h_loop]⟩
    intro i c lam hc
    simp at hc
  | cons c cs ih =>
    intro lams s
    cases lams with
    | nil =>
      refine ⟨by simp [iter_h_loop], ?_, by simp [iter_h_loop]⟩
      intro i c1 lam _ hl
      simp at hl
    | cons lam lams =>
      obtain ⟨ih1, ih2, ih3⟩ := ih lams
        { penalty := s.penalty + fabs (c.f.val x)
          feasible := s.feasible && decide (fabs (c.f.val x) ≤ c.tol)
          ICM := MAX s.ICM (fabs (c.f.val x)) }
      refine ⟨by simp [iter_h_loop, ih1], ?_, ?_⟩
      · intro i c1 lam1 hc hl
        cases i with
        | zero =>
          simp only [List.getElem?_cons_zero, Option.some.injEq] at hc hl
          subst hc; subst hl
          exact ⟨_, by simp [iter_h_loop], clamp_lambda _⟩
        | succ i =>
          simp only [List.getElem?_cons_succ] at hc hl
          obtain ⟨r, hr, hcl⟩ := ih2 i c1 lam1 hc hl
          exact ⟨r, by simpa [iter_h_loop] using hr, hcl⟩
      · intro hb l hl
        simp only [iter_h_loop, List.mem_cons] at hl
        rcases hl with hl | hl
        · subst hl
          exact ⟨(clamp_lambda _).1, (clamp_lambda _).2.1⟩
        · exact ih3 (fun l1 h1 => hb l1 (List.mem_cons_of_mem _ h1)) l hl

theorem iter_fc_loop_snd (x : Vec) (rho : Dbl) (cs : List nlopt_constraint) :
    ∀ (mus : List Dbl) (s : ScoreState),
      (iter_fc_loop x rho cs mus s).2.length = mus.length ∧
      (∀ (i : Nat) (c : nlopt_constraint) (mu : Dbl), cs[i]? = some c → mus[i]? = some mu →
        ∃ r, (iter_fc_loop x rho cs mus s).2[i]? = some r ∧
          IsClamp r (mu + rho * c.f.val x) 0 mu_max) ∧
      ((∀ u ∈ mus, 0 ≤ u ∧ u ≤ mu_max) →
        ∀ u ∈ (iter_fc_loop x rho cs mus s).2, 0 ≤ u ∧ u ≤ mu_max) := by
  induction cs with
  | nil =>
    intro mus s
    refine ⟨by simp [iter_fc_loop], ?_, by simp [iter_fc_loop]⟩
    intro i c mu hc
    simp at hc
  | cons c cs ih =>
    intro mus s
    cases mus with
    | nil =>
      refine ⟨by simp [iter_fc_loop], ?_, by simp [iter_fc_loop]⟩
      intro i c1 mu _ hl
      simp at hl
    | cons mu mus =>
      obtain ⟨ih1, ih2, ih3⟩ := ih mus
        { penalty := s.penalty + (if 0 < c.f.val x then c.f.val x else 0)
          feasible := s.feasible && decide (c.f.val x ≤ c.tol)
          ICM := MAX s.ICM (fabs (MAX (c.f.val x) (-mu / rho))) }
      refine ⟨by simp [iter_fc_loop, ih1], ?_, ?_⟩
      · intro i c1 mu1 hc hl
        cases i with
        | zero =>
          simp only [List.getElem?_cons_zero, Option.some.injEq] at hc hl
          subst hc; subst hl
          exact ⟨_, by simp [iter_fc_loop], clamp_mu _⟩
        | succ i =>
          simp only [List.getElem?_cons_succ] at hc hl
          obtain ⟨r, hr, hcl⟩ := ih2 i c1 mu1 hc hl
          exact ⟨r, by simpa [iter_fc_loop] using hr, hcl⟩
      · intro hb u hu
        simp only [iter_fc_loop, List.mem_cons] at hu
        rcases hu with hu | hu
        · subst hu
          exact ⟨(clamp_mu _).1, (clamp_mu _).2.1⟩
        · exact ih3 (fun l1 h1 => hb l1 (List.mem_cons_of_mem _ h1)) u hu

/-! ## One pass of the loop, field by field -/

theorem tail_state (env : Env) (s : LoopState) :
    (auglag_iter_tail env s).state.d = s.d ∧ (auglag_iter_tail env s).state.ICM = s.ICM
      ∧ (auglag_iter_tail env s).state.best = s.best := by
  unfold auglag_iter_tail
  split_ifs <;> simp [Outcome.state, LoopState.best]

theorem accept_state (env : Env) (fcur : Dbl) (sc : ScoreState) (s1 : LoopState) :
    (iter_accept env fcur sc s1).state.d = s1.d
      ∧ (iter_accept env fcur sc s1).state.ICM = s1.ICM
      ∧ (iter_accept env fcur sc s1).state.best
          = if accept sc.feasible sc.penalty fcur s1 = true
            then (s1.xcur, fcur, sc.penalty, sc.feasible) else s1.best := by
  unfold iter_accept
  by_cases ha : accept sc.feasible sc.penalty fcur s1 = true
  · simp only [ha, if_true]
    split_ifs
    · simp [Outcome.state, LoopState.best]
    · simp only [tail_state]
      simp [LoopState.best]
  · simp only [ha, if_false, Bool.false_eq_true]
    simp only [tail_state]
    simp

theorem accept_scored (feasible : Bool) (penalty fcur : Dbl) (s : LoopState) (sub : SubResult) :
    accept feasible penalty fcur (iter_scored s sub) = accept feasible penalty fcur s := rfl

theorem iter_state_fail (env : Env) (s : LoopState) (h : (sub_call env s).ret < 0) :
    auglag_iter env s = .done { s with
      d := d_after_sub s (sub_call env s), xcur := (sub_call env s).xcur,
      ret := (sub_call env s).ret,
      trace := s.trace ++ [Event.optimize s.d.rho s.d.lambda s.d.mu s.xcur] ++ [Event.free] } := by
  simp [auglag_iter, h]

theorem iter_state_ok (env : Env) (s : LoopState) (h : ¬ (sub_call env s).ret < 0) :
    auglag_iter env s = iter_accept env (iter_fcur s (sub_call env s))
      (iter_score s (sub_call env s)) (iter_scored s (sub_call env s)) := by
  simp [auglag_iter, h]

theorem iter_state_d (env : Env) (s : LoopState) :
    (auglag_iter env s).state.d
      = if (sub_call env s).ret < 0 then d_after_sub s (sub_call env s)
        else iter_d s (sub_call env s) := by
  by_cases h : (sub_call env s).ret < 0
  · simp [iter_state_fail env s h, h, Outcome.state]
  · simp [iter_state_ok env s h, h, accept_state, iter_scored]

theorem iter_state_ICM (env : Env) (s : LoopState) :
    (auglag_iter env s).state.ICM
      = if (sub_call env s).ret < 0 then s.ICM else (iter_score s (sub_call env s)).ICM := by
  by_cases h : (sub_call env s).ret < 0
  · simp [iter_state_fail env s h, h, Outcome.state]
  · simp [iter_state_ok env s h, h, accept_state, iter_scored]

theorem iter_state_best (env : Env) (s : LoopState) :
    (auglag_iter env s).state.best
      = if (sub_call env s).ret < 0 then s.best
        else if accept (iter_score s (sub_call env s)).feasible
            (iter_score s (sub_call env s)).penalty (iter_fcur s (sub_call env s)) s = true
        then ((sub_call env s).xcur, iter_fcur s (sub_call env s),
          (iter_score s (sub_call env s)).penalty, (iter_score s (sub_call env s)).feasible)
        else s.best := by
  by_cases h : (sub_call env s).ret < 0
  · simp [iter_state_fail env s h, h, Outcome.state, LoopState.best]
  · simp only [iter_state_ok env s h, h, accept_state, accept_scored, if_false]
    rfl

theorem iter_d_fields (s : LoopState) (sub : SubResult) :
    (iter_d s sub).f = s.d.f ∧ (iter_d s sub).p = s.d.p ∧ (iter_d s sub).h = s.d.h
      ∧ (iter_d s sub).m = s.d.m ∧ (iter_d s sub).fc = s.d.fc
      ∧ (iter_d s sub).lambda = (auglag_score (d_after_eval s sub) sub.xcur).2.1
      ∧ (iter_d s sub).mu = (auglag_score (d_after_eval s sub) sub.xcur).2.2
      ∧ (iter_d s sub).rho
          = if tau * s.ICM < (iter_score s sub).ICM then s.d.rho * gam else s.d.rho := by
  unfold iter_d iter_score
  simp only []
  split_ifs <;> simp [d_after_eval, d_after_sub]

theorem state_at_invariant (env : Env) (P : LoopState → Prop)
    (hstep : ∀ s, P s → P (auglag_iter env s).state) (n : Nat) :
    ∀ (s0 s : LoopState), P s0 → state_at env n s0 = some s → P s := by
  induction n with
  | zero =>
    intro s0 s h0 h
    simp only [state_at, Option.some.injEq] at h
    exact h ▸ h0
  | succ n ih =>
    intro s0 s h0 h
    rw [state_at] at h
    cases hit : auglag_iter env s0 with
    | next s1 =>
      rw [hit] at h
      have := hstep s0 h0
      rw [hit] at this
      exact ih s1 s this h
    | done s1 =>
      rw [hit] at h
      exact absurd h (by simp)

theorem state_at_loop (env : Env) (n : Nat) :
    ∀ (s0 s s1 : LoopState), state_at env n s0 = some s → auglag_iter env s = .done s1 →
      ∀ k, auglag_loop env (n + 1 + k) s0 = some s1 := by
  induction n with
  | zero =>
    intro s0 s s1 h hd k
    simp only [state_at, Option.some.injEq] at h
    subst h
    rw [show 0 + 1 + k = k + 1 by omega, auglag_loop, hd]
  | succ n ih =>
    intro s0 s s1 h hd k
    rw [state_at] at h
    cases hit : auglag_iter env s0 with
    | next s2 =>
      rw [hit] at h
      rw [show n + 1 + 1 + k = (n + 1 + k) + 1 by omega, auglag_loop, hit]
      exact ih s2 s s1 h hd k
    | done s2 =>
      rw [hit] at h
      exact absurd h (by simp)

/-! ## Invariants of the loop -/

theorem dmul_comm (a b : Dbl) : a * b = b * a := by
  cases a <;> cases b <;> simp [dmul_def, Dbl.mul, mul_comm]

theorem rho_init_ok (v : Dbl) : RhoOK (MAX 1e-6 (MIN 10 v)) := by
  cases v with
  | fin q =>
    simp only [MAX, MIN, dofNat_def, dsci_def, fin_lt_fin]
    split_ifs with h1 h2 h3
    · exact Or.inr ⟨_, rfl, by norm_num⟩
    · exact Or.inr ⟨_, rfl, by norm_num⟩
    · exact Or.inr ⟨_, rfl, by norm_num⟩
    · rw [fin_lt_fin, not_lt] at h3
      exact Or.inr ⟨q, rfl, lt_of_lt_of_le (by norm_num) h3⟩
  | pinf =>
    refine Or.inr ⟨10, ?_, by norm_num⟩
    simp [MAX, MIN, dofNat_def, dlt_def, Dbl.lt]
    norm_num
  | ninf =>
    refine Or.inr ⟨1e-6, ?_, by norm_num⟩
    simp [MAX, MIN, dofNat_def, dlt_def, Dbl.lt]
  | nan =>
    refine Or.inl ?_
    simp [MAX, MIN, dofNat_def, dlt_def, Dbl.lt]

theorem rho_step_ok (rho : Dbl) (h : RhoOK rho) : RhoOK (rho * gam) := by
  rcases h with h | ⟨q, hq, hpos⟩
  · subst h; exact Or.inl rfl
  · subst hq
    exact Or.inr ⟨q * 10, by simp [gam, dofNat_def], by linarith⟩

theorem zero_bounds : (lam_min ≤ (0 : Dbl) ∧ (0 : Dbl) ≤ lam_max) ∧
    ((0 : Dbl) ≤ 0 ∧ (0 : Dbl) ≤ mu_max) := by
  rw [lam_min_eq, lam_max_eq, mu_max_eq, dzero_def]
  simp

theorem init_d (d0 : auglag_data) (x0 : Vec) (ret0 : Int) (tr0 : List Event) :
    (auglag_init d0 x0 ret0 tr0).d.f = d0.f ∧ (auglag_init d0 x0 ret0 tr0).d.p = d0.p
      ∧ (auglag_init d0 x0 ret0 tr0).d.h = d0.h ∧ (auglag_init d0 x0 ret0 tr0).d.m = d0.m
      ∧ (auglag_init d0 x0 ret0 tr0).d.fc = d0.fc
      ∧ (auglag_init d0 x0 ret0 tr0).d.lambda = List.replicate d0.p 0
      ∧ (auglag_init d0 x0 ret0 tr0).d.mu = List.replicate d0.m 0
      ∧ (auglag_init d0 x0 ret0 tr0).ICM = HUGE_VAL
      ∧ RhoOK (auglag_init d0 x0 ret0 tr0).d.rho := by
  unfold auglag_init
  simp only []
  split_ifs
  · exact ⟨rfl, rfl, rfl, rfl, rfl, rfl, rfl, rfl, rho_init_ok _⟩
  · exact ⟨rfl, rfl, rfl, rfl, rfl, rfl, rfl, rfl, Or.inr ⟨1, done_def, by norm_num⟩⟩

theorem inv_init (d0 : auglag_data) (x0 : Vec) (ret0 : Int) (tr0 : List Event) :
    LoopInv d0 (auglag_init d0 x0 ret0 tr0) := by
  obtain ⟨h1, h2, h3, h4, h5, h6, h7, _, h9⟩ := init_d d0 x0 ret0 tr0
  refine ⟨⟨h1, h2, h3, h4, h5, by simp [h6], by simp [h7]⟩, ⟨?_, ?_⟩, h9⟩
  · intro l hl
    rw [h6] at hl
    rw [(List.mem_replicate.mp hl).2]
    exact zero_bounds.1
  · intro u hu
    rw [h7] at hu
    rw [(List.mem_replicate.mp hu).2]
    exact zero_bounds.2

theorem inv_step (env : Env) (d0 : auglag_data) (s : LoopState) (h : LoopInv d0 s) :
    LoopInv d0 (auglag_iter env s).state := by
  obtain ⟨⟨h1, h2, h3, h4, h5, h6, h7⟩, ⟨hb1, hb2⟩, hr⟩ := h
  unfold LoopInv
  rw [iter_state_d]
  split_ifs with hf
  · exact ⟨⟨h1, h2, h3, h4, h5, h6, h7⟩, ⟨hb1, hb2⟩, hr⟩
  · obtain ⟨g1, g2, g3, g4, g5, g6, g7, g8⟩ := iter_d_fields s (sub_call env s)
    have hl := iter_h_loop_snd (sub_call env s).xcur s.d.rho (s.d.h.take s.d.p) s.d.lambda
      { penalty := 0, feasible := true, ICM := 0 }
    have hm := iter_fc_loop_snd (sub_call env s).xcur s.d.rho (s.d.fc.take s.d.m) s.d.mu
      (iter_h_loop (sub_call env s).xcur s.d.rho (s.d.h.take s.d.p) s.d.lambda
        { penalty := 0, feasible := true, ICM := 0 }).1
    refine ⟨⟨g1.trans h1, g2.trans h2, g3.trans h3, g4.trans h4, g5.trans h5, ?_, ?_⟩,
      ⟨?_, ?_⟩, ?_⟩
    · rw [g6]; exact hl.1.trans h6
    · rw [g7]; exact hm.1.trans h7
    · rw [g6]; exact hl.2.2 hb1
    · rw [g7]; exact hm.2.2 hb2
    · rw [g8]
      split_ifs
      · exact rho_step_ok _ hr
      · exact hr

theorem inv_state_at (env : Env) (d0 : auglag_data) (x0 : Vec) (ret0 : Int) (tr0 : List Event)
    (n : Nat) (s : LoopState) (hs : state_at env n (auglag_init d0 x0 ret0 tr0) = some s) :
    LoopInv d0 s :=
  state_at_invariant env (LoopInv d0) (inv_step env d0) n _ s (inv_init d0 x0 ret0 tr0) hs

/-- C3: in the loop entered by `auglag_minimize` on the problem `d0`, the
multipliers start at 0; at the start of every pass and after it every
`lambda_i` lies in `[-1e20, 1e20]` and every `mu_j` in `[0, 1e20]`, whatever the
constraints return; and after a pass in which the sub-solver succeeds every
`lambda_i` is `old lambda_i + rho * h_i(x)` clamped to `[-1e20, 1e20]` and
every `mu_j` is `old mu_j + rho * g_j(x)` clamped to `[0, 1e20]`, with `x` the
point returned by the sub-solver and `rho` the penalty before the escalation
of this pass. -/
theorem multipliers_clamped (env : Env) (d0 : auglag_data) (x0 : Vec) (ret0 : Int)
    (tr0 : List Event) (n : Nat) (s : LoopState)
    (hs : state_at env n (auglag_init d0 x0 ret0 tr0) = some s) :
    ((auglag_init d0 x0 ret0 tr0).d.lambda = List.replicate d0.p 0
      ∧ (auglag_init d0 x0 ret0 tr0).d.mu = List.replicate d0.m 0)
    ∧ (SameProblem d0 s.d ∧ MultBounds s.d)
    ∧ MultBounds (auglag_iter env s).state.d
    ∧ (0 ≤ (sub_call env s).ret →
        (∀ (i : Nat) (c : nlopt_constraint) (lam : Dbl),
          (s.d.h.take s.d.p)[i]? = some c → s.d.lambda[i]? = some lam →
          ∃ r, (auglag_iter env s).state.d.lambda[i]? = some r ∧
            IsClamp r (lam + s.d.rho * c.f.val (sub_call env s).xcur) lam_min lam_max)
        ∧ (∀ (j : Nat) (c : nlopt_constraint) (mu : Dbl),
          (s.d.fc.take s.d.m)[j]? = some c → s.d.mu[j]? = some mu →
          ∃ r, (auglag_iter env s).state.d.mu[j]? = some r ∧
            IsClamp r (mu + s.d.rho * c.f.val (sub_call env s).xcur) 0 mu_max)) := by
  have hinv := inv_state_at env d0 x0 ret0 tr0 n s hs
  have hinv1 := inv_step env d0 s hinv
  obtain ⟨_, _, _, _, _, i6, i7, _, _⟩ := init_d d0 x0 ret0 tr0
  refine ⟨⟨i6, i7⟩, ⟨hinv.1, hinv.2.1⟩, hinv1.2.1, ?_⟩
  intro hret
  have hf : ¬ (sub_call env s).ret < 0 := not_lt.mpr hret
  obtain ⟨_, _, _, _, _, g6, g7, _⟩ := iter_d_fields s (sub_call env s)
  rw [iter_state_d, if_neg hf, g6, g7]
  exact ⟨(iter_h_loop_snd _ _ _ _ _).2.1, (iter_fc_loop_snd _ _ _ _ _).2.1⟩

/-- C4: in the loop entered by `auglag_minimize`, `ICM` is `+inf` before the
first pass; after a pass in which the sub-solver succeeds `rho` is `10 * rho`
if the `ICM` of this pass exceeds `0.5` times the `ICM` of the previous pass,
and is unchanged otherwise; it is unchanged when the sub-solver fails. So
every change multiplies `rho` by exactly 10, `rho` never decreases, and the
first pass never changes it. -/
theorem rho_escalation (env : Env) (d0 : auglag_data) (x0 : Vec) (ret0 : Int)
    (tr0 : List Event) (n : Nat) (s : LoopState)
    (hs : state_at env n (auglag_init d0 x0 ret0 tr0) = some s) :
    (auglag_init d0 x0 ret0 tr0).ICM = HUGE_VAL
    ∧ (0 ≤ (sub_call env s).ret →
        (auglag_iter env s).state.ICM = (iter_score s (sub_call env s)).ICM
        ∧ (auglag_iter env s).state.d.rho
            = if 0.5 * s.ICM < (iter_score s (sub_call env s)).ICM
              then 10 * s.d.rho else s.d.rho)
    ∧ ((sub_call env s).ret < 0 → (auglag_iter env s).state.d.rho = s.d.rho)
    ∧ ((auglag_iter env s).state.d.rho = s.d.rho
        ∨ (auglag_iter env s).state.d.rho = 10 * s.d.rho)
    ∧ ¬ ((auglag_iter env s).state.d.rho < s.d.rho)
    ∧ (s.d.rho ≠ nan → s.d.rho ≤ (auglag_iter env s).state.d.rho)
    ∧ (n = 0 → (auglag_iter env s).state.d.rho = s.d.rho) := by
  have hinv := inv_state_at env d0 x0 ret0 tr0 n s hs
  obtain ⟨_, _, _, _, _, _, _, i8, _⟩ := init_d d0 x0 ret0 tr0
  obtain ⟨_, _, _, _, _, _, _, g8⟩ := iter_d_fields s (sub_call env s)
  have hrho : (auglag_iter env s).state.d.rho
      = if (sub_call env s).ret < 0 then s.d.rho
        else if 0.5 * s.ICM < (iter_score s (sub_call env s)).ICM
          then 10 * s.d.rho else s.d.rho := by
    rw [iter_state_d]
    split_ifs with h1 h2
    · rfl
    · rw [g8]; simp only [tau, gam]; rw [if_pos h2]; exact dmul_comm _ _
    · rw [g8]; simp only [tau]; rw [if_neg h2]
  have hor : (auglag_iter env s).state.d.rho = s.d.rho
      ∨ (auglag_iter env s).state.d.rho = 10 * s.d.rho := by
    rw [hrho]; split_ifs <;> simp
  refine ⟨i8, ?_, ?_, hor, ?_, ?_, ?_⟩
  · intro hret
    have hf : ¬ (sub_call env s).ret < 0 := not_lt.mpr hret
    exact ⟨by rw [iter_state_ICM, if_neg hf], by rw [hrho, if_neg hf]⟩
  · intro hf
    rw [hrho, if_pos hf]
  · rcases hinv.2.2 with hn | ⟨q, hq, hpos⟩
    · rcases hor with h | h <;> rw [h, hn] <;> simp [dlt_def, Dbl.lt, dmul_def, Dbl.mul]
    · rcases hor with h | h <;> rw [h, hq] <;> simp only [dofNat_def, fin_mul_fin, fin_lt_fin]
        <;> linarith
  · intro _
    rcases hinv.2.2 with hn | ⟨q, hq, hpos⟩
    · contradiction
    · rcases hor with h | h <;> rw [h, hq] <;> simp only [dofNat_def, fin_mul_fin, fin_le_fin]
        <;> linarith
  · intro hn
    subst hn
    simp only [state_at, Option.some.injEq] at hs
    subst hs
    rw [hrho, i8]
    have : ¬ ((0.5 : Dbl) * HUGE_VAL < (iter_score (auglag_init d0 x0 ret0 tr0)
        (sub_call env (auglag_init d0 x0 ret0 tr0))).ICM) := by
      have h5 : (0.5 : Dbl) * HUGE_VAL = pinf := by
        simp [HUGE_VAL, dmul_def, Dbl.mul, Dbl.infOfSign]
        norm_num
      rw [h5]
      cases (iter_score (auglag_init d0 x0 ret0 tr0)
        (sub_call env (auglag_init d0 x0 ret0 tr0))).ICM <;> simp [dlt_def, Dbl.lt]
    rw [if_neg this]
    split_ifs <;> rfl

/-! ## No constraints (C5, C6) -/

theorem score_nc (s : LoopState) (sub : SubResult) (hp : s.d.p = 0) (hm : s.d.m = 0) :
    iter_score s sub = { penalty := 0, feasible := true, ICM := 0 } := by
  simp [iter_score, auglag_score, d_after_eval, d_after_sub, hp, hm, iter_h_loop, iter_fc_loop]

theorem iter_d_stop (s : LoopState) (sub : SubResult) :
    (iter_d s sub).stop = (d_after_eval s sub).stop := by
  unfold iter_d
  simp only []
  split_ifs <;> rfl

theorem eval_events_nc (d : auglag_data) (x : Vec) (hp : d.p = 0) (hm : d.m = 0) :
    eval_events d x = [] := by
  simp [eval_events, hp, hm]

theorem deq_zero : Dbl.eq 0 0 = true := by
  simp [dzero_def, Dbl.eq]

theorem nc_iter (env : Env) (s : LoopState) (hp : s.d.p = 0) (hm : s.d.m = 0)
    (hf : s.minf_feasible = false) :
    ∃ s1, auglag_iter env s = .done s1
      ∧ s1.trace.filter Event.isOptimize
          = s.trace.filter Event.isOptimize ++ [Event.optimize s.d.rho s.d.lambda s.d.mu s.xcur]
      ∧ ((sub_call env s).ret < 0 →
          s1.ret = (sub_call env s).ret ∧ s1.x = s.x ∧ s1.minf = s.minf)
      ∧ (0 ≤ (sub_call env s).ret →
          s1.x = (sub_call env s).xcur ∧ s1.minf = s.d.f.val (sub_call env s).xcur
            ∧ s1.ret = nc_status env s) := by
  by_cases hr : (sub_call env s).ret < 0
  · refine ⟨_, iter_state_fail env s hr, ?_, fun _ => ⟨rfl, rfl, rfl⟩, fun h => absurd hr (not_lt.mpr h)⟩
    simp [Event.isOptimize]
  · have hacc : accept (iter_score s (sub_call env s)).feasible
        (iter_score s (sub_call env s)).penalty (iter_fcur s (sub_call env s))
        (iter_scored s (sub_call env s)) = true := by
      simp [accept, score_nc s _ hp hm, iter_scored, hf]
    have hICM : (iter_scored s (sub_call env s)).ICM = 0 := by
      simp [iter_scored, score_nc s _ hp hm]
    have htr : (iter_scored s (sub_call env s)).trace
        = s.trace ++ [Event.optimize s.d.rho s.d.lambda s.d.mu s.xcur]
          ++ [Event.eval_f (sub_call env s).xcur] := by
      simp [iter_scored, eval_events_nc s.d _ hp hm]
    rw [iter_state_ok env s hr]
    unfold iter_accept
    simp only [hacc, if_true]
    unfold nc_status accept_ret auglag_iter_tail
    simp only [score_nc s _ hp hm, if_true, hICM, deq_zero, htr]
    simp only [iter_scored, iter_d_stop, iter_fcur, d_after_eval, d_after_sub]
    split_ifs <;>
      first
        | exact absurd rfl ‹_›
        | (refine ⟨_, rfl, ?_, fun h => absurd h hr, fun _ => ⟨rfl, rfl, ?_⟩⟩
           · simp [Event.isOptimize]
           · first | rfl | simp_all [NLOPT_SUCCESS, NLOPT_MINF_MAX_REACHED, NLOPT_FTOL_REACHED,
               NLOPT_XTOL_REACHED])

theorem setup_nc (env : Env) (fc : List nlopt_constraint)
    (h1 : 0 ≤ env.nlopt_set_min_objective) (h2 : 0 ≤ env.nlopt_set_lower_bounds)
    (h3 : 0 ≤ env.nlopt_set_upper_bounds) (h4 : 0 ≤ env.nlopt_remove_inequality_constraints)
    (h5 : 0 ≤ env.nlopt_remove_equality_constraints) :
    ¬ (auglag_setup env 0 fc).1 < 0 ∧ (auglag_setup env 0 fc).2 = [] := by
  simp [auglag_setup, add_constraints_loop, not_lt.mpr h1, not_lt.mpr h2, not_lt.mpr h3,
    not_lt.mpr h4, not_lt.mpr h5, h5]

theorem entry_nc (env : Env) (f : nlopt_func) (fc h : List nlopt_constraint) (x : Vec)
    (stop : nlopt_stopping) (sub_has_fc : Bool)
    (hs : (auglag_setup env 0 fc).2 = []) :
    (auglag_entry env f 0 fc 0 h x stop sub_has_fc).d.p = 0
      ∧ (auglag_entry env f 0 fc 0 h x stop sub_has_fc).d.m = 0
      ∧ (auglag_entry env f 0 fc 0 h x stop sub_has_fc).minf_feasible = false
      ∧ (auglag_entry env f 0 fc 0 h x stop sub_has_fc).d.rho = 1
      ∧ (auglag_entry env f 0 fc 0 h x stop sub_has_fc).d.lambda = []
      ∧ (auglag_entry env f 0 fc 0 h x stop sub_has_fc).d.mu = []
      ∧ (auglag_entry env f 0 fc 0 h x stop sub_has_fc).xcur = x
      ∧ (auglag_entry env f 0 fc 0 h x stop sub_has_fc).x = x
      ∧ (auglag_entry env f 0 fc 0 h x stop sub_has_fc).minf = HUGE_VAL
      ∧ (auglag_entry env f 0 fc 0 h x stop sub_has_fc).d.f = f
      ∧ (auglag_entry env f 0 fc 0 h x stop sub_has_fc).trace = [Event.malloc] := by
  simp [auglag_entry, auglag_init, auglag_data_of, hs]

theorem minimize_ok (env : Env) (fuel : Nat) (f : nlopt_func)
    (m : Nat) (fc : List nlopt_constraint) (p : Nat) (h : List nlopt_constraint)
    (x : Vec) (minf : Dbl) (stop : nlopt_stopping) (sub_has_fc : Bool)
    (hsetup : ¬ (auglag_setup env (if sub_has_fc then m else 0) fc).1 < 0)
    (hmalloc : env.malloc_ok = true) :
    auglag_minimize env fuel f m fc p h x minf stop sub_has_fc
      = (auglag_loop env fuel (auglag_entry env f m fc p h x stop sub_has_fc)).map
          LoopState.result := by
  simp [auglag_minimize, hsetup, hmalloc]

/-- C5 (as amended): for a problem with 0 equality and 0 inequality
constraints, whenever the set-up calls on the sub-solver and the allocation of
the scratch block succeed, `auglag_minimize` returns after one pass, having
invoked the sub-solver exactly once, with `rho = 1` (and no multipliers) at
the initial guess, whatever the sub-solver and the stopping predicates do. -/
theorem no_constraints_one_invocation (env : Env) (fuel : Nat) (f : nlopt_func)
    (fc h : List nlopt_constraint) (x : Vec) (minf : Dbl) (stop : nlopt_stopping)
    (sub_has_fc : Bool)
    (h1 : 0 ≤ env.nlopt_set_min_objective) (h2 : 0 ≤ env.nlopt_set_lower_bounds)
    (h3 : 0 ≤ env.nlopt_set_upper_bounds) (h4 : 0 ≤ env.nlopt_remove_inequality_constraints)
    (h5 : 0 ≤ env.nlopt_remove_equality_constraints) (hmalloc : env.malloc_ok = true) :
    ∃ r, auglag_minimize env (fuel + 1) f 0 fc 0 h x minf stop sub_has_fc = some r
      ∧ r.trace.filter Event.isOptimize = [Event.optimize 1 [] [] x] := by
  obtain ⟨hs1, hs2⟩ := setup_nc env fc h1 h2 h3 h4 h5
  obtain ⟨e1, e2, e3, e4, e5, e6, e7, _, _, _, e11⟩ :=
    entry_nc env f fc h x stop sub_has_fc hs2
  obtain ⟨s1, hit, htr, _, _⟩ := nc_iter env _ e1 e2 e3
  refine ⟨s1.result, ?_, ?_⟩
  · rw [minimize_ok env _ f 0 fc 0 h x minf stop sub_has_fc (by simpa using hs1) hmalloc,
      auglag_loop, hit]
    rfl
  · show s1.trace.filter Event.isOptimize = _
    rw [htr, e4, e5, e6, e7, e11]
    rfl

/-- C6 (as amended): for a problem with 0 equality and 0 inequality
constraints, whenever set-up and allocation succeed: if the single sub-solver
invocation returns a negative status, `auglag_minimize` returns that status and
leaves `x` at the initial guess and `*minf` at `+inf`; otherwise it returns the
point of the sub-solver in `x`, the objective there in `*minf`, and as status
the reason of the first stopping test that fires, `NLOPT_FTOL_REACHED` when
none does (not the status of the sub-solver). -/
theorem no_constraints_result (env : Env) (fuel : Nat) (f : nlopt_func)
    (fc h : List nlopt_constraint) (x : Vec) (minf : Dbl) (stop : nlopt_stopping)
    (sub_has_fc : Bool)
    (h1 : 0 ≤ env.nlopt_set_min_objective) (h2 : 0 ≤ env.nlopt_set_lower_bounds)
    (h3 : 0 ≤ env.nlopt_set_upper_bounds) (h4 : 0 ≤ env.nlopt_remove_inequality_constraints)
    (h5 : 0 ≤ env.nlopt_remove_equality_constraints) (hmalloc : env.malloc_ok = true) :
    ∃ r, auglag_minimize env (fuel + 1) f 0 fc 0 h x minf stop sub_has_fc = some r
      ∧ ((sub_call env (auglag_entry env f 0 fc 0 h x stop sub_has_fc)).ret < 0 →
          r.ret = (sub_call env (auglag_entry env f 0 fc 0 h x stop sub_has_fc)).ret
            ∧ r.x = x ∧ r.minf = HUGE_VAL)
      ∧ (0 ≤ (sub_call env (auglag_entry env f 0 fc 0 h x stop sub_has_fc)).ret →
          r.x = (sub_call env (auglag_entry env f 0 fc 0 h x stop sub_has_fc)).xcur
            ∧ r.minf = f.val (sub_call env (auglag_entry env f 0 fc 0 h x stop sub_has_fc)).xcur
            ∧ r.ret = nc_status env (auglag_entry env f 0 fc 0 h x stop sub_has_fc)) := by
  obtain ⟨hs1, hs2⟩ := setup_nc env fc h1 h2 h3 h4 h5
  obtain ⟨e1, e2, e3, _, _, _, _, e8, e9, e10, _⟩ :=
    entry_nc env f fc h x stop sub_has_fc hs2
  obtain ⟨s1, hit, _, hneg, hpos⟩ := nc_iter env _ e1 e2 e3
  refine ⟨s1.result, ?_, ?_, ?_⟩
  · rw [minimize_ok env _ f 0 fc 0 h x minf stop sub_has_fc (by simpa using hs1) hmalloc,
      auglag_loop, hit]
    rfl
  · intro hr
    obtain ⟨a, b, c⟩ := hneg hr
    exact ⟨a, b.trans e8, c.trans e9⟩
  · intro hr
    obtain ⟨a, b, c⟩ := hpos hr
    refine ⟨a, ?_, c⟩
    show s1.minf = _
    rw [b, e10]

/-! ## Failure of the sub-solver (C7) -/

/-- C7: in a run of `auglag_minimize` (set-up and allocation succeeded), if in
some pass, begun in state `s`, the sub-solver returns a negative status, then
`auglag_minimize` returns exactly that status; after the failing invocation it
only frees the scratch block (no further invocation, no evaluation of the
objective or of a constraint); and `x` and `*minf` are as they were before the
invocation. -/
theorem subsolver_failure_aborts (env : Env) (f : nlopt_func)
    (m : Nat) (fc : List nlopt_constraint) (p : Nat) (h : List nlopt_constraint)
    (x : Vec) (minf : Dbl) (stop : nlopt_stopping) (sub_has_fc : Bool)
    (n k : Nat) (s : LoopState)
    (hsetup : 0 ≤ (auglag_setup env (if sub_has_fc then m else 0) fc).1)
    (hmalloc : env.malloc_ok = true)
    (hs : state_at env n (auglag_entry env f m fc p h x stop sub_has_fc) = some s)
    (hr : (sub_call env s).ret < 0) :
    ∃ r, auglag_minimize env (n + 1 + k) f m fc p h x minf stop sub_has_fc = some r
      ∧ r.ret = (sub_call env s).ret
      ∧ r.trace = s.trace ++ [Event.optimize s.d.rho s.d.lambda s.d.mu s.xcur, Event.free]
      ∧ r.x = s.x ∧ r.minf = s.minf := by
  have hloop := state_at_loop env n _ s _ hs (iter_state_fail env s hr) k
  rw [minimize_ok env _ f m fc p h x minf stop sub_has_fc (not_lt.mpr hsetup) hmalloc, hloop]
  simp only [Option.map_some']
  refine ⟨_, rfl, ?_, ?_, ?_, ?_⟩ <;> simp [LoopState.result]

/-! ## The acceptance rule (C8, C9, C10) -/

theorem accept_iff (feasible : Bool) (penalty fcur : Dbl) (s : LoopState) :
    accept feasible penalty fcur s = true ↔ AcceptRule feasible penalty fcur s := by
  simp only [accept, AcceptRule, Bool.or_eq_true, Bool.and_eq_true, Bool.not_eq_true',
    decide_eq_true_eq]
  tauto

theorem state_at_add (env : Env) (n : Nat) :
    ∀ (k : Nat) (s0 s : LoopState), state_at env n s0 = some s →
      state_at env (n + k) s0 = state_at env k s := by
  induction n with
  | zero =>
    intro k s0 s h
    simp only [state_at, Option.some.injEq] at h
    subst h
    simp
  | succ n ih =>
    intro k s0 s h
    rw [state_at] at h
    rw [show n + 1 + k = (n + k) + 1 by omega, state_at]
    cases hit : auglag_iter env s0 with
    | next s1 =>
      rw [hit] at h
      exact ih k s1 s h
    | done s1 =>
      rw [hit] at h
      exact absurd h (by simp)

theorem feasible_step (env : Env) (s : LoopState) (hf : s.minf_feasible = true) :
    (auglag_iter env s).state.minf_feasible = true
      ∧ (0 ≤ (sub_call env s).ret →
          accept (iter_score s (sub_call env s)).feasible (iter_score s (sub_call env s)).penalty
            (iter_fcur s (sub_call env s)) s = true →
          (iter_score s (sub_call env s)).feasible = true) := by
  have hacc : accept (iter_score s (sub_call env s)).feasible
      (iter_score s (sub_call env s)).penalty (iter_fcur s (sub_call env s)) s = true →
      (iter_score s (sub_call env s)).feasible = true := by
    intro ha
    rcases (accept_iff _ _ _ _).mp ha with ⟨h1, _⟩ | ⟨h1, _⟩
    · exact h1
    · rw [hf] at h1; exact absurd h1 (by simp)
  refine ⟨?_, fun _ => hacc⟩
  have hb := iter_state_best env s
  have : (auglag_iter env s).state.minf_feasible = (auglag_iter env s).state.best.2.2.2 := rfl
  rw [this, hb]
  split_ifs with h1 h2
  · exact hf
  · exact hacc h2
  · exact hf

/-- C8: in a run of the loop (entered in any state `s0`), once the best record
is feasible at the start of a pass, it is feasible at the start of every
later pass and after it, and a candidate that is accepted in such a pass is
feasible: no pass replaces a feasible best record by an infeasible candidate. -/
theorem feasible_best_stays (env : Env) (s0 : LoopState) (n k : Nat) (s s1 : LoopState)
    (hn : state_at env n s0 = some s) (hf : s.minf_feasible = true)
    (hk : state_at env (n + k) s0 = some s1) :
    s1.minf_feasible = true
      ∧ (auglag_iter env s1).state.minf_feasible = true
      ∧ (0 ≤ (sub_call env s1).ret →
          accept (iter_score s1 (sub_call env s1)).feasible
            (iter_score s1 (sub_call env s1)).penalty (iter_fcur s1 (sub_call env s1)) s1 = true →
          (iter_score s1 (sub_call env s1)).feasible = true) := by
  rw [state_at_add env n k s0 s hn] at hk
  have h1 : s1.minf_feasible = true :=
    state_at_invariant env (fun t => t.minf_feasible = true)
      (fun t ht => (feasible_step env t ht).1) k s s1 hf hk
  exact ⟨h1, feasible_step env s1 h1⟩

/-- C9 (as amended): in a run of the loop, once the best record is feasible,
every candidate accepted in a later pass becomes the best record, is feasible,
and has a violation sum strictly smaller than that of the previous best or
an objective value `fcur <= ` the previous `*minf`. -/
theorem best_objective_after_feasible (env : Env) (s0 : LoopState) (n k : Nat)
    (s s1 : LoopState)
    (hn : state_at env n s0 = some s) (hf : s.minf_feasible = true)
    (hk : state_at env (n + k) s0 = some s1)
    (hret : 0 ≤ (sub_call env s1).ret)
    (hacc : accept (iter_score s1 (sub_call env s1)).feasible
      (iter_score s1 (sub_call env s1)).penalty (iter_fcur s1 (sub_call env s1)) s1 = true) :
    (auglag_iter env s1).state.best
        = ((sub_call env s1).xcur, iter_fcur s1 (sub_call env s1),
            (iter_score s1 (sub_call env s1)).penalty, true)
      ∧ ((iter_score s1 (sub_call env s1)).penalty < s1.minf_penalty
          ∨ iter_fcur s1 (sub_call env s1) ≤ s1.minf) := by
  rw [state_at_add env n k s0 s hn] at hk
  have h1 : s1.minf_feasible = true :=
    state_at_invariant env (fun t => t.minf_feasible = true)
      (fun t ht => (feasible_step env t ht).1) k s s1 hf hk
  have hfeas := (feasible_step env s1 h1).2 hret hacc
  refine ⟨?_, ?_⟩
  · rw [iter_state_best, if_neg (not_lt.mpr hret), if_pos hacc, hfeas]
  · rcases (accept_iff _ _ _ _).mp hacc with ⟨_, h2 | h2 | h2⟩ | ⟨h2, _⟩
    · rw [h1] at h2; exact absurd h2 (by simp)
    · exact Or.inl h2
    · exact Or.inr h2
    · rw [h1] at h2; exact absurd h2 (by simp)

/-- C10: in a pass in which the sub-solver succeeds, the best record
(`x`, `*minf`, `minf_penalty`, `minf_feasible`) is replaced by the candidate
(`xcur`, `fcur`, `penalty`, `feasible`) if
`(feasible AND (best infeasible OR penalty < best penalty OR fcur <= best f))
 OR (best infeasible AND penalty <= best penalty)`, and is left unchanged if
not; in particular an infeasible candidate whose violation sum equals that of
an infeasible best is accepted. -/
theorem acceptance_rule (env : Env) (s : LoopState) (hret : 0 ≤ (sub_call env s).ret) :
    (AcceptRule (iter_score s (sub_call env s)).feasible (iter_score s (sub_call env s)).penalty
        (iter_fcur s (sub_call env s)) s →
      (auglag_iter env s).state.best
        = ((sub_call env s).xcur, iter_fcur s (sub_call env s),
            (iter_score s (sub_call env s)).penalty, (iter_score s (sub_call env s)).feasible))
    ∧ (¬ AcceptRule (iter_score s (sub_call env s)).feasible
          (iter_score s (sub_call env s)).penalty (iter_fcur s (sub_call env s)) s →
        (auglag_iter env s).state.best = s.best)
    ∧ ((iter_score s (sub_call env s)).feasible = false → s.minf_feasible = false →
        Dbl.eq (iter_score s (sub_call env s)).penalty s.minf_penalty = true →
        (auglag_iter env s).state.best
          = ((sub_call env s).xcur, iter_fcur s (sub_call env s),
              (iter_score s (sub_call env s)).penalty, false)) := by
  have hb := iter_state_best env s
  rw [if_neg (not_lt.mpr hret)] at hb
  refine ⟨?_, ?_, ?_⟩
  · intro ha
    rw [hb, if_pos ((accept_iff _ _ _ _).mpr ha)]
  · intro ha
    rw [hb, if_neg (fun h => ha ((accept_iff _ _ _ _).mp h))]
  · intro h1 h2 h3
    have hle : (iter_score s (sub_call env s)).penalty ≤ s.minf_penalty := by
      revert h3
      cases (iter_score s (sub_call env s)).penalty <;> cases s.minf_penalty <;>
        simp [Dbl.eq, dle_def, Dbl.le]
      intro h; exact le_of_eq h
    rw [hb, if_pos ((accept_iff _ _ _ _).mpr (Or.inr ⟨h2, hle⟩)), h1]

/-! ## The example run, pass by pass -/

@[simp]
theorem MAX_fin (a b : ℚ) : MAX (fin a) (fin b) = fin (max a b) := by
  simp only [MAX, fin_lt_fin]
  split_ifs with h
  · rw [max_eq_left h.le]
  · rw [max_eq_right (not_lt.mp h)]

@[simp]
theorem MIN_fin (a b : ℚ) : MIN (fin a) (fin b) = fin (min a b) := by
  simp only [MIN, fin_lt_fin]
  split_ifs with h
  · rw [min_eq_left h.le]
  · rw [min_eq_right (not_lt.mp h)]

theorem tau_eq : tau = fin (1 / 2) := by
  simp [tau]; norm_num

theorem gam_eq : gam = fin 10 := by
  simp [gam, dofNat_def]

@[simp]
theorem idx_zero (a : Dbl) (v : Vec) : idx (a :: v) 0 = a := rfl

@[simp]
theorem idx_succ (a : Dbl) (v : Vec) (j : Nat) : idx (a :: v) (j + 1) = idx v j := rfl

theorem run_s0_eq : run_s0 =
    { d := { f := run_f, m := 0, fc := [], p := 1, h := [run_h], rho := fin (1 / 1000000),
             lambda := [fin 0], mu := [], gradtmp := [fin 0, fin 0],
             stop := { run_stop with nevals := 1 } }
      xcur := [fin 0, fin 2], ICM := pinf, x := [fin 0, fin 2], minf := fin 0,
      minf_penalty := fin 2, minf_feasible := false, ret := 1, k := 0,
      trace := [Event.malloc, Event.eval_f [fin 0, fin 2], Event.eval_h 0 [fin 0, fin 2]] } := by
  simp only [run_s0, auglag_entry, auglag_init, auglag_setup, add_constraints_loop, run_env,
    auglag_data_of, init_h_loop, init_fc_loop, eval_events, run_f, run_h, idx_zero, idx_succ,
    run_stop, HUGE_VAL, dofNat_def, dzero_def, done_def, dsci_def, List.replicate,
    List.range_succ, List.range_zero, List.take, List.length, fabs_fin, fin_mul_fin, fin_add_fin,
    fin_div_fin, MAX_fin, MIN_fin]
  norm_num [MAX_fin, MIN_fin]

theorem run_pass0 : auglag_iter run_env run_s0 = .next run_s1 := by
  rw [run_s0_eq]
  simp only [auglag_iter, sub_call, run_env, iter_accept, iter_fcur, iter_score, iter_scored,
    iter_d, d_after_eval, d_after_sub, auglag_score, iter_h_loop, iter_fc_loop, accept,
    accept_ret, auglag_iter_tail, eval_events, run_f, run_h, idx_zero, idx_succ, run_stop, run_s1,
    HUGE_VAL, tau_eq, gam_eq, lam_min_eq, lam_max_eq, dofNat_def, dzero_def, done_def, dsci_def,
    List.range_succ, List.range_zero, List.take, List.length, fabs_fin, fin_mul_fin, fin_add_fin,
    MAX_fin, MIN_fin, NLOPT_SUCCESS, NLOPT_MINF_MAX_REACHED, if_true, ite_true]
  norm_num [MAX_fin, MIN_fin, Dbl.eq, dlt_def, dle_def, Dbl.lt, Dbl.le, dmul_def, Dbl.mul,
    Dbl.infOfSign, abs_of_nonneg]

theorem run_pass1_best :
    (auglag_iter run_env run_s1).state.best = ([fin 5, fin (1 / 4)], fin 5, fin (1 / 4), true) := by
  simp only [auglag_iter, sub_call, run_env, iter_accept, iter_fcur, iter_score, iter_scored,
    iter_d, d_after_eval, d_after_sub, auglag_score, iter_h_loop, iter_fc_loop, accept,
    accept_ret, auglag_iter_tail, eval_events, run_f, run_h, idx_zero, idx_succ, run_stop, run_s1,
    HUGE_VAL, tau_eq, gam_eq, lam_min_eq, lam_max_eq, dofNat_def, dzero_def, done_def, dsci_def,
    List.range_succ, List.range_zero, List.take, List.length, fabs_fin, fin_mul_fin, fin_add_fin,
    MAX_fin, MIN_fin, NLOPT_SUCCESS, NLOPT_MINF_MAX_REACHED, if_true, ite_true]
  norm_num [MAX_fin, MIN_fin, Dbl.eq, dlt_def, dle_def, Dbl.lt, Dbl.le, dmul_def, Dbl.mul,
    Dbl.infOfSign, abs_of_nonneg, Outcome.state, LoopState.best, NLOPT_SUCCESS,
    NLOPT_MINF_MAX_REACHED]

theorem run_state1 : state_at run_env 1 run_s0 = some run_s1 := by
  simp only [state_at, run_pass0]

/-! ## Witnesses and counterexamples -/

theorem gr_populates :
    populates 1 gr_f ∧ populates 1 gr_h.f ∧ populates 1 gr_g1.f ∧ populates 1 gr_g2.f :=
  ⟨fun _ _ _ => ⟨rfl, rfl⟩, fun _ _ _ => ⟨rfl, rfl⟩, fun _ _ _ => ⟨rfl, rfl⟩,
    fun _ _ _ => ⟨rfl, rfl⟩⟩

/-- Witness for `auglag_gradient`: at `x = 3`, with the caller's buffer holding
9 and the scratch buffer holding 7, the callbacks of `gr_d` populate their
buffer and the gradient written is the one of the specification. -/
theorem auglag_gradient_witness :
    (populates 1 gr_d.f ∧ (∀ c ∈ gr_d.h.take gr_d.p, populates 1 c.f)
      ∧ (∀ c ∈ gr_d.fc.take gr_d.m, populates 1 c.f))
    ∧ (auglag [fin 3] (some [fin 9]) gr_d).grad = some (grad_spec 1 gr_d [fin 3]) :=
  have hf : populates 1 gr_d.f := gr_populates.1
  have hh : ∀ c ∈ gr_d.h.take gr_d.p, populates 1 c.f := by
    intro c hc
    simp only [gr_d, List.take, List.mem_singleton] at hc
    subst hc
    exact gr_populates.2.1
  have hfc : ∀ c ∈ gr_d.fc.take gr_d.m, populates 1 c.f := by
    intro c hc
    simp only [gr_d, List.take, List.mem_cons, List.mem_singleton] at hc
    rcases hc with hc | hc | hc
    · subst hc; exact gr_populates.2.2.1
    · subst hc; exact gr_populates.2.2.2
    · simp at hc
  ⟨⟨hf, hh, hfc⟩, auglag_gradient 1 gr_d [fin 3] [fin 9] rfl rfl hf hh hfc⟩

/-- Witness for `multipliers_clamped`: the second pass of the example run. -/
theorem multipliers_clamped_witness :
    state_at run_env 1 run_s0 = some run_s1
    ∧ MultBounds run_s1.d ∧ MultBounds (auglag_iter run_env run_s1).state.d
    ∧ (0 ≤ (sub_call run_env run_s1).ret →
        ∀ (i : Nat) (c : nlopt_constraint) (lam : Dbl),
          (run_s1.d.h.take run_s1.d.p)[i]? = some c → run_s1.d.lambda[i]? = some lam →
          ∃ r, (auglag_iter run_env run_s1).state.d.lambda[i]? = some r ∧
            IsClamp r (lam + run_s1.d.rho * c.f.val (sub_call run_env run_s1).xcur)
              lam_min lam_max) :=
  have h := multipliers_clamped run_env (auglag_data_of run_f 0 [] 1 [run_h] run_stop false)
    [fin 0, fin 2] _ _ 1 run_s1 run_state1
  ⟨run_state1, h.2.1.2, h.2.2.1, fun hr => (h.2.2.2 hr).1⟩

/-- Witness for `rho_escalation`: the second pass of the example run. -/
theorem rho_escalation_witness :
    state_at run_env 1 run_s0 = some run_s1
    ∧ ((auglag_iter run_env run_s1).state.d.rho = run_s1.d.rho
        ∨ (auglag_iter run_env run_s1).state.d.rho = 10 * run_s1.d.rho)
    ∧ ¬ ((auglag_iter run_env run_s1).state.d.rho < run_s1.d.rho) :=
  have h := rho_escalation run_env (auglag_data_of run_f 0 [] 1 [run_h] run_stop false)
    [fin 0, fin 2] _ _ 1 run_s1 run_state1
  ⟨run_state1, h.2.2.2.1, h.2.2.2.2.1⟩

/-- Counterexample to C5 as stated: with no constraints, when the allocation
of the scratch block fails, `auglag_minimize` returns `NLOPT_OUT_OF_MEMORY`
without having invoked the sub-solver. -/
theorem no_constraints_alloc_failure :
    ∃ r, auglag_minimize nomem_env 1 run_f 0 [] 0 [] [fin 0, fin 2] (fin 7) run_stop false
        = some r
      ∧ r.ret = NLOPT_OUT_OF_MEMORY ∧ r.trace.filter Event.isOptimize = [] :=
  ⟨_, rfl, rfl, rfl⟩

/-- Witness for `no_constraints_one_invocation`: the environment `run_env`. -/
theorem no_constraints_one_invocation_witness :
    (0 ≤ run_env.nlopt_set_min_objective ∧ run_env.malloc_ok = true)
    ∧ ∃ r, auglag_minimize run_env (0 + 1) run_f 0 [] 0 [] [fin 0, fin 2] (fin 7) run_stop false
          = some r
        ∧ r.trace.filter Event.isOptimize = [Event.optimize 1 [] [] [fin 0, fin 2]] :=
  ⟨⟨by decide, rfl⟩,
    no_constraints_one_invocation run_env 0 run_f [] [] [fin 0, fin 2] (fin 7) run_stop false
      (by decide) (by decide) (by decide) (by decide) (by decide) rfl⟩

/-- Counterexample to C6 as stated, with no constraints. First run: the
sub-solver returns `NLOPT_SUCCESS` and `auglag_minimize` returns
`NLOPT_FTOL_REACHED`. Second run: the sub-solver fails after moving the point
to `(9, 9)` and `auglag_minimize` returns the initial guess `(0, 2)` in `x`. -/
theorem no_constraints_status_not_passed :
    (∃ r, auglag_minimize run_env 1 run_f 0 [] 0 [] [fin 0, fin 2] (fin 7) run_stop false
          = some r
        ∧ r.ret = NLOPT_FTOL_REACHED
        ∧ (sub_call run_env
            (auglag_entry run_env run_f 0 [] 0 [] [fin 0, fin 2] run_stop false)).ret
            = NLOPT_SUCCESS
        ∧ NLOPT_FTOL_REACHED ≠ NLOPT_SUCCESS)
    ∧ (∃ r, auglag_minimize fail_env 1 run_f 0 [] 0 [] [fin 0, fin 2] (fin 7) run_stop false
          = some r
        ∧ r.x = [fin 0, fin 2]
        ∧ (sub_call fail_env
            (auglag_entry fail_env run_f 0 [] 0 [] [fin 0, fin 2] run_stop false)).xcur
            = [fin 9, fin 9]
        ∧ [fin 0, fin 2] ≠ [fin 9, fin 9]) := by
  constructor
  · obtain ⟨hs1, hs2⟩ := setup_nc run_env [] (by decide) (by decide) (by decide) (by decide)
      (by decide)
    obtain ⟨e1, e2, e3, _⟩ := entry_nc run_env run_f [] [] [fin 0, fin 2] run_stop false hs2
    obtain ⟨s1, hit, _, _, hpos⟩ := nc_iter run_env _ e1 e2 e3
    refine ⟨s1.result, ?_, ?_, rfl, by decide⟩
    · rw [minimize_ok run_env _ run_f 0 [] 0 [] [fin 0, fin 2] (fin 7) run_stop false
        (by simpa using hs1) rfl, auglag_loop, hit]
      rfl
    · show s1.ret = _
      rw [(hpos (by decide)).2.2]
      simp [nc_status, sub_call, run_env, d_after_eval, d_after_sub, auglag_entry, auglag_init,
        auglag_data_of, run_stop, dlt_def, Dbl.lt, run_f]
  · obtain ⟨hs1, hs2⟩ := setup_nc fail_env [] (by decide) (by decide) (by decide) (by decide)
      (by decide)
    obtain ⟨e1, e2, e3, _, _, _, _, e8, _⟩ :=
      entry_nc fail_env run_f [] [] [fin 0, fin 2] run_stop false hs2
    obtain ⟨s1, hit, _, hneg, _⟩ := nc_iter fail_env _ e1 e2 e3
    refine ⟨s1.result, ?_, ?_, rfl, by simp⟩
    · rw [minimize_ok fail_env _ run_f 0 [] 0 [] [fin 0, fin 2] (fin 7) run_stop false
        (by simpa using hs1) rfl, auglag_loop, hit]
      rfl
    · show s1.x = _
      rw [(hneg (by decide)).2.1, e8]

/-- Witness for `no_constraints_result`: the environment `run_env`. -/
theorem no_constraints_result_witness :
    (0 ≤ run_env.nlopt_set_min_objective ∧ run_env.malloc_ok = true)
    ∧ ∃ r, auglag_minimize run_env (0 + 1) run_f 0 [] 0 [] [fin 0, fin 2] (fin 7) run_stop false
          = some r
        ∧ (0 ≤ (sub_call run_env
              (auglag_entry run_env run_f 0 [] 0 [] [fin 0, fin 2] run_stop false)).ret →
            r.ret = nc_status run_env
              (auglag_entry run_env run_f 0 [] 0 [] [fin 0, fin 2] run_stop false)) :=
  (no_constraints_result run_env 0 run_f [] [] [fin 0, fin 2] (fin 7) run_stop false
    (by decide) (by decide) (by decide) (by decide) (by decide) rfl).elim
    fun r hr => ⟨⟨by decide, rfl⟩, r, hr.1, fun h0 => (hr.2.2 h0).2.2⟩

/-- Witness for `subsolver_failure_aborts`: the sub-solver of `fail_env` fails
in the first pass, entered in the state `fail_s0`. -/
theorem subsolver_failure_aborts_witness :
    (state_at fail_env 0 fail_s0 = some fail_s0 ∧ (sub_call fail_env fail_s0).ret < 0)
    ∧ ∃ r, auglag_minimize fail_env (0 + 1 + 0) run_f 0 [] 1 [run_h] [fin 0, fin 2] (fin 7)
          run_stop false = some r
        ∧ r.ret = (sub_call fail_env fail_s0).ret
        ∧ r.trace = fail_s0.trace
            ++ [Event.optimize fail_s0.d.rho fail_s0.d.lambda fail_s0.d.mu fail_s0.xcur,
                Event.free]
        ∧ r.x = fail_s0.x ∧ r.minf = fail_s0.minf :=
  ⟨⟨rfl, by decide⟩,
    subsolver_failure_aborts fail_env run_f 0 [] 1 [run_h] [fin 0, fin 2] (fin 7) run_stop false
      0 0 fail_s0 (by decide) rfl rfl (by decide)⟩

theorem run_ret1 : 0 ≤ (sub_call run_env run_s1).ret := by decide

theorem run_accept1 :
    accept (iter_score run_s1 (sub_call run_env run_s1)).feasible
      (iter_score run_s1 (sub_call run_env run_s1)).penalty
      (iter_fcur run_s1 (sub_call run_env run_s1)) run_s1 = true := by
  simp only [sub_call, run_env, iter_fcur, iter_score, d_after_eval, d_after_sub, auglag_score,
    iter_h_loop, iter_fc_loop, accept, run_f, run_h, run_stop, run_s1, dzero_def, List.take]
  norm_num [abs_of_nonneg]

/-- Witness for `feasible_best_stays`: in the example run the best record is
feasible at the start of the second pass. -/
theorem feasible_best_stays_witness :
    (state_at run_env 1 run_s0 = some run_s1 ∧ run_s1.minf_feasible = true)
    ∧ (auglag_iter run_env run_s1).state.minf_feasible = true :=
  ⟨⟨run_state1, rfl⟩,
    (feasible_best_stays run_env run_s0 1 0 run_s1 run_s1 run_state1 rfl run_state1).2.1⟩

/-- Counterexample to C9 as stated: in the run of `auglag_minimize` on `run_f`
subject to `run_h` from `(0, 2)`, the first pass accepts the feasible point
`(1, 1/2)` as best, with `*minf = 1`, and the second pass accepts the
feasible point `(5, 1/4)`, with `fcur = 5 > 1`, because its violation sum
`1/4` is smaller than `1/2`. -/
theorem best_objective_can_increase :
    state_at run_env 1 run_s0 = some run_s1
    ∧ run_s1.best = ([fin 1, fin (1 / 2)], fin 1, fin (1 / 2), true)
    ∧ (auglag_iter run_env run_s1).state.best = ([fin 5, fin (1 / 4)], fin 5, fin (1 / 4), true)
    ∧ ¬ (fin 5 ≤ fin 1) :=
  ⟨run_state1, rfl, run_pass1_best, by simp⟩

/-- Witness for `best_objective_after_feasible`: the second pass of the
example run. -/
theorem best_objective_after_feasible_witness :
    (state_at run_env 1 run_s0 = some run_s1 ∧ run_s1.minf_feasible = true
      ∧ 0 ≤ (sub_call run_env run_s1).ret)
    ∧ ((iter_score run_s1 (sub_call run_env run_s1)).penalty < run_s1.minf_penalty
        ∨ iter_fcur run_s1 (sub_call run_env run_s1) ≤ run_s1.minf) :=
  ⟨⟨run_state1, rfl, run_ret1⟩,
    (best_objective_after_feasible run_env run_s0 1 0 run_s1 run_s1 run_state1 rfl run_state1
      run_ret1 run_accept1).2⟩

/-- Witness for `acceptance_rule`: the second pass of the example run. -/
theorem acceptance_rule_witness :
    0 ≤ (sub_call run_env run_s1).ret
    ∧ (AcceptRule (iter_score run_s1 (sub_call run_env run_s1)).feasible
          (iter_score run_s1 (sub_call run_env run_s1)).penalty
          (iter_fcur run_s1 (sub_call run_env run_s1)) run_s1 →
        (auglag_iter run_env run_s1).state.best
          = ((sub_call run_env run_s1).xcur, iter_fcur run_s1 (sub_call run_env run_s1),
              (iter_score run_s1 (sub_call run_env run_s1)).penalty,
              (iter_score run_s1 (sub_call run_env run_s1)).feasible)) :=
  ⟨run_ret1, (acceptance_rule run_env run_s1 run_ret1).1⟩

/-! ## The scores of a point (C11) -/

theorem dzero_add (a : Dbl) : 0 + a = a := by
  cases a <;> simp [dadd_def, Dbl.add, dzero_def]

theorem iter_h_loop_fst (x : Vec) (rho : Dbl) (cs : List nlopt_constraint) :
    ∀ (lams : List Dbl) (s : ScoreState), cs.length ≤ lams.length →
      (iter_h_loop x rho cs lams s).1
        = { penalty := s.penalty + dsum (cs.map fun c => fabs (c.f.val x))
            feasible := s.feasible && cs.all (fun c => decide (fabs (c.f.val x) ≤ c.tol))
            ICM := cs.foldl (fun a c => MAX a (fabs (c.f.val x))) s.ICM } := by
  induction cs with
  | nil => intro lams s _; simp [iter_h_loop, dsum, dadd_zero]
  | cons c cs ih =>
    intro lams s hl
    cases lams with
    | nil => simp at hl
    | cons lam lams =>
      simp only [iter_h_loop]
      rw [ih lams _ (by simpa using hl)]
      simp [dsum, dadd_assoc, Bool.and_assoc]

theorem iter_fc_loop_fst (x : Vec) (rho : Dbl) (cs : List nlopt_constraint) :
    ∀ (mus : List Dbl) (s : ScoreState), cs.length ≤ mus.length →
      (iter_fc_loop x rho cs mus s).1
        = { penalty := s.penalty + dsum (cs.map fun c => MAX (c.f.val x) 0)
            feasible := s.feasible && cs.all (fun c => decide (c.f.val x ≤ c.tol))
            ICM := (cs.zip mus).foldl
              (fun a cm => MAX a (fabs (MAX (cm.1.f.val x) (-cm.2 / rho)))) s.ICM } := by
  induction cs with
  | nil => intro mus s _; simp [iter_fc_loop, dsum, dadd_zero]
  | cons c cs ih =>
    intro mus s hl
    cases mus with
    | nil => simp at hl
    | cons mu mus =>
      simp only [iter_fc_loop]
      rw [ih mus _ (by simpa using hl)]
      simp [dsum, dadd_assoc, Bool.and_assoc, MAX]

theorem init_h_loop_eq (x : Vec) (cs : List nlopt_constraint) :
    ∀ (s : InitState),
      init_h_loop x cs s
        = { penalty := s.penalty + dsum (cs.map fun c => fabs (c.f.val x))
            feasible := s.feasible && cs.all (fun c => decide (fabs (c.f.val x) ≤ c.tol))
            con2 := s.con2 + dsum (cs.map fun c => c.f.val x * c.f.val x) } := by
  induction cs with
  | nil => intro s; simp [init_h_loop, dsum, dadd_zero]
  | cons c cs ih =>
    intro s
    simp only [init_h_loop]
    rw [ih]
    simp [dsum, dadd_assoc, Bool.and_assoc]

theorem dzero_mul_zero : (0 : Dbl) * 0 = 0 := by
  simp [dzero_def]

theorem init_fc_loop_eq (x : Vec) (cs : List nlopt_constraint) :
    ∀ (s : InitState),
      init_fc_loop x cs s
        = { penalty := s.penalty + dsum (cs.map fun c => MAX (c.f.val x) 0)
            feasible := s.feasible && cs.all (fun c => decide (c.f.val x ≤ c.tol))
            con2 := s.con2
              + dsum (cs.map fun c => MAX (c.f.val x) 0 * MAX (c.f.val x) 0) } := by
  induction cs with
  | nil => intro s; simp [init_fc_loop, dsum, dadd_zero]
  | cons c cs ih =>
    intro s
    simp only [init_fc_loop]
    rw [ih]
    by_cases hpos : 0 < c.f.val x
    · simp [dsum, dadd_assoc, Bool.and_assoc, MAX, hpos]
    · simp [dsum, dadd_assoc, Bool.and_assoc, MAX, hpos, dzero_mul_zero, dzero_add]

theorem score_eq (s : LoopState) (sub : SubResult)
    (hl : (s.d.h.take s.d.p).length ≤ s.d.lambda.length)
    (hm : (s.d.fc.take s.d.m).length ≤ s.d.mu.length) :
    iter_score s sub
      = { penalty := violation_sum (s.d.h.take s.d.p) (s.d.fc.take s.d.m) sub.xcur
          feasible := (s.d.h.take s.d.p).all (fun c => decide (fabs (c.f.val sub.xcur) ≤ c.tol))
            && (s.d.fc.take s.d.m).all (fun c => decide (c.f.val sub.xcur ≤ c.tol))
          ICM := ((s.d.fc.take s.d.m).zip s.d.mu).foldl
            (fun a cm => MAX a (fabs (MAX (cm.1.f.val sub.xcur) (-cm.2 / s.d.rho))))
            ((s.d.h.take s.d.p).foldl (fun a c => MAX a (fabs (c.f.val sub.xcur))) 0) } := by
  unfold iter_score auglag_score
  simp only [d_after_eval, d_after_sub]
  rw [iter_fc_loop_fst _ _ _ _ _ hm, iter_h_loop_fst _ _ _ _ _ hl]
  simp [violation_sum, dzero_add]

theorem visited_lengths (env : Env) (d0 : auglag_data) (x0 : Vec) (ret0 : Int)
    (tr0 : List Event) (n : Nat) (s : LoopState)
    (hs : state_at env n (auglag_init d0 x0 ret0 tr0) = some s) :
    (s.d.h.take s.d.p).length ≤ s.d.lambda.length
      ∧ (s.d.fc.take s.d.m).length ≤ s.d.mu.length := by
  obtain ⟨⟨_, h2, _, h4, _, h6, h7⟩, _, _⟩ := inv_state_at env d0 x0 ret0 tr0 n s hs
  constructor
  · rw [h6, ← h2]; exact List.length_take_le _ _
  · rw [h7, ← h4]; exact List.length_take_le _ _

theorem all_within_tol (hs gs : List nlopt_constraint) (x : Vec) :
    (hs.all (fun c => decide (fabs (c.f.val x) ≤ c.tol))
        && gs.all (fun c => decide (c.f.val x ≤ c.tol))) = true
      ↔ within_tol hs gs x := by
  simp [within_tol]

theorem init_scores (d0 : auglag_data) (x0 : Vec) (ret0 : Int) (tr0 : List Event)
    (hc : 0 < d0.p ∨ 0 < d0.m) :
    (auglag_init d0 x0 ret0 tr0).minf = d0.f.val x0
      ∧ (auglag_init d0 x0 ret0 tr0).minf_penalty
          = violation_sum (d0.h.take d0.p) (d0.fc.take d0.m) x0
      ∧ (auglag_init d0 x0 ret0 tr0).minf_feasible
          = ((d0.h.take d0.p).all (fun c => decide (fabs (c.f.val x0) ≤ c.tol))
              && (d0.fc.take d0.m).all (fun c => decide (c.f.val x0 ≤ c.tol)))
      ∧ (auglag_init d0 x0 ret0 tr0).d.rho
          = MAX 1e-6 (MIN 10 (2 * fabs (d0.f.val x0)
              / con2_spec (d0.h.take d0.p) (d0.fc.take d0.m) x0))
      ∧ (auglag_init d0 x0 ret0 tr0).x = x0 := by
  unfold auglag_init
  simp only [if_pos hc, init_fc_loop_eq, init_h_loop_eq]
  simp [violation_sum, con2_spec, dzero_add]

/-- C11: in every pass of the loop entered by `auglag_minimize` on the problem
`d0`, the pair (`penalty`, `feasible`) computed at the point `x` returned by the
sub-solver satisfies `penalty = sum_i |h_i(x)| + sum_j max(g_j(x), 0)` and
`feasible` is true if and only if every `|h_i(x)| <= tol_i` and every
`g_j(x) <= tol_j`, over all `p` equality constraints and the inequality
constraints folded into the penalty; and when there is such a constraint the
pair recorded for the initial guess satisfies the same. -/
theorem scores_of_point (env : Env) (d0 : auglag_data) (x0 : Vec) (ret0 : Int)
    (tr0 : List Event) (n : Nat) (s : LoopState)
    (hs : state_at env n (auglag_init d0 x0 ret0 tr0) = some s) :
    ((iter_score s (sub_call env s)).penalty
        = violation_sum (s.d.h.take s.d.p) (s.d.fc.take s.d.m) (sub_call env s).xcur
      ∧ ((iter_score s (sub_call env s)).feasible = true
          ↔ within_tol (s.d.h.take s.d.p) (s.d.fc.take s.d.m) (sub_call env s).xcur))
    ∧ (s.d.p = d0.p ∧ s.d.h = d0.h ∧ s.d.m = d0.m ∧ s.d.fc = d0.fc)
    ∧ (0 < d0.p ∨ 0 < d0.m →
        (auglag_init d0 x0 ret0 tr0).minf_penalty
          = violation_sum (d0.h.take d0.p) (d0.fc.take d0.m) x0
        ∧ ((auglag_init d0 x0 ret0 tr0).minf_feasible = true
            ↔ within_tol (d0.h.take d0.p) (d0.fc.take d0.m) x0)) := by
  obtain ⟨hl, hm⟩ := visited_lengths env d0 x0 ret0 tr0 n s hs
  obtain ⟨⟨_, h2, h3, h4, h5, _, _⟩, _, _⟩ := inv_state_at env d0 x0 ret0 tr0 n s hs
  refine ⟨⟨?_, ?_⟩, ⟨h2, h3, h4, h5⟩, ?_⟩
  · rw [score_eq s _ hl hm]
  · rw [score_eq s _ hl hm]
    exact all_within_tol _ _ _
  · intro hc
    obtain ⟨_, i2, i3, _, _⟩ := init_scores d0 x0 ret0 tr0 hc
    refine ⟨i2, ?_⟩
    rw [i3]
    exact all_within_tol _ _ _

/-! ## Exhausted evaluation budget (C12) -/

theorem tail_evals (env : Env) (s : LoopState) (hev : env.nlopt_stop_evals s.d.stop = true) :
    auglag_iter_tail env s
      = .done { s with ret := NLOPT_MAXEVAL_REACHED, trace := s.trace ++ [Event.free] } := by
  simp [auglag_iter_tail, hev]

theorem evals_iter (env : Env) (s : LoopState) (hret : 0 ≤ (sub_call env s).ret)
    (hev : env.nlopt_stop_evals (d_after_eval s (sub_call env s)).stop = true) :
    ∃ s1, auglag_iter env s = .done s1
      ∧ s1.ret
        = if accept (iter_score s (sub_call env s)).feasible
              (iter_score s (sub_call env s)).penalty (iter_fcur s (sub_call env s)) s = true
            ∧ accept_ret env (iter_score s (sub_call env s)).feasible
                (iter_score s (sub_call env s)).penalty (iter_fcur s (sub_call env s))
                (iter_scored s (sub_call env s)) ≠ NLOPT_SUCCESS
          then accept_ret env (iter_score s (sub_call env s)).feasible
            (iter_score s (sub_call env s)).penalty (iter_fcur s (sub_call env s))
            (iter_scored s (sub_call env s))
          else NLOPT_MAXEVAL_REACHED := by
  have hstop : (iter_scored s (sub_call env s)).d.stop
      = (d_after_eval s (sub_call env s)).stop := iter_d_stop s _
  rw [iter_state_ok env s (not_lt.mpr hret)]
  unfold iter_accept
  rw [accept_scored]
  by_cases ha : accept (iter_score s (sub_call env s)).feasible
      (iter_score s (sub_call env s)).penalty (iter_fcur s (sub_call env s)) s = true
  · simp only [ha, if_true, true_and]
    by_cases hr : accept_ret env (iter_score s (sub_call env s)).feasible
        (iter_score s (sub_call env s)).penalty (iter_fcur s (sub_call env s))
        (iter_scored s (sub_call env s)) = NLOPT_SUCCESS
    · simp only [hr, ne_eq, not_true_eq_false, if_false]
      rw [tail_evals env _ (by rw [← hev, ← hstop])]
      exact ⟨_, rfl, rfl⟩
    · simp only [ne_eq, hr, not_false_eq_true, if_true]
      exact ⟨_, rfl, rfl⟩
  · simp only [ha, Bool.false_eq_true, if_false, false_and]
    rw [tail_evals env _ (by rw [← hev, ← hstop])]
    exact ⟨_, rfl, rfl⟩

/-- C12 (as amended): in a run of `auglag_minimize`, if in a pass in which the
sub-solver succeeds `nlopt_stop_evals(stop)` holds after the evaluations of the
pass, then `auglag_minimize` returns in that pass; the status is
`NLOPT_MAXEVAL_REACHED` unless the candidate of the pass is accepted and a
stopping test of the acceptance block fires, in which case it is the reason of
that test. -/
theorem evals_exhausted_stops (env : Env) (f : nlopt_func)
    (m : Nat) (fc : List nlopt_constraint) (p : Nat) (h : List nlopt_constraint)
    (x : Vec) (minf : Dbl) (stop : nlopt_stopping) (sub_has_fc : Bool)
    (n k : Nat) (s : LoopState)
    (hsetup : 0 ≤ (auglag_setup env (if sub_has_fc then m else 0) fc).1)
    (hmalloc : env.malloc_ok = true)
    (hs : state_at env n (auglag_entry env f m fc p h x stop sub_has_fc) = some s)
    (hret : 0 ≤ (sub_call env s).ret)
    (hev : env.nlopt_stop_evals (d_after_eval s (sub_call env s)).stop = true) :
    ∃ r, auglag_minimize env (n + 1 + k) f m fc p h x minf stop sub_has_fc = some r
      ∧ r.ret
        = if accept (iter_score s (sub_call env s)).feasible
              (iter_score s (sub_call env s)).penalty (iter_fcur s (sub_call env s)) s = true
            ∧ accept_ret env (iter_score s (sub_call env s)).feasible
                (iter_score s (sub_call env s)).penalty (iter_fcur s (sub_call env s))
                (iter_scored s (sub_call env s)) ≠ NLOPT_SUCCESS
          then accept_ret env (iter_score s (sub_call env s)).feasible
            (iter_score s (sub_call env s)).penalty (iter_fcur s (sub_call env s))
            (iter_scored s (sub_call env s))
          else NLOPT_MAXEVAL_REACHED := by
  obtain ⟨s1, hit, hr⟩ := evals_iter env s hret hev
  refine ⟨s1.result, ?_, hr⟩
  rw [minimize_ok env _ f m fc p h x minf stop sub_has_fc (not_lt.mpr hsetup) hmalloc,
    state_at_loop env n _ s s1 hs hit k]
  rfl

/-! ## Release of the scratch block (C13) -/

theorem nc_run_result :
    auglag_minimize run_env 1 run_f 0 [] 0 [] [fin 0, fin 2] (fin 7) run_stop false
      = some { ret := NLOPT_FTOL_REACHED, x := [fin 1, fin (1 / 2)], minf := fin 1, nevals := 1,
               trace := [Event.malloc, Event.optimize (fin 1) [] [] [fin 0, fin 2],
                 Event.eval_f [fin 1, fin (1 / 2)]] } := by
  simp only [auglag_minimize, auglag_entry, auglag_init, auglag_setup, add_constraints_loop,
    run_env, auglag_data_of, auglag_loop, auglag_iter, sub_call, iter_accept, iter_fcur,
    iter_score, iter_scored, iter_d, d_after_eval, d_after_sub, auglag_score, iter_h_loop,
    iter_fc_loop, accept, accept_ret, auglag_iter_tail, eval_events, run_f, run_h, idx_zero,
    idx_succ, run_stop, HUGE_VAL, tau_eq, gam_eq, dofNat_def, dzero_def, done_def, dsci_def,
    List.range_zero, List.take, List.length, List.replicate, LoopState.result]
  norm_num [Dbl.eq, dlt_def, dle_def, Dbl.lt, Dbl.le, dmul_def, Dbl.mul, Dbl.infOfSign,
    NLOPT_SUCCESS, NLOPT_MINF_MAX_REACHED, NLOPT_FTOL_REACHED, LoopState.result]

/-- C13, the failing run: with no constraints, a sub-solver that succeeds and
no stopping test that fires, `auglag_minimize` leaves through the `return` of
line 219 with `NLOPT_FTOL_REACHED`: the scratch block has been allocated and
is not released. -/
theorem scratch_block_not_freed :
    ∃ r, auglag_minimize run_env 1 run_f 0 [] 0 [] [fin 0, fin 2] (fin 7) run_stop false
        = some r
      ∧ r.ret = NLOPT_FTOL_REACHED ∧ Event.malloc ∈ r.trace ∧ Event.free ∉ r.trace :=
  ⟨_, nc_run_result, rfl, by simp, by simp⟩

/-! ## The starting penalty (C14, C15) -/

theorem iter_trace (env : Env) (s : LoopState) :
    ∃ rest, (auglag_iter env s).state.trace
      = s.trace ++ Event.optimize s.d.rho s.d.lambda s.d.mu s.xcur :: rest := by
  by_cases hr : (sub_call env s).ret < 0
  · rw [iter_state_fail env s hr]
    exact ⟨[Event.free], by simp [Outcome.state]⟩
  · rw [iter_state_ok env s hr]
    unfold iter_accept auglag_iter_tail
    simp only [iter_scored]
    split_ifs <;> simp [Outcome.state]

/-- C14 (as amended): for a problem with at least one penalty-handled
constraint whose initial guess `x0` has a finite objective `f(x0) = a` and a
`con2 = sum_i h_i(x0)^2 + sum_j max(g_j(x0), 0)^2 = c` with
`1e-300 <= c <= 1e300` (so that in doubles `con2` is neither 0 nor `+inf`), the
loop is entered, and the first sub-solver invocation is made, with
`rho = max(1e-6, min(10, 2 |a| / c))`, so that `1e-6 <= rho <= 10`. -/
theorem initial_rho (env : Env) (d0 : auglag_data) (x0 : Vec) (ret0 : Int)
    (tr0 : List Event) (a c : ℚ) (hc : 0 < d0.p ∨ 0 < d0.m) (hf : d0.f.val x0 = fin a)
    (hcon : con2_spec (d0.h.take d0.p) (d0.fc.take d0.m) x0 = fin c)
    (hrange : 1 / 10 ^ 300 ≤ c ∧ c ≤ 10 ^ 300) :
    (auglag_init d0 x0 ret0 tr0).d.rho = fin (max (1 / 1000000) (min 10 (2 * |a| / c)))
    ∧ (1e-6 : Dbl) ≤ (auglag_init d0 x0 ret0 tr0).d.rho
    ∧ (auglag_init d0 x0 ret0 tr0).d.rho ≤ 10
    ∧ ∃ rest, (auglag_iter env (auglag_init d0 x0 ret0 tr0)).state.trace
        = (auglag_init d0 x0 ret0 tr0).trace
          ++ Event.optimize (fin (max (1 / 1000000) (min 10 (2 * |a| / c))))
              (auglag_init d0 x0 ret0 tr0).d.lambda (auglag_init d0 x0 ret0 tr0).d.mu
              (auglag_init d0 x0 ret0 tr0).xcur :: rest := by
  have hpos : 0 < c := lt_of_lt_of_le (by positivity) hrange.1
  have hrho : (auglag_init d0 x0 ret0 tr0).d.rho
      = fin (max (1 / 1000000) (min 10 (2 * |a| / c))) := by
    rw [(init_scores d0 x0 ret0 tr0 hc).2.2.2.1, hf, hcon]
    simp only [dofNat_def, dsci_def, fabs_fin, fin_mul_fin, fin_div_fin, if_neg hpos.ne',
      MIN_fin, MAX_fin]
    norm_num
  refine ⟨hrho, ?_, ?_, ?_⟩
  · rw [hrho]
    simp only [dsci_def, fin_le_fin]
    norm_num
  · rw [hrho]
    simp only [dofNat_def, fin_le_fin]
    exact max_le (by norm_num) (min_le_left _ _)
  · obtain ⟨rest, hrest⟩ := iter_trace env (auglag_init d0 x0 ret0 tr0)
    exact ⟨rest, by rw [hrest, hrho]⟩

/-- C15, the failing input: for the objective `run_f` subject to the equality
constraint `run_h`, from the initial guess `(0, 0)`, both `f(x0)` and `con2` are
0, the quotient `2 |f(x0)| / con2` is NaN, neither comparison of the clamp
holds of it, and the loop is entered with `rho` NaN (not 10). -/
theorem initial_rho_nan :
    run_f.val [fin 0, fin 0] = fin 0
    ∧ con2_spec [run_h] [] [fin 0, fin 0] = fin 0
    ∧ (auglag_entry run_env run_f 0 [] 1 [run_h] [fin 0, fin 0] run_stop false).d.rho = nan := by
  refine ⟨rfl, ?_, ?_⟩
  · simp [con2_spec, dsum, run_h, dzero_def]
  · refine Eq.trans (init_scores (auglag_data_of run_f 0 [] 1 [run_h] run_stop false)
      [fin 0, fin 0] _ _ (Or.inl (by decide))).2.2.2.1 ?_
    simp [auglag_data_of, con2_spec, dsum, run_f, run_h, dzero_def, dofNat_def, MAX, MIN,
      dlt_def, Dbl.lt]

theorem huge_con2 : con2_spec [huge_h] [] [fin 0, fin 2] = pinf := by
  simp [con2_spec, dsum, huge_h, HUGE_VAL, dzero_def, dmul_def, Dbl.mul, dadd_def, Dbl.add]

theorem huge_rho :
    (auglag_entry run_env huge_f 0 [] 1 [huge_h] [fin 0, fin 2] run_stop false).d.rho = nan := by
  refine Eq.trans (init_scores (auglag_data_of huge_f 0 [] 1 [huge_h] run_stop false)
    [fin 0, fin 2] _ _ (Or.inl (by decide))).2.2.2.1 ?_
  have h : con2_spec ((auglag_data_of huge_f 0 [] 1 [huge_h] run_stop false).h.take
      (auglag_data_of huge_f 0 [] 1 [huge_h] run_stop false).p)
      ((auglag_data_of huge_f 0 [] 1 [huge_h] run_stop false).fc.take
        (auglag_data_of huge_f 0 [] 1 [huge_h] run_stop false).m) [fin 0, fin 2] = pinf :=
    huge_con2
  rw [h]
  simp [auglag_data_of, huge_f, HUGE_VAL, dofNat_def, MAX, MIN, dlt_def, Dbl.lt, dmul_def,
    Dbl.mul, Dbl.infOfSign, Dbl.fabs]
  rfl

/-- Counterexample to C14 as stated: for an objective and an equality
constraint that both return `HUGE_VAL` at the initial guess, `con2` is `+inf > 0`
and `2 |f(x0)|` is `+inf`, the quotient is NaN and passes through both
comparisons of the clamp, so the first sub-solver invocation runs with `rho`
NaN, which is not in `[1e-6, 10]`. In doubles the same happens for finite
values whose products overflow, such as `f(x0) = 1e308` with `h(x0) = 1e200`. -/
theorem initial_rho_not_clamped :
    0 < con2_spec [huge_h] [] [fin 0, fin 2]
    ∧ (auglag_entry run_env huge_f 0 [] 1 [huge_h] [fin 0, fin 2] run_stop false).d.rho = nan
    ∧ ¬ ((1e-6 : Dbl) ≤ nan) ∧ ¬ (nan ≤ (10 : Dbl))
    ∧ ∃ rest, (auglag_iter run_env
          (auglag_entry run_env huge_f 0 [] 1 [huge_h] [fin 0, fin 2] run_stop false)).state.trace
        = (auglag_entry run_env huge_f 0 [] 1 [huge_h] [fin 0, fin 2] run_stop false).trace
          ++ Event.optimize nan [fin 0] [] [fin 0, fin 2] :: rest := by
  refine ⟨?_, huge_rho, by simp [dle_def, Dbl.le], by simp [dle_def, Dbl.le], ?_⟩
  · rw [huge_con2]
    simp [dzero_def, dlt_def, Dbl.lt]
  · obtain ⟨rest, hrest⟩ := iter_trace run_env
      (auglag_entry run_env huge_f 0 [] 1 [huge_h] [fin 0, fin 2] run_stop false)
    refine ⟨rest, ?_⟩
    rw [hrest, huge_rho]
    rfl

/-! ## The infeasibility measure (C16) -/

theorem icm_state1 : state_at icm_env 1 icm_s0 = some icm_s1 := by
  have h0 : icm_s0 =
      { d := { f := run_f, m := 1, fc := [icm_g], p := 1, h := [run_h], rho := fin 1,
               lambda := [fin 0], mu := [fin 0], gradtmp := [fin 0, fin 0, fin 0],
               stop := { run_stop with nevals := 1 } }
        xcur := [fin 2, fin 0, fin 2], ICM := pinf, x := [fin 2, fin 0, fin 2], minf := fin 2,
        minf_penalty := fin 2, minf_feasible := false, ret := 1, k := 0,
        trace := [Event.malloc, Event.eval_f [fin 2, fin 0, fin 2],
          Event.eval_h 0 [fin 2, fin 0, fin 2], Event.eval_fc 0 [fin 2, fin 0, fin 2]] } := by
    simp only [icm_s0, auglag_entry, auglag_init, auglag_setup, add_constraints_loop, icm_env,
      run_env, auglag_data_of, init_h_loop, init_fc_loop, eval_events, run_f, run_h, icm_g,
      idx_zero, idx_succ, run_stop, HUGE_VAL, dofNat_def, dzero_def, done_def, dsci_def,
      List.replicate, List.range_succ, List.range_zero, List.take, List.length, fabs_fin,
      fin_mul_fin, fin_add_fin, fin_div_fin, MAX_fin, MIN_fin]
    norm_num [MAX_fin, MIN_fin]
  have h1 : auglag_iter icm_env icm_s0 = .next icm_s1 := by
    rw [h0]
    simp only [auglag_iter, sub_call, icm_env, run_env, iter_accept, iter_fcur, iter_score,
      iter_scored, iter_d, d_after_eval, d_after_sub, auglag_score, iter_h_loop, iter_fc_loop,
      accept, accept_ret, auglag_iter_tail, eval_events, run_f, run_h, icm_g, idx_zero, idx_succ,
      run_stop, icm_s1, HUGE_VAL, tau_eq, gam_eq, lam_min_eq, lam_max_eq, mu_max_eq, dofNat_def,
      dzero_def, done_def, dsci_def, List.range_succ, List.range_zero, List.take, List.length,
      fabs_fin, fin_mul_fin, fin_add_fin, neg_fin, MAX_fin, MIN_fin, NLOPT_SUCCESS,
      NLOPT_MINF_MAX_REACHED, if_true, ite_true]
    norm_num [MAX_fin, MIN_fin, Dbl.eq, dlt_def, dle_def, Dbl.lt, Dbl.le, dmul_def, Dbl.mul,
      Dbl.infOfSign, abs_of_nonneg]
  simp only [state_at, h1]

theorem isFin_eq (v : Dbl) (h : v.isFin = true) : v = fin v.toRat := by
  cases v <;> simp_all [Dbl.isFin, Dbl.toRat]

theorem mu_isFin (u : Dbl) (h0 : 0 ≤ u) (h1 : u ≤ mu_max) : u.isFin = true ∧ 0 ≤ u.toRat := by
  rw [mu_max_eq] at h1
  rw [dzero_def] at h0
  cases u <;> simp_all [Dbl.isFin, Dbl.toRat, dle_def, Dbl.le]

theorem rho_isFin (rho : Dbl) (hok : RhoOK rho) (hpos : 0 < rho) :
    rho = fin rho.toRat ∧ 0 < rho.toRat := by
  rcases hok with h | ⟨q, hq, hq0⟩
  · subst h
    simp [dlt_def, dzero_def, Dbl.lt] at hpos
  · subst hq
    exact ⟨rfl, hq0⟩

theorem foldl_h_fin (x : Vec) (cs : List nlopt_constraint) :
    ∀ (q : ℚ), (∀ c ∈ cs, (c.f.val x).isFin = true) →
      cs.foldl (fun a c => MAX a (fabs (c.f.val x))) (fin q)
        = fin ((cs.map fun c => |(c.f.val x).toRat|).foldl max q) := by
  induction cs with
  | nil => intro q _; rfl
  | cons c cs ih =>
    intro q hfin
    have hc := isFin_eq _ (hfin c (List.mem_cons_self _ _))
    simp only [List.foldl_cons, List.map_cons]
    rw [← ih _ (fun c1 h1 => hfin c1 (List.mem_cons_of_mem _ h1))]
    congr 1
    rw [hc, fabs_fin, MAX_fin]
    rfl

theorem foldl_g_fin (x : Vec) (r : ℚ) (hr : r ≠ 0) (l : List (nlopt_constraint × Dbl)) :
    ∀ (q : ℚ), (∀ cm ∈ l, (cm.1.f.val x).isFin = true ∧ cm.2.isFin = true) →
      l.foldl (fun a cm => MAX a (fabs (MAX (cm.1.f.val x) (-cm.2 / fin r)))) (fin q)
        = fin ((l.map fun cm =>
            |max (cm.1.f.val x).toRat (-cm.2.toRat / r)|).foldl max q) := by
  induction l with
  | nil => intro q _; rfl
  | cons cm l ih =>
    intro q hfin
    have h1 := isFin_eq _ (hfin cm (List.mem_cons_self _ _)).1
    have h2 := isFin_eq _ (hfin cm (List.mem_cons_self _ _)).2
    simp only [List.foldl_cons, List.map_cons]
    rw [← ih _ (fun c1 hc1 => hfin c1 (List.mem_cons_of_mem _ hc1))]
    congr 1
    rw [h1, h2, neg_fin, fin_div_fin, if_neg hr, MAX_fin, fabs_fin, MAX_fin]
    rfl

theorem icm_of_finite (s : LoopState) (sub : SubResult)
    (hl : (s.d.h.take s.d.p).length ≤ s.d.lambda.length)
    (hm : (s.d.fc.take s.d.m).length ≤ s.d.mu.length)
    (hrho : s.d.rho = fin s.d.rho.toRat) (hr0 : s.d.rho.toRat ≠ 0)
    (hmu : ∀ u ∈ s.d.mu, u.isFin = true)
    (hfh : ∀ c ∈ s.d.h.take s.d.p, (c.f.val sub.xcur).isFin = true)
    (hfg : ∀ c ∈ s.d.fc.take s.d.m, (c.f.val sub.xcur).isFin = true) :
    (iter_score s sub).ICM
      = fin (icm_abs (eq_values s.d sub.xcur) (ineq_values s.d sub.xcur) s.d.rho.toRat) := by
  rw [score_eq s sub hl hm]
  simp only []
  rw [dzero_def, foldl_h_fin _ _ _ hfh, hrho, foldl_g_fin _ _ hr0 _ _ ?_]
  · simp only [icm_abs, eq_values, ineq_values, ineq_terms, List.foldl_append, List.map_map]
    rfl
  · intro cm hcm
    exact ⟨hfg _ (List.of_mem_zip hcm).1, hmu _ (List.of_mem_zip hcm).2⟩

/-- C16 (as amended): in a pass of the loop entered by `auglag_minimize` in
which the sub-solver succeeds, with `rho > 0` and finite constraint values at
the returned point `x`, the infeasibility measure computed is
`ICM = max(0, max_i |h_i(x)|, max_j |max(g_j(x), -mu_j/rho)|)`, where `mu_j >= 0`
and `rho` are the values held before the multiplier update and the escalation
of this pass: the absolute value of the complementarity term is taken. -/
theorem icm_computed (env : Env) (d0 : auglag_data) (x0 : Vec) (ret0 : Int)
    (tr0 : List Event) (n : Nat) (s : LoopState)
    (hs : state_at env n (auglag_init d0 x0 ret0 tr0) = some s)
    (hret : 0 ≤ (sub_call env s).ret) (hrho : 0 < s.d.rho)
    (hfh : ∀ c ∈ s.d.h.take s.d.p, (c.f.val (sub_call env s).xcur).isFin = true)
    (hfg : ∀ c ∈ s.d.fc.take s.d.m, (c.f.val (sub_call env s).xcur).isFin = true) :
    (auglag_iter env s).state.ICM
        = fin (icm_abs (eq_values s.d (sub_call env s).xcur)
            (ineq_values s.d (sub_call env s).xcur) s.d.rho.toRat)
      ∧ (∀ u ∈ s.d.mu, 0 ≤ u) := by
  obtain ⟨hl, hm⟩ := visited_lengths env d0 x0 ret0 tr0 n s hs
  obtain ⟨_, ⟨_, hb2⟩, hok⟩ := inv_state_at env d0 x0 ret0 tr0 n s hs
  obtain ⟨hr1, hr2⟩ := rho_isFin _ hok hrho
  refine ⟨?_, fun u hu => (hb2 u hu).1⟩
  rw [iter_state_ICM, if_neg (not_lt.mpr hret)]
  exact icm_of_finite s _ hl hm hr1 hr2.ne'
    (fun u hu => (mu_isFin u (hb2 u hu).1 (hb2 u hu).2).1) hfh hfg

theorem icm_pass1 :
    0 ≤ (sub_call icm_env icm_s1).ret
      ∧ (sub_call icm_env icm_s1).xcur = [fin 1, fin 0, fin (-1)]
      ∧ (iter_score icm_s1 (sub_call icm_env icm_s1)).ICM = fin 1
      ∧ icm_spec icm_s1.d (sub_call icm_env icm_s1).xcur = fin 0 := by
  refine ⟨by decide, by simp [sub_call, icm_env, icm_s1], ?_, ?_⟩
  · simp only [sub_call, icm_env, run_env, iter_score, d_after_eval, d_after_sub, auglag_score,
      iter_h_loop, iter_fc_loop, run_f, run_h, icm_g, idx_zero, idx_succ, run_stop, icm_s1,
      dzero_def, List.take, fabs_fin, fin_div_fin, neg_fin, MAX_fin]
    norm_num [MAX_fin, abs_of_nonneg]
  · simp only [sub_call, icm_env, run_env, icm_spec, ineq_terms, dmax, run_h, icm_g, idx_zero,
      idx_succ, icm_s1, List.take, List.map, List.zip, List.zipWith, fabs_fin, fin_div_fin,
      neg_fin]
    norm_num [MAX_fin, MAX, dlt_def, Dbl.lt]

/-- Counterexample to C16 as stated: in the run of `auglag_minimize` on `run_f`
subject to `run_h` and `icm_g` from `(2, 0, 2)`, the second pass begins with
`rho = 1` and `mu = 2` and the sub-solver returns `(1, 0, -1)`, where `h = 0` and
`g = -1`: the code computes `ICM = |max(-1, -2)| = 1`, the formula of the
specification gives `max(|0|, max(-1, -2)) = 0`. -/
theorem icm_not_spec_formula :
    state_at icm_env 1 icm_s0 = some icm_s1
    ∧ icm_s1.d.rho = fin 1 ∧ icm_s1.d.mu = [fin 2]
    ∧ (auglag_iter icm_env icm_s1).state.ICM = fin 1
    ∧ icm_spec icm_s1.d (sub_call icm_env icm_s1).xcur = fin 0
    ∧ fin 1 ≠ fin 0 :=
  ⟨icm_state1, rfl, rfl,
    by rw [iter_state_ICM, if_neg (not_lt.mpr icm_pass1.1)]; exact icm_pass1.2.2.1,
    icm_pass1.2.2.2, by simp⟩

/-! ## The best record before and after the first pass (C17) -/

theorem init_nc (d0 : auglag_data) (x0 : Vec) (ret0 : Int) (tr0 : List Event)
    (hc : ¬ (0 < d0.p ∨ 0 < d0.m)) :
    (auglag_init d0 x0 ret0 tr0).best = (x0, HUGE_VAL, HUGE_VAL, false) := by
  unfold auglag_init
  simp only [if_neg hc]
  rfl

/-- C17 (as amended): when `auglag_minimize` enters its loop, hence before the
first sub-solver invocation, the best record is the "no best" record
(`*minf = +inf`, violation sum `+inf`, flag false) if no constraint is handled by
the penalty, and otherwise is the record of the initial guess `x0`
(`*minf = f(x0)`, its violation sum and its feasibility flag); in every pass
thereafter, begun in whatever state `s`, the record changes only if the
sub-solver succeeds and the acceptance rule holds. -/
theorem best_record_changes (env : Env) (d0 : auglag_data) (x0 : Vec) (ret0 : Int)
    (tr0 : List Event) (s : LoopState) :
    (¬ (0 < d0.p ∨ 0 < d0.m) →
      (auglag_init d0 x0 ret0 tr0).best = (x0, HUGE_VAL, HUGE_VAL, false))
    ∧ (0 < d0.p ∨ 0 < d0.m →
        (auglag_init d0 x0 ret0 tr0).x = x0
        ∧ (auglag_init d0 x0 ret0 tr0).minf = d0.f.val x0
        ∧ (auglag_init d0 x0 ret0 tr0).minf_penalty
            = violation_sum (d0.h.take d0.p) (d0.fc.take d0.m) x0
        ∧ ((auglag_init d0 x0 ret0 tr0).minf_feasible = true
            ↔ within_tol (d0.h.take d0.p) (d0.fc.take d0.m) x0))
    ∧ ((auglag_iter env s).state.best ≠ s.best →
        0 ≤ (sub_call env s).ret
        ∧ AcceptRule (iter_score s (sub_call env s)).feasible
            (iter_score s (sub_call env s)).penalty (iter_fcur s (sub_call env s)) s) := by
  refine ⟨init_nc d0 x0 ret0 tr0, ?_, ?_⟩
  · intro hc
    obtain ⟨i1, i2, i3, _, i5⟩ := init_scores d0 x0 ret0 tr0 hc
    refine ⟨i5, i1, i2, ?_⟩
    rw [i3]
    exact all_within_tol _ _ _
  · intro hne
    rw [iter_state_best] at hne
    by_cases hr : (sub_call env s).ret < 0
    · rw [if_pos hr] at hne
      exact absurd rfl hne
    · rw [if_neg hr] at hne
      by_cases ha : accept (iter_score s (sub_call env s)).feasible
          (iter_score s (sub_call env s)).penalty (iter_fcur s (sub_call env s)) s = true
      · exact ⟨not_lt.mp hr, (accept_iff _ _ _ _).mp ha⟩
      · rw [if_neg ha] at hne
        exact absurd rfl hne

/-- Counterexample to C17 as stated: for `run_f` subject to `run_h`, from the
initial guess `(3, 1/2)`, the loop is entered, before any sub-solver
invocation, with the best record of the initial guess: `*minf = 3`, violation
sum `1/2` and the feasibility flag true. -/
theorem best_record_of_initial_guess :
    (auglag_entry run_env run_f 0 [] 1 [run_h] [fin 3, fin (1 / 2)] run_stop false).best
        = ([fin 3, fin (1 / 2)], fin 3, fin (1 / 2), true)
    ∧ (auglag_entry run_env run_f 0 [] 1 [run_h] [fin 3, fin (1 / 2)] run_stop false).trace
        = [Event.malloc, Event.eval_f [fin 3, fin (1 / 2)], Event.eval_h 0 [fin 3, fin (1 / 2)]]
    ∧ fin 3 ≠ HUGE_VAL := by
  refine ⟨?_, ?_, by simp [HUGE_VAL]⟩
  · simp only [auglag_entry, auglag_init, auglag_setup, add_constraints_loop, run_env,
      auglag_data_of, init_h_loop, init_fc_loop, run_f, run_h, idx_zero, idx_succ, dzero_def,
      List.take, fabs_fin, fin_add_fin, LoopState.best]
    norm_num [abs_of_nonneg]
  · simp only [auglag_entry, auglag_init, auglag_setup, add_constraints_loop, run_env,
      auglag_data_of, eval_events, List.take, List.length, List.range_succ, List.range_zero]
    norm_num

/-! ## The merit value against the objective (C18) -/

theorem dsum_fin_nonneg (l : List Dbl) (h : ∀ v ∈ l, ∃ q : ℚ, v = fin q ∧ 0 ≤ q) :
    ∃ t : ℚ, dsum l = fin t ∧ 0 ≤ t := by
  induction l with
  | nil => exact ⟨0, dzero_def, le_refl _⟩
  | cons v l ih =>
    obtain ⟨q, hq, hq0⟩ := h v (List.mem_cons_self _ _)
    obtain ⟨t, ht, ht0⟩ := ih (fun w hw => h w (List.mem_cons_of_mem _ hw))
    exact ⟨q + t, by rw [dsum, hq, ht, fin_add_fin], add_nonneg hq0 ht0⟩

theorem dsum_zero (l : List Dbl) (h : ∀ v ∈ l, v = 0) : dsum l = 0 := by
  induction l with
  | nil => rfl
  | cons v l ih =>
    rw [dsum, h v (List.mem_cons_self _ _), ih (fun w hw => h w (List.mem_cons_of_mem _ hw)),
      dzero_add]

theorem penalty_term_fin (x : Vec) (r : ℚ) (hr : 0 < r) (cm : nlopt_constraint × Dbl)
    (h1 : (cm.1.f.val x).isFin = true) (h2 : cm.2.isFin = true) :
    ∃ q : ℚ, penalty_term x (fin r) cm = fin q ∧ 0 ≤ q := by
  refine ⟨1 / 2 * r * (((cm.1.f.val x).toRat + cm.2.toRat / r)
    * ((cm.1.f.val x).toRat + cm.2.toRat / r)), ?_, ?_⟩
  · unfold penalty_term shifted
    rw [isFin_eq _ h1, isFin_eq _ h2]
    simp only [dsci_def, fin_div_fin, if_neg hr.ne', fin_add_fin, fin_mul_fin, Dbl.toRat]
    norm_num
  · exact mul_nonneg (by positivity) (mul_self_nonneg _)

theorem penalty_term_zero (x : Vec) (r : ℚ) (hr : 0 < r) (cm : nlopt_constraint × Dbl)
    (h1 : cm.1.f.val x = 0) (h2 : cm.2 = 0) :
    penalty_term x (fin r) cm = 0 := by
  unfold penalty_term shifted
  rw [h1, h2, dzero_def]
  simp only [dsci_def, fin_div_fin, if_neg hr.ne', fin_add_fin, fin_mul_fin]
  norm_num

theorem not_active (x : Vec) (r : ℚ) (hr : 0 < r) (cm : nlopt_constraint × Dbl)
    (h1 : cm.1.f.val x ≤ 0) (h2 : cm.2 = 0) :
    active x (fin r) cm = false := by
  unfold active shifted
  rw [h2, dzero_def] at *
  simp only [fin_div_fin, if_neg hr.ne', zero_div]
  revert h1
  cases cm.1.f.val x <;> simp [dle_def, dlt_def, Dbl.le, Dbl.lt, dadd_def, Dbl.add]

/-- C18 (as amended): for a finite penalty `rho >= 1e-300` (so that in doubles
`0.5 * rho` is not 0), a finite objective value and finite constraint values
and multipliers, the merit value returned by `auglag` is at least the
objective, `auglag(x) >= f(x)`; and `auglag(x) = f(x)` when all multipliers are
0, every `h_i(x) = 0` and every penalty-handled `g_j(x) <= 0`. -/
theorem merit_ge_objective (d : auglag_data) (x : Vec) (grad : Option Vec) (r : ℚ)
    (hrho : d.rho = fin r) (hlo : 1 / 10 ^ 300 ≤ r) (hf : (d.f.val x).isFin = true)
    (heq : ∀ cm ∈ eq_terms d, (cm.1.f.val x).isFin = true ∧ cm.2.isFin = true)
    (hineq : ∀ cm ∈ ineq_terms d, (cm.1.f.val x).isFin = true ∧ cm.2.isFin = true) :
    d.f.val x ≤ (auglag x grad d).L
    ∧ ((∀ cm ∈ eq_terms d, cm.2 = 0 ∧ cm.1.f.val x = 0) →
        (∀ cm ∈ ineq_terms d, cm.2 = 0 ∧ cm.1.f.val x ≤ 0) →
        (auglag x grad d).L = d.f.val x) := by
  have hr : 0 < r := lt_of_lt_of_le (by positivity) hlo
  have hL : (auglag x grad d).L
      = d.f.val x + dsum ((eq_terms d).map (penalty_term x d.rho))
        + dsum (((ineq_terms d).filter (active x d.rho)).map (penalty_term x d.rho)) := by
    unfold auglag eq_terms ineq_terms
    show (auglag_fc_loop x d.rho (d.fc.take d.m) d.mu
      (auglag_h_loop x d.rho (d.h.take d.p) d.lambda _)).L = _
    rw [auglag_fc_loop_L, auglag_h_loop_L]
  rw [hL, hrho]
  constructor
  · obtain ⟨t1, ht1, h1⟩ := dsum_fin_nonneg ((eq_terms d).map (penalty_term x (fin r))) (by
      intro v hv
      obtain ⟨cm, hcm, rfl⟩ := List.mem_map.mp hv
      exact penalty_term_fin x r hr cm (heq cm hcm).1 (heq cm hcm).2)
    obtain ⟨t2, ht2, h2⟩ := dsum_fin_nonneg
      (((ineq_terms d).filter (active x (fin r))).map (penalty_term x (fin r))) (by
      intro v hv
      obtain ⟨cm, hcm, rfl⟩ := List.mem_map.mp hv
      have hmem := (List.mem_filter.mp hcm).1
      exact penalty_term_fin x r hr cm (hineq cm hmem).1 (hineq cm hmem).2)
    rw [ht1, ht2, isFin_eq _ hf, fin_add_fin, fin_add_fin, fin_le_fin]
    linarith
  · intro hz1 hz2
    have e1 : dsum ((eq_terms d).map (penalty_term x (fin r))) = 0 := by
      apply dsum_zero
      intro v hv
      obtain ⟨cm, hcm, rfl⟩ := List.mem_map.mp hv
      exact penalty_term_zero x r hr cm (hz1 cm hcm).2 (hz1 cm hcm).1
    have e2 : (ineq_terms d).filter (active x (fin r)) = [] := by
      rw [List.filter_eq_nil_iff]
      intro cm hcm
      rw [not_active x r hr cm (hz2 cm hcm).2 (hz2 cm hcm).1]
      simp
    rw [e1, e2]
    simp [dsum, dadd_zero]

theorem fin_div_pinf (a : ℚ) : fin a / pinf = fin 0 := rfl

theorem inf_merit : (auglag [fin 1] none inf_d).L = nan := by
  simp only [auglag, inf_d, gr_d, auglag_h_loop, auglag_fc_loop, auglag_h_step, auglag_fc_step,
    call_grad, gr_f, gr_h, gr_g1, gr_g2, idx_zero, List.take, fin_mul_fin, fin_add_fin, neg_fin,
    fin_div_pinf, dsci_def, dzero_def]
  norm_num [dmul_def, Dbl.mul, Dbl.infOfSign, dadd_def, Dbl.add, dlt_def, Dbl.lt]

/-- Counterexample to C18 as stated: for `rho = +inf > 0` (the value that `rho`
takes in doubles once the escalation `rho *= gam` has overflowed), zero
multipliers, `h(x) = 0` and both `g_j(x) = -1 <= 0` at `x = 1`, the term
`0.5 * rho * h * h` is `inf * 0`, so `auglag(x)` is NaN: it is neither at least
`f(x) = 1` nor equal to it. -/
theorem merit_nan_at_infinite_rho :
    0 < inf_d.rho
    ∧ (∀ cm ∈ eq_terms inf_d, cm.2 = 0 ∧ cm.1.f.val [fin 1] = 0)
    ∧ (∀ cm ∈ ineq_terms inf_d, cm.2 = 0 ∧ cm.1.f.val [fin 1] ≤ 0)
    ∧ inf_d.f.val [fin 1] = fin 1
    ∧ (auglag [fin 1] none inf_d).L = nan
    ∧ ¬ (inf_d.f.val [fin 1] ≤ (auglag [fin 1] none inf_d).L)
    ∧ (auglag [fin 1] none inf_d).L ≠ inf_d.f.val [fin 1] := by
  have hf : inf_d.f.val [fin 1] = fin 1 := by
    simp only [inf_d, gr_d, gr_f, idx_zero, fin_mul_fin]
    norm_num
  refine ⟨by simp [inf_d, dzero_def, dlt_def, Dbl.lt], ?_, ?_, hf, inf_merit, ?_, ?_⟩
  · intro cm hcm
    simp only [eq_terms, inf_d, gr_d, List.take, List.zip, List.zipWith,
      List.mem_singleton] at hcm
    subst hcm
    refine ⟨by simp [dzero_def], ?_⟩
    simp only [gr_h, idx_zero, fin_add_fin, dzero_def]
    norm_num
  · intro cm hcm
    simp only [ineq_terms, inf_d, gr_d, List.take, List.zip, List.zipWith, List.mem_cons,
      List.mem_singleton] at hcm
    rcases hcm with hcm | hcm | hcm
    · subst hcm
      refine ⟨by simp [dzero_def], ?_⟩
      simp only [gr_g1, idx_zero, fin_add_fin, dzero_def, fin_le_fin]
      norm_num
    · subst hcm
      refine ⟨by simp [dzero_def], ?_⟩
      simp only [gr_g2, idx_zero, neg_fin, dzero_def, fin_le_fin]
      norm_num
    · simp at hcm
  · rw [inf_merit, hf]
    simp [dle_def, Dbl.le]
  · rw [inf_merit, hf]
    simp

/-! ## The exit on `ICM == 0` (C19) -/

theorem foldl_max_ge (l : List ℚ) :
    ∀ (q : ℚ), q ≤ l.foldl max q ∧ ∀ a ∈ l, a ≤ l.foldl max q := by
  induction l with
  | nil => intro q; exact ⟨le_refl _, fun a ha => absurd ha (List.not_mem_nil a)⟩
  | cons b l ih =>
    intro q
    obtain ⟨h1, h2⟩ := ih (max q b)
    refine ⟨le_trans (le_max_left _ _) h1, ?_⟩
    intro a ha
    rcases List.mem_cons.mp ha with rfl | ha
    · exact le_trans (le_max_right _ _) h1
    · exact h2 a ha

theorem zip_cover {α β : Type} (as : List α) :
    ∀ (bs : List β), as.length ≤ bs.length → ∀ a ∈ as, ∃ b, (a, b) ∈ as.zip bs := by
  induction as with
  | nil => intro bs _ a ha; exact absurd ha (List.not_mem_nil a)
  | cons a0 as ih =>
    intro bs hl a ha
    cases bs with
    | nil => simp at hl
    | cons b0 bs =>
      rcases List.mem_cons.mp ha with rfl | ha
      · exact ⟨b0, by simp⟩
      · obtain ⟨b, hb⟩ := ih bs (by simpa using hl) a ha
        exact ⟨b, by simp [hb]⟩

theorem dle_of_fin_nonpos (q : ℚ) (hq : q ≤ 0) (t : Dbl) (ht : 0 ≤ t) : fin q ≤ t := by
  rw [dzero_def] at ht
  cases t <;> simp_all [dle_def, Dbl.le]
  linarith

theorem quot_fin (u rho : Dbl) (h0 : 0 ≤ u) (h1 : u ≤ mu_max) (hrho : 0 < rho) :
    (-u / rho).isFin = true ∧ (-u / rho).toRat ≤ 0
      ∧ (∀ r q : ℚ, rho = fin r → u = fin q → (-u / rho).toRat = -q / r) := by
  rw [mu_max_eq] at h1
  rw [dzero_def] at h0 hrho
  cases u with
  | fin q =>
    have hq : 0 ≤ q := by simpa using h0
    cases rho with
    | fin r =>
      have hr : 0 < r := by simpa using hrho
      rw [neg_fin, fin_div_fin, if_neg hr.ne']
      refine ⟨rfl, ?_, ?_⟩
      · show -q / r ≤ 0
        exact div_nonpos_of_nonpos_of_nonneg (by linarith) hr.le
      · intro r1 q1 e1 e2
        cases e1
        cases e2
        rfl
    | pinf =>
      refine ⟨rfl, le_refl _, ?_⟩
      intro r1 q1 e1
      cases e1
    | ninf => simp [dlt_def, Dbl.lt] at hrho
    | nan => simp [dlt_def, Dbl.lt] at hrho
  | pinf => simp [dle_def, Dbl.le] at h1
  | ninf => simp [dle_def, Dbl.le] at h0
  | nan => simp [dle_def, Dbl.le] at h0

theorem foldl_gq_fin (x : Vec) (rho : Dbl) (l : List (nlopt_constraint × Dbl)) :
    ∀ (q : ℚ), (∀ cm ∈ l, (cm.1.f.val x).isFin = true ∧ (-cm.2 / rho).isFin = true) →
      l.foldl (fun a cm => MAX a (fabs (MAX (cm.1.f.val x) (-cm.2 / rho)))) (fin q)
        = fin ((l.map fun cm =>
            |max (cm.1.f.val x).toRat (-cm.2 / rho).toRat|).foldl max q) := by
  induction l with
  | nil => intro q _; rfl
  | cons cm l ih =>
    intro q hfin
    have h1 := isFin_eq _ (hfin cm (List.mem_cons_self _ _)).1
    have h2 := isFin_eq _ (hfin cm (List.mem_cons_self _ _)).2
    simp only [List.foldl_cons, List.map_cons]
    rw [← ih _ (fun c1 hc1 => hfin c1 (List.mem_cons_of_mem _ hc1))]
    congr 1
    rw [h1, h2, MAX_fin, fabs_fin, MAX_fin]
    rfl

theorem icm_terms_zero (s : LoopState) (sub : SubResult)
    (hl : (s.d.h.take s.d.p).length ≤ s.d.lambda.length)
    (hm : (s.d.fc.take s.d.m).length ≤ s.d.mu.length)
    (hrho : 0 < s.d.rho)
    (hmu : ∀ u ∈ s.d.mu, 0 ≤ u ∧ u ≤ mu_max)
    (hfh : ∀ c ∈ s.d.h.take s.d.p, (c.f.val sub.xcur).isFin = true)
    (hfg : ∀ c ∈ s.d.fc.take s.d.m, (c.f.val sub.xcur).isFin = true)
    (hz : Dbl.eq (iter_score s sub).ICM 0 = true) :
    (∀ c ∈ s.d.h.take s.d.p, (c.f.val sub.xcur).toRat = 0)
    ∧ (∀ cm ∈ ineq_terms s.d, (cm.1.f.val sub.xcur).toRat ≤ 0
        ∧ ((cm.1.f.val sub.xcur).toRat = 0 ∨ (-cm.2 / s.d.rho).toRat = 0)) := by
  have hq : ∀ cm ∈ ineq_terms s.d, (cm.1.f.val sub.xcur).isFin = true
      ∧ (-cm.2 / s.d.rho).isFin = true := by
    intro cm hcm
    have hu := hmu _ (List.of_mem_zip hcm).2
    exact ⟨hfg _ (List.of_mem_zip hcm).1, (quot_fin _ _ hu.1 hu.2 hrho).1⟩
  have hICM : (iter_score s sub).ICM
      = fin ((((s.d.h.take s.d.p).map fun c => |(c.f.val sub.xcur).toRat|)
          ++ (ineq_terms s.d).map fun cm =>
            |max (cm.1.f.val sub.xcur).toRat (-cm.2 / s.d.rho).toRat|).foldl max 0) := by
    rw [score_eq s sub hl hm]
    simp only []
    rw [dzero_def, foldl_h_fin _ _ _ hfh]
    have h2 := foldl_gq_fin sub.xcur s.d.rho (ineq_terms s.d)
      (((s.d.h.take s.d.p).map fun c => |(c.f.val sub.xcur).toRat|).foldl max 0) hq
    unfold ineq_terms at h2 ⊢
    rw [h2, List.foldl_append]
  rw [hICM] at hz
  have hz0 : (((s.d.h.take s.d.p).map fun c => |(c.f.val sub.xcur).toRat|)
      ++ (ineq_terms s.d).map fun cm =>
        |max (cm.1.f.val sub.xcur).toRat (-cm.2 / s.d.rho).toRat|).foldl max 0 = 0 := by
    simpa [Dbl.eq, dzero_def] using hz
  have hall := (foldl_max_ge (((s.d.h.take s.d.p).map fun c => |(c.f.val sub.xcur).toRat|)
      ++ (ineq_terms s.d).map fun cm =>
        |max (cm.1.f.val sub.xcur).toRat (-cm.2 / s.d.rho).toRat|) 0).2
  rw [hz0] at hall
  constructor
  · intro c hc
    have h1 : |(c.f.val sub.xcur).toRat| ≤ 0 :=
      hall _ (List.mem_append_left _ (List.mem_map.mpr ⟨c, hc, rfl⟩))
    exact abs_eq_zero.mp (le_antisymm h1 (abs_nonneg _))
  · intro cm hcm
    have h1 : |max (cm.1.f.val sub.xcur).toRat (-cm.2 / s.d.rho).toRat| ≤ 0 :=
      hall _ (List.mem_append_right _ (List.mem_map.mpr ⟨cm, hcm, rfl⟩))
    have h2 : max (cm.1.f.val sub.xcur).toRat (-cm.2 / s.d.rho).toRat = 0 :=
      abs_eq_zero.mp (le_antisymm h1 (abs_nonneg _))
    refine ⟨h2 ▸ le_max_left _ _, ?_⟩
    rcases max_choice (cm.1.f.val sub.xcur).toRat (-cm.2 / s.d.rho).toRat with hc | hc
    · exact Or.inl (hc ▸ h2)
    · exact Or.inr (hc ▸ h2)

/-- C19 (as amended): in a pass of the loop body of `auglag_minimize` begun in
any state with `rho > 0` (`+inf` included), multipliers `mu_j` in `[0, 1e20]`
and finite constraint values at the returned point `x`, if the `ICM` computed in
the pass equals 0 then every `h_i(x) = 0`, every penalty-handled `g_j(x) <= 0`
with `g_j(x) = 0` or the quotient `-mu_j/rho` equal to 0 as computed, so that
`g_j(x) = 0` whenever `rho` is finite and `mu_j/rho >= 1e-300`; the violation sum
is 0, and the feasibility flag is true whenever all tolerances are `>= 0`. -/
theorem icm_zero_exit (env : Env) (s : LoopState)
    (hl : (s.d.h.take s.d.p).length ≤ s.d.lambda.length)
    (hm : (s.d.fc.take s.d.m).length ≤ s.d.mu.length)
    (hrho : 0 < s.d.rho)
    (hmu : ∀ u ∈ s.d.mu, 0 ≤ u ∧ u ≤ mu_max)
    (hfh : ∀ c ∈ s.d.h.take s.d.p, (c.f.val (sub_call env s).xcur).isFin = true)
    (hfg : ∀ c ∈ s.d.fc.take s.d.m, (c.f.val (sub_call env s).xcur).isFin = true)
    (hz : Dbl.eq (iter_score s (sub_call env s)).ICM 0 = true) :
    (∀ c ∈ s.d.h.take s.d.p, c.f.val (sub_call env s).xcur = 0)
    ∧ (∀ c ∈ s.d.fc.take s.d.m, c.f.val (sub_call env s).xcur ≤ 0)
    ∧ (∀ cm ∈ ineq_terms s.d,
        cm.1.f.val (sub_call env s).xcur = 0 ∨ -cm.2 / s.d.rho = 0)
    ∧ (∀ cm ∈ ineq_terms s.d, ∀ r u : ℚ, s.d.rho = fin r → cm.2 = fin u →
        1 / 10 ^ 300 ≤ u / r → cm.1.f.val (sub_call env s).xcur = 0)
    ∧ (iter_score s (sub_call env s)).penalty = 0
    ∧ ((∀ c ∈ s.d.h.take s.d.p, 0 ≤ c.tol) → (∀ c ∈ s.d.fc.take s.d.m, 0 ≤ c.tol) →
        (iter_score s (sub_call env s)).feasible = true) := by
  obtain ⟨hE, hG⟩ := icm_terms_zero s (sub_call env s) hl hm hrho hmu hfh hfg hz
  have hh0 : ∀ c ∈ s.d.h.take s.d.p, c.f.val (sub_call env s).xcur = 0 := by
    intro c hc
    rw [isFin_eq _ (hfh c hc), dzero_def, hE c hc]
  have hg0 : ∀ c ∈ s.d.fc.take s.d.m, (c.f.val (sub_call env s).xcur).toRat ≤ 0 := by
    intro c hc
    obtain ⟨mu, hmu1⟩ := zip_cover _ _ hm c hc
    exact (hG (c, mu) hmu1).1
  have hcomp : ∀ cm ∈ ineq_terms s.d,
      cm.1.f.val (sub_call env s).xcur = 0 ∨ -cm.2 / s.d.rho = 0 := by
    intro cm hcm
    have hu := hmu _ (List.of_mem_zip hcm).2
    rcases (hG cm hcm).2 with h1 | h1
    · left
      rw [isFin_eq _ (hfg _ (List.of_mem_zip hcm).1), dzero_def, h1]
    · right
      rw [isFin_eq _ (quot_fin _ _ hu.1 hu.2 hrho).1, dzero_def, h1]
  refine ⟨hh0, ?_, hcomp, ?_, ?_, ?_⟩
  · intro c hc
    rw [isFin_eq _ (hfg c hc), dzero_def, fin_le_fin]
    exact hg0 c hc
  · intro cm hcm r u er eu hq
    rcases hcomp cm hcm with h1 | h1
    · exact h1
    · exfalso
      rw [er, eu, neg_fin, fin_div_fin] at h1
      have hpos : (0 : ℚ) < u / r := lt_of_lt_of_le (by positivity) hq
      have hr : r ≠ 0 := by
        intro h0
        rw [h0, div_zero] at hpos
        exact lt_irrefl _ hpos
      rw [if_neg hr, dzero_def] at h1
      have h2 : -u / r = 0 := by
        injection h1
      rw [neg_div] at h2
      linarith
  · rw [score_eq s _ hl hm]
    show violation_sum _ _ _ = 0
    unfold violation_sum
    rw [dsum_zero, dsum_zero, dzero_add]
    · intro v hv
      obtain ⟨c, hc, rfl⟩ := List.mem_map.mp hv
      rw [isFin_eq _ (hfg c hc), dzero_def, MAX_fin, max_eq_right (hg0 c hc)]
    · intro v hv
      obtain ⟨c, hc, rfl⟩ := List.mem_map.mp hv
      rw [hh0 c hc, dzero_def, fabs_fin, abs_zero]
  · intro ht1 ht2
    rw [score_eq s _ hl hm]
    show (_ && _) = true
    rw [all_within_tol]
    constructor
    · intro c hc
      rw [hh0 c hc, dzero_def, fabs_fin, abs_zero]
      exact dle_of_fin_nonpos 0 (le_refl _) _ (ht1 c hc)
    · intro c hc
      rw [isFin_eq _ (hfg c hc)]
      exact dle_of_fin_nonpos _ (hg0 c hc) _ (ht2 c hc)

theorem inf_pass :
    (sub_call icm_env inf_s).xcur = [fin 1, fin 0, fin (-1)]
    ∧ Dbl.eq (iter_score inf_s (sub_call icm_env inf_s)).ICM 0 = true
    ∧ (auglag_iter icm_env inf_s).state.ret = NLOPT_FTOL_REACHED := by
  refine ⟨by simp [sub_call, icm_env, inf_s, icm_s1], ?_, ?_⟩
  · simp only [sub_call, icm_env, run_env, iter_score, d_after_eval, d_after_sub, auglag_score,
      iter_h_loop, iter_fc_loop, run_f, run_h, icm_g, idx_zero, idx_succ, run_stop, inf_s, icm_s1,
      dzero_def, List.take, fabs_fin, neg_fin, fin_div_pinf, MAX_fin]
    norm_num [MAX_fin, abs_of_nonneg, Dbl.eq]
  · simp only [auglag_iter, sub_call, icm_env, run_env, iter_accept, iter_fcur, iter_score,
      iter_scored, iter_d, d_after_eval, d_after_sub, auglag_score, iter_h_loop, iter_fc_loop,
      accept, accept_ret, auglag_iter_tail, eval_events, run_f, run_h, icm_g, idx_zero, idx_succ,
      run_stop, inf_s, icm_s1, HUGE_VAL, tau_eq, gam_eq, lam_min_eq, lam_max_eq, mu_max_eq,
      dofNat_def, dzero_def, done_def, dsci_def, List.range_succ, List.range_zero, List.take,
      List.length, fabs_fin, fin_mul_fin, fin_add_fin, neg_fin, fin_div_pinf, MAX_fin, MIN_fin,
      NLOPT_SUCCESS, NLOPT_MINF_MAX_REACHED, if_true, ite_true]
    norm_num [MAX_fin, MIN_fin, Dbl.eq, dlt_def, dle_def, Dbl.lt, Dbl.le, dmul_def, Dbl.mul,
      Dbl.infOfSign, abs_of_nonneg, Outcome.state, NLOPT_FTOL_REACHED]

/-- Counterexample to C19 as stated: in a pass begun with `rho = +inf` (the
value that `rho` takes in doubles once the escalation `rho *= gam` has
overflowed) and `mu = 1e20 >= 0`, in which the sub-solver returns `(1, 0, -1)`,
the quotient `-mu/rho` is 0, the `ICM` computed is 0 and the function returns
`NLOPT_FTOL_REACHED` through the `ICM == 0` exit, although `g(x) = -1` is not 0
and `mu` is not 0. -/
theorem icm_zero_without_complementarity :
    0 < inf_s.d.rho ∧ (∀ u ∈ inf_s.d.mu, 0 ≤ u)
    ∧ Dbl.eq (iter_score inf_s (sub_call icm_env inf_s)).ICM 0 = true
    ∧ (auglag_iter icm_env inf_s).state.ret = NLOPT_FTOL_REACHED
    ∧ ineq_terms inf_s.d = [(icm_g, fin 100000000000000000000)]
    ∧ icm_g.f.val (sub_call icm_env inf_s).xcur = fin (-1)
    ∧ fin (-1) ≠ (0 : Dbl) ∧ fin 100000000000000000000 ≠ (0 : Dbl) := by
  refine ⟨by simp [inf_s, dzero_def, dlt_def, Dbl.lt], ?_, inf_pass.2.1, inf_pass.2.2, rfl, ?_,
    by simp [dzero_def], by simp [dzero_def]⟩
  · intro u hu
    simp only [inf_s, List.mem_singleton] at hu
    subst hu
    rw [dzero_def, fin_le_fin]
    norm_num
  · rw [inf_pass.1]
    rfl

/-! ## Inequality constraints handed to the sub-solver (C20) -/

/-- Witness for `scores_of_point`: the second pass of the example run. -/
theorem scores_of_point_witness :
    state_at run_env 1 run_s0 = some run_s1
    ∧ (iter_score run_s1 (sub_call run_env run_s1)).penalty
        = violation_sum (run_s1.d.h.take run_s1.d.p) (run_s1.d.fc.take run_s1.d.m)
            (sub_call run_env run_s1).xcur
    ∧ ((iter_score run_s1 (sub_call run_env run_s1)).feasible = true
        ↔ within_tol (run_s1.d.h.take run_s1.d.p) (run_s1.d.fc.take run_s1.d.m)
            (sub_call run_env run_s1).xcur) :=
  have h := scores_of_point run_env (auglag_data_of run_f 0 [] 1 [run_h] run_stop false)
    [fin 0, fin 2] _ _ 1 run_s1 run_state1
  ⟨run_state1, h.1.1, h.1.2⟩

theorem xtol_run :
    auglag_minimize xtol_env 1 run_f 0 [] 0 [] [fin 0, fin 2] (fin 7) run_stop false
      = some { ret := NLOPT_XTOL_REACHED, x := [fin 1, fin (1 / 2)], minf := fin 1, nevals := 1,
               trace := [Event.malloc, Event.optimize (fin 1) [] [] [fin 0, fin 2],
                 Event.eval_f [fin 1, fin (1 / 2)], Event.free] } := by
  simp only [auglag_minimize, auglag_entry, auglag_init, auglag_setup, add_constraints_loop,
    xtol_env, run_env, auglag_data_of, auglag_loop, auglag_iter, sub_call, iter_accept, iter_fcur,
    iter_score, iter_scored, iter_d, d_after_eval, d_after_sub, auglag_score, iter_h_loop,
    iter_fc_loop, accept, accept_ret, auglag_iter_tail, eval_events, run_f, run_h, idx_zero,
    idx_succ, run_stop, HUGE_VAL, tau_eq, gam_eq, dofNat_def, dzero_def, done_def, dsci_def,
    List.range_zero, List.take, List.length, List.replicate, LoopState.result]
  norm_num [Dbl.eq, dlt_def, dle_def, Dbl.lt, Dbl.le, dmul_def, Dbl.mul, Dbl.infOfSign,
    NLOPT_SUCCESS, NLOPT_MINF_MAX_REACHED, NLOPT_FTOL_REACHED, NLOPT_XTOL_REACHED,
    LoopState.result]

/-- Counterexample to C12 as stated: with no constraints, the sub-solver
succeeds in the first pass, `nlopt_stop_evals(stop)` holds after the
evaluations of the pass, and the candidate is accepted with `nlopt_stop_x`
firing: `auglag_minimize` returns `NLOPT_XTOL_REACHED`, not
`NLOPT_MAXEVAL_REACHED`. -/
theorem evals_exhausted_other_status :
    0 ≤ (sub_call xtol_env
          (auglag_entry xtol_env run_f 0 [] 0 [] [fin 0, fin 2] run_stop false)).ret
    ∧ xtol_env.nlopt_stop_evals
        (d_after_eval (auglag_entry xtol_env run_f 0 [] 0 [] [fin 0, fin 2] run_stop false)
          (sub_call xtol_env
            (auglag_entry xtol_env run_f 0 [] 0 [] [fin 0, fin 2] run_stop false))).stop = true
    ∧ (∃ r, auglag_minimize xtol_env 1 run_f 0 [] 0 [] [fin 0, fin 2] (fin 7) run_stop false
          = some r
        ∧ r.ret = NLOPT_XTOL_REACHED)
    ∧ NLOPT_XTOL_REACHED ≠ NLOPT_MAXEVAL_REACHED :=
  ⟨by decide, rfl, ⟨_, xtol_run, rfl⟩, by decide⟩

/-- Witness for `evals_exhausted_stops`: the first pass of the run on `run_f`
subject to `run_h` in the environment `maxeval_env`. -/
theorem evals_exhausted_stops_witness :
    (0 ≤ (auglag_setup maxeval_env (if false = true then 0 else 0) []).1
      ∧ maxeval_env.malloc_ok = true
      ∧ state_at maxeval_env 0
          (auglag_entry maxeval_env run_f 0 [] 1 [run_h] [fin 0, fin 2] run_stop false)
          = some (auglag_entry maxeval_env run_f 0 [] 1 [run_h] [fin 0, fin 2] run_stop false)
      ∧ 0 ≤ (sub_call maxeval_env
          (auglag_entry maxeval_env run_f 0 [] 1 [run_h] [fin 0, fin 2] run_stop false)).ret
      ∧ maxeval_env.nlopt_stop_evals
          (d_after_eval
            (auglag_entry maxeval_env run_f 0 [] 1 [run_h] [fin 0, fin 2] run_stop false)
            (sub_call maxeval_env
              (auglag_entry maxeval_env run_f 0 [] 1 [run_h] [fin 0, fin 2] run_stop
                false))).stop = true)
    ∧ ∃ r, auglag_minimize maxeval_env (0 + 1 + 0) run_f 0 [] 1 [run_h] [fin 0, fin 2] (fin 7)
          run_stop false = some r
        ∧ (r.ret = NLOPT_MAXEVAL_REACHED ∨ r.ret = NLOPT_MINF_MAX_REACHED
            ∨ r.ret = NLOPT_FTOL_REACHED ∨ r.ret = NLOPT_XTOL_REACHED) :=
  ⟨⟨by decide, rfl, rfl, by decide, rfl⟩,
    (evals_exhausted_stops maxeval_env run_f 0 [] 1 [run_h] [fin 0, fin 2] (fin 7) run_stop false
      0 0 _ (by decide) rfl rfl (by decide) rfl).elim
      fun r hr => ⟨r, hr.1, by
        rw [hr.2]
        unfold accept_ret
        split_ifs <;> simp_all⟩⟩

/-- Witness for `initial_rho`: `run_f` subject to `run_h` from `(0, 2)`, where
`f(x0) = 0` and `con2 = 4`. -/
theorem initial_rho_witness :
    ((0 < (auglag_data_of run_f 0 [] 1 [run_h] run_stop false).p
        ∨ 0 < (auglag_data_of run_f 0 [] 1 [run_h] run_stop false).m)
      ∧ run_f.val [fin 0, fin 2] = fin 0
      ∧ con2_spec [run_h] [] [fin 0, fin 2] = fin 4
      ∧ ((1 / 10 ^ 300 : ℚ) ≤ 4 ∧ (4 : ℚ) ≤ 10 ^ 300))
    ∧ run_s0.d.rho = fin (max (1 / 1000000) (min 10 (2 * |0| / 4)))
    ∧ (1e-6 : Dbl) ≤ run_s0.d.rho ∧ run_s0.d.rho ≤ 10 :=
  have hcon : con2_spec [run_h] [] [fin 0, fin 2] = fin 4 := by
    simp only [con2_spec, dsum, run_h, idx_succ, idx_zero, List.map, dzero_def, fin_mul_fin,
      fin_add_fin]
    norm_num
  have h := initial_rho run_env (auglag_data_of run_f 0 [] 1 [run_h] run_stop false)
    [fin 0, fin 2] (auglag_setup run_env 0 []).1 ((auglag_setup run_env 0 []).2 ++ [Event.malloc])
    0 4 (Or.inl (by decide)) rfl hcon ⟨by norm_num, by norm_num⟩
  ⟨⟨Or.inl (by decide), rfl, hcon, by norm_num, by norm_num⟩, h.1, h.2.1, h.2.2.1⟩

theorem icm_fin1 :
    (∀ c ∈ icm_s1.d.h.take icm_s1.d.p,
        (c.f.val (sub_call icm_env icm_s1).xcur).isFin = true)
    ∧ (∀ c ∈ icm_s1.d.fc.take icm_s1.d.m,
        (c.f.val (sub_call icm_env icm_s1).xcur).isFin = true)
    ∧ 0 < icm_s1.d.rho := by
  refine ⟨?_, ?_, ?_⟩
  · intro c hc
    simp only [icm_s1, List.take, List.mem_singleton] at hc
    subst hc
    rfl
  · intro c hc
    simp only [icm_s1, List.take, List.mem_singleton] at hc
    subst hc
    rfl
  · simp only [icm_s1, dzero_def, dlt_def, Dbl.lt]
    norm_num

/-- Witness for `icm_computed`: the second pass of the run on `run_f` subject
to `run_h` and `icm_g`. -/
theorem icm_computed_witness :
    (state_at icm_env 1 icm_s0 = some icm_s1 ∧ 0 ≤ (sub_call icm_env icm_s1).ret
      ∧ 0 < icm_s1.d.rho
      ∧ (∀ c ∈ icm_s1.d.h.take icm_s1.d.p,
          (c.f.val (sub_call icm_env icm_s1).xcur).isFin = true)
      ∧ (∀ c ∈ icm_s1.d.fc.take icm_s1.d.m,
          (c.f.val (sub_call icm_env icm_s1).xcur).isFin = true))
    ∧ (auglag_iter icm_env icm_s1).state.ICM
        = fin (icm_abs (eq_values icm_s1.d (sub_call icm_env icm_s1).xcur)
            (ineq_values icm_s1.d (sub_call icm_env icm_s1).xcur) icm_s1.d.rho.toRat) :=
  ⟨⟨icm_state1, icm_pass1.1, icm_fin1.2.2, icm_fin1.1, icm_fin1.2.1⟩,
    (icm_computed icm_env (auglag_data_of run_f 1 [icm_g] 1 [run_h] run_stop false)
      [fin 2, fin 0, fin 2] _ _ 1 icm_s1 icm_state1 icm_pass1.1 icm_fin1.2.2 icm_fin1.1
      icm_fin1.2.1).1⟩

theorem run_best_changes : (auglag_iter run_env run_s0).state.best ≠ run_s0.best := by
  rw [run_pass0, run_s0_eq]
  simp [Outcome.state, LoopState.best, run_s1]

/-- Witness for `best_record_changes`: the first pass of the example run, in
which the best record changes. -/
theorem best_record_changes_witness :
    (auglag_iter run_env run_s0).state.best ≠ run_s0.best
    ∧ 0 ≤ (sub_call run_env run_s0).ret
    ∧ AcceptRule (iter_score run_s0 (sub_call run_env run_s0)).feasible
        (iter_score run_s0 (sub_call run_env run_s0)).penalty
        (iter_fcur run_s0 (sub_call run_env run_s0)) run_s0 :=
  ⟨run_best_changes,
    (best_record_changes run_env (auglag_data_of run_f 0 [] 1 [run_h] run_stop false)
      [fin 0, fin 2] 0 [] run_s0).2.2 run_best_changes⟩

theorem gr_finite :
    (gr_d.f.val [fin 3]).isFin = true
    ∧ (∀ cm ∈ eq_terms gr_d, (cm.1.f.val [fin 3]).isFin = true ∧ cm.2.isFin = true)
    ∧ (∀ cm ∈ ineq_terms gr_d, (cm.1.f.val [fin 3]).isFin = true ∧ cm.2.isFin = true) := by
  refine ⟨rfl, ?_, ?_⟩
  · intro cm hcm
    simp only [eq_terms, gr_d, List.take, List.zip, List.zipWith, List.mem_singleton] at hcm
    subst hcm
    exact ⟨rfl, rfl⟩
  · intro cm hcm
    simp only [ineq_terms, gr_d, List.take, List.zip, List.zipWith, List.mem_cons,
      List.mem_singleton] at hcm
    rcases hcm with hcm | hcm | hcm
    · subst hcm; exact ⟨rfl, rfl⟩
    · subst hcm; exact ⟨rfl, rfl⟩
    · simp at hcm

/-- Witness for `merit_ge_objective`: the merit function `gr_d` at `x = 3`. -/
theorem merit_ge_objective_witness :
    (gr_d.rho = fin 2 ∧ (1 / 10 ^ 300 : ℚ) ≤ 2 ∧ (gr_d.f.val [fin 3]).isFin = true
      ∧ (∀ cm ∈ eq_terms gr_d, (cm.1.f.val [fin 3]).isFin = true ∧ cm.2.isFin = true)
      ∧ (∀ cm ∈ ineq_terms gr_d, (cm.1.f.val [fin 3]).isFin = true ∧ cm.2.isFin = true))
    ∧ gr_d.f.val [fin 3] ≤ (auglag [fin 3] none gr_d).L :=
  ⟨⟨rfl, by norm_num, gr_finite.1, gr_finite.2.1, gr_finite.2.2⟩,
    (merit_ge_objective gr_d [fin 3] none 2 rfl (by norm_num) gr_finite.1 gr_finite.2.1
      gr_finite.2.2).1⟩

theorem icm_s0_eq : icm_s0 = comp_s := by
  simp only [icm_s0, comp_s, auglag_entry, auglag_init, auglag_setup, add_constraints_loop,
    icm_env, run_env, auglag_data_of, init_h_loop, init_fc_loop, eval_events, run_f, run_h, icm_g,
    idx_zero, idx_succ, run_stop, HUGE_VAL, dofNat_def, dzero_def, done_def, dsci_def,
    List.replicate, List.range_succ, List.range_zero, List.take, List.length, fabs_fin,
    fin_mul_fin, fin_add_fin, fin_div_fin, MAX_fin, MIN_fin]
  norm_num [MAX_fin, MIN_fin]

theorem comp_pass :
    (comp_s.d.h.take comp_s.d.p).length ≤ comp_s.d.lambda.length
    ∧ (comp_s.d.fc.take comp_s.d.m).length ≤ comp_s.d.mu.length
    ∧ 0 < comp_s.d.rho
    ∧ (∀ u ∈ comp_s.d.mu, 0 ≤ u ∧ u ≤ mu_max)
    ∧ (∀ c ∈ comp_s.d.h.take comp_s.d.p,
        (c.f.val (sub_call comp_env comp_s).xcur).isFin = true)
    ∧ (∀ c ∈ comp_s.d.fc.take comp_s.d.m,
        (c.f.val (sub_call comp_env comp_s).xcur).isFin = true)
    ∧ Dbl.eq (iter_score comp_s (sub_call comp_env comp_s)).ICM 0 = true := by
  refine ⟨by decide, by decide, by simp [comp_s, dzero_def], ?_, ?_, ?_, ?_⟩
  · intro u hu
    simp only [comp_s, List.mem_singleton] at hu
    subst hu
    rw [mu_max_eq, dzero_def, fin_le_fin, fin_le_fin]
    norm_num
  · intro c hc
    simp only [comp_s, List.take, List.mem_singleton] at hc
    subst hc
    rfl
  · intro c hc
    simp only [comp_s, List.take, List.mem_singleton] at hc
    subst hc
    rfl
  · simp only [sub_call, comp_env, run_env, iter_score, d_after_eval, d_after_sub, auglag_score,
      iter_h_loop, iter_fc_loop, run_f, run_h, icm_g, idx_zero, idx_succ, run_stop, comp_s,
      dzero_def, List.take, fabs_fin, neg_fin, fin_div_fin, MAX_fin]
    norm_num [MAX_fin, abs_of_nonneg, Dbl.eq]

/-- Witness for `icm_zero_exit`: the first pass of the run on `run_f` subject
to `run_h` and `icm_g` from `(2, 0, 2)`, entered with `rho = 1` and `mu = 0`, when
the sub-solver returns `(1, 0, -1)`. -/
theorem icm_zero_exit_witness :
    ((comp_s.d.h.take comp_s.d.p).length ≤ comp_s.d.lambda.length
      ∧ (comp_s.d.fc.take comp_s.d.m).length ≤ comp_s.d.mu.length
      ∧ 0 < comp_s.d.rho
      ∧ (∀ u ∈ comp_s.d.mu, 0 ≤ u ∧ u ≤ mu_max)
      ∧ (∀ c ∈ comp_s.d.h.take comp_s.d.p,
          (c.f.val (sub_call comp_env comp_s).xcur).isFin = true)
      ∧ (∀ c ∈ comp_s.d.fc.take comp_s.d.m,
          (c.f.val (sub_call comp_env comp_s).xcur).isFin = true)
      ∧ Dbl.eq (iter_score comp_s (sub_call comp_env comp_s)).ICM 0 = true)
    ∧ (∀ c ∈ comp_s.d.h.take comp_s.d.p, c.f.val (sub_call comp_env comp_s).xcur = 0)
    ∧ (∀ c ∈ comp_s.d.fc.take comp_s.d.m, c.f.val (sub_call comp_env comp_s).xcur ≤ 0)
    ∧ (∀ cm ∈ ineq_terms comp_s.d,
        cm.1.f.val (sub_call comp_env comp_s).xcur = 0 ∨ -cm.2 / comp_s.d.rho = 0)
    ∧ (iter_score comp_s (sub_call comp_env comp_s)).penalty = 0 :=
  have h := icm_zero_exit comp_env comp_s comp_pass.1 comp_pass.2.1 comp_pass.2.2.1
    comp_pass.2.2.2.1 comp_pass.2.2.2.2.1 comp_pass.2.2.2.2.2.1 comp_pass.2.2.2.2.2.2
  ⟨comp_pass, h.1, h.2.1, h.2.2.1, h.2.2.2.2.1⟩

end Auglag
